import Mathlib

/-! # Zappy42 FaaS serving core: a shallow embedding and its checked properties

The definitions below follow the C sources of the repository
(`kv.c`, `gateway.c`, `load_balancer.c`, `metrics_collector.c`,
`metrics_smoother.c`, `scheduler_config.h`, `http_handler.c`, `faas_compiler.c`,
`kv_sqlite_sync.c`, `config_loader.c`, `worker.c`, `worker_protocol.h`).

Conventions of the embedding.
* A C string is the list of its characters before the terminating NUL.
* A `kv_node_t` chain is the list of its `(k, v)` nodes in `next` order.
* A `float` is modelled by the rational number it denotes (finite values);
  NaN and infinities are outside the model. The arithmetic of `apply_ema` is
  that of binary32, every operation rounded to nearest, ties to even; the
  other float expressions are computed exactly.
* An `int` is an integer in `[-2^31, 2^31)`; `++` wraps (two's complement)
  and `%` truncates toward zero, as the compiled code does.
-/

namespace Zappy

/-! ## kv.c : the in-memory route store -/

/-- The characters of a C string, terminating NUL excluded. -/
abbrev CStr := List Char

/-- A bucket chain: the `(k, v)` pairs of its nodes, head first. -/
abbrev Chain := List (CStr × CStr)

/-- The `struct kv`: bucket array, bucket count `cap`, pair count `n`. The
`size_t` count is kept as a natural number: it never exceeds the number of
live nodes, each of which occupies memory, so it cannot reach `2^64`. -/
structure kv where
  buckets : List Chain
  cap : Nat
  n : Nat
deriving DecidableEq, Repr

/-- FNV-1a, 64 bit: `h ^= (unsigned char)c; h *= 1099511628211` for each byte. -/
def fnv1a (s : CStr) : Nat :=
  s.foldl (fun h c => ((h ^^^ (c.toNat % 256)) * 1099511628211) % 2 ^ 64)
    1469598103934665603

/-- The function `kv_new` (allocation succeeding): at least 8 empty buckets. -/
def kv_new (capacity : Nat) : kv :=
  let capacity := if capacity < 8 then 8 else capacity
  { buckets := List.replicate capacity [], cap := capacity, n := 0 }

/-- The function `kv_clear`: every bucket emptied, `n` reset. -/
def kv_clear (m : kv) : kv :=
  { buckets := List.replicate m.cap [], cap := m.cap, n := 0 }

/-- The bucket index `fnv1a(key) % kv->cap`. -/
def bucket_index (m : kv) (key : CStr) : Nat :=
  fnv1a key % m.cap

/-- The search loop of `kv_get` along one chain: value of the first node whose
key compares equal (`strcmp == 0`). -/
def chain_get : Chain → CStr → Option CStr
  | [], _ => none
  | (k, v) :: rest, key => if k = key then some v else chain_get rest key

/-- The search loop of `kv_set` along one chain: the chain with the value of the
first matching node replaced, or `none` when the loop runs off the end. -/
def chain_set : Chain → CStr → CStr → Option Chain
  | [], _, _ => none
  | (k, v) :: rest, key, val =>
    if k = key then some ((k, val) :: rest)
    else (chain_set rest key val).map (fun r => (k, v) :: r)

/-- The search loop of `kv_del` along one chain: the chain with the first
matching node unlinked, or `none` when no node matches. -/
def chain_del : Chain → CStr → Option Chain
  | [], _ => none
  | (k, v) :: rest, key =>
    if k = key then some rest
    else (chain_del rest key).map (fun r => (k, v) :: r)

/-- The function `kv_set`: return code and resulting store. `mem_ok` says
whether the `strdup`/`malloc` of this call succeeds; when it does not the
call returns `-1` and the store is untouched. -/
def kv_set (mem_ok : Bool) (m : kv) (key val : CStr) : Int × kv :=
  let idx := bucket_index m key
  let chain := m.buckets.getD idx []
  match chain_set chain key val with
  | some chain' =>
    if mem_ok then (0, { m with buckets := m.buckets.set idx chain' })
    else (-1, m)
  | none =>
    if mem_ok then
      (0, { buckets := m.buckets.set idx ((key, val) :: chain), cap := m.cap, n := m.n + 1 })
    else (-1, m)

/-- The function `kv_get`: `none` is the NULL result. -/
def kv_get (m : kv) (key : CStr) : Option CStr :=
  chain_get (m.buckets.getD (bucket_index m key) []) key

/-- The function `kv_del`: return code (1 removed, 0 absent) and resulting store. -/
def kv_del (m : kv) (key : CStr) : Int × kv :=
  let idx := bucket_index m key
  match chain_del (m.buckets.getD idx []) key with
  | some chain' => (1, { buckets := m.buckets.set idx chain', cap := m.cap, n := m.n - 1 })
  | none => (0, m)

/-- The function `kv_size`. -/
def kv_size (m : kv) : Nat := m.n

/-- The function `kv_capacity`. -/
def kv_capacity (m : kv) : Nat := m.cap

/-- The shape every allocated store has: `cap` buckets, `cap` positive. -/
def kv_shaped (m : kv) : Prop :=
  m.buckets.length = m.cap ∧ 0 < m.cap

instance (m : kv) : Decidable (kv_shaped m) := by
  unfold kv_shaped; infer_instance

/-- One mutation of the store, as a caller can issue it. -/
inductive KvOp where
  | set (key val : CStr) (mem_ok : Bool)
  | del (key : CStr)
  | clear
deriving DecidableEq, Repr

/-- The store after one mutation. -/
def kv_apply (m : kv) : KvOp → kv
  | .set key val mem_ok => (kv_set mem_ok m key val).2
  | .del key => (kv_del m key).2
  | .clear => kv_clear m

/-- The store reached from `kv_new capacity` by the calls `ops`, in order. -/
def kv_run (capacity : Nat) (ops : List KvOp) : kv :=
  ops.foldl kv_apply (kv_new capacity)

/-- The invariant of the store: allocated shape, no key twice in a chain, and
`n` counts a duplicate-free list of exactly the keys `kv_get` finds. -/
def kv_inv (m : kv) : Prop :=
  kv_shaped m ∧ (∀ c ∈ m.buckets, (c.map Prod.fst).Nodup) ∧
    ∃ ks : List CStr, ks.Nodup ∧ (∀ k, k ∈ ks ↔ (kv_get m k).isSome) ∧ m.n = ks.length

/-! ## metrics.h, metrics_collector.c, gateway.c, load_balancer.c :
telemetry slots and worker selection -/

/-- The record `worker_metrics_t` of `metrics.h`. -/
structure worker_metrics_t where
  pid : Int := 0
  worker_id : Int := 0
  cpu : ℚ := 0
  mem : ℚ := 0
  io : ℚ := 0
  score : ℚ := 0
  requests : Nat := 0
  errors : Nat := 0
  timestamp : Nat := 0
  status : CStr := []
deriving DecidableEq

/-- The static array `worker_metrics[30]` of the collector, by index; only
indices below 30 exist and only those are ever read. -/
abbrev Slots := Nat → worker_metrics_t

/-- The array as the loader leaves it: every field of every slot zero. -/
def idle_slots : Slots := fun _ => {}

/-- The function `update_worker_metrics`: the slot at `m.worker_id` is replaced
when the id is within `[0, 30)`, nothing happens otherwise. -/
def update_worker_metrics (slots : Slots) (m : worker_metrics_t) : Slots :=
  if m.worker_id < 0 ∨ m.worker_id ≥ 30 then slots
  else Function.update slots m.worker_id.toNat m

/-- The function `get_worker_metrics`: `none` is the `-1` result, `some m` the
copy delivered with result `0`. -/
def get_worker_metrics (slots : Slots) (worker_id : Int) : Option worker_metrics_t :=
  if worker_id < 0 ∨ worker_id ≥ 30 then none else some (slots worker_id.toNat)

/-- The constant `NUM_WORKERS` of `gateway.c`. -/
def NUM_WORKERS : Nat := 4

/-- The constant `NUM_WORKERS` of `load_balancer.c`. -/
def LB_NUM_WORKERS : Nat := 2

/-- An `int` after an arithmetic step: reduced into `[-2^31, 2^31)`. -/
def int32_wrap (x : Int) : Int :=
  (x + 2147483648) % 4294967296 - 2147483648

/-- One iteration of the `for` loop of `select_worker`, on the pair
`(best_worker, best_score)`. -/
def select_scan_step (slots : Slots) (st : Int × ℚ) (i : Nat) : Int × ℚ :=
  match get_worker_metrics slots i with
  | some m => if m.timestamp > 0 ∧ m.score < st.2 then ((i : Int), m.score) else st
  | none => st

/-- The whole `for (i = 0; i < N; i++)` loop of `select_worker`, started at
`best_worker = -1`, `best_score = 1000000.0f`. -/
def select_scan (N : Nat) (slots : Slots) : Int × ℚ :=
  (List.range N).foldl (select_scan_step slots) (-1, 1000000)

/-- The function `select_worker` for a pool of `N` workers: the returned worker
id and the value of the static `fallback_counter` after the call. -/
def select_worker (N : Nat) (slots : Slots) (fallback_counter : Int) : Int × Int :=
  let best := select_scan N slots
  if best.1 = -1 then
    (Int.tmod fallback_counter (N : Int), int32_wrap (fallback_counter + 1))
  else (best.1, fallback_counter)

/-- Successive calls of `select_worker`, one per element of `ss` (the slot
contents at the time of that call): the ids returned, in order, and the
final counter. -/
def select_calls (N : Nat) : List Slots → Int → List Int × Int
  | [], c => ([], c)
  | s :: rest, c =>
    let r := select_worker N s c
    let t := select_calls N rest r.2
    (r.1 :: t.1, t.2)

/-- A call that takes the round-robin branch: no slot below `N` has both a
timestamp above zero and a score below the initial `best_score`. -/
def fallback_call (N : Nat) (s : Slots) : Prop :=
  ∀ i < N, (s i).timestamp > 0 → 1000000 ≤ (s i).score

instance (N : Nat) (s : Slots) : Decidable (fallback_call N s) := by
  unfold fallback_call; infer_instance

/-- The number of calls in `history` that take the round-robin branch. -/
def fallback_count (N : Nat) (history : List Slots) : Nat :=
  history.countP (fun s => decide (fallback_call N s))

/-! ## scheduler_config.h, metrics_smoother.c : normalisation, EMA, score -/

/-- The weight `ALPHA` (0.5f) of the CPU term. -/
def ALPHA : ℚ := 1 / 2

/-- The weight `BETA` (0.3f) of the memory term. -/
def BETA : ℚ := 3 / 10

/-- The weight `GAMMA` (0.2f) of the I/O term. -/
def GAMMA : ℚ := 1 / 5

/-- The smoothing factor `EMA_FACTOR`: the binary32 value of the literal `0.7f`,
which is `11744051 / 2^24`. -/
def EMA_FACTOR : ℚ := 11744051 / 16777216

/-- The constant `MAX_CPU_PERCENT` (100.0f). -/
def MAX_CPU_PERCENT : ℚ := 100

/-- The constant `MAX_MEM_MB` (512.0f). -/
def MAX_MEM_MB : ℚ := 512

/-- The constant `MAX_IO_RATE` (10000.0f). -/
def MAX_IO_RATE : ℚ := 10000

/-- The record `metrics_smoother_t`. -/
structure metrics_smoother_t where
  cpu_smoothed : ℚ
  mem_smoothed : ℚ
  io_smoothed : ℚ
  initialized : Int
deriving DecidableEq

/-- The function `metrics_smoother_init`. -/
def metrics_smoother_init : metrics_smoother_t :=
  { cpu_smoothed := 0, mem_smoothed := 0, io_smoothed := 0, initialized := 0 }

/-- The static function `normalize`. -/
def normalize (value max_value : ℚ) : ℚ :=
  if max_value ≤ 0 then 0
  else
    let normalized := (value / max_value) * 100
    let normalized := if normalized < 0 then 0 else normalized
    if normalized > 100 then 100 else normalized

/-- Rounding to the nearest integer, a tie going to the even one. -/
def round_half_even (q : ℚ) : ℤ :=
  if q - ⌊q⌋ < 1 / 2 then ⌊q⌋
  else if 1 / 2 < q - ⌊q⌋ then ⌊q⌋ + 1
  else if ⌊q⌋ % 2 = 0 then ⌊q⌋
  else ⌊q⌋ + 1

/-- The spacing of the binary32 values around `q`: `2 ^ (e - 23)`, where `e` is
the binary exponent of `q`, not below the least exponent -126. -/
def ulp32 (q : ℚ) : ℚ := (2 : ℚ) ^ (max (Int.log 2 |q|) (-126) - 23)

/-- The result a binary32 operation delivers for the exact result `q`: the
nearest multiple of the spacing, a tie going to the even one (the default
rounding of IEEE 754). Overflow to infinity is not modelled. -/
def round32 (q : ℚ) : ℚ := round_half_even (q / ulp32 q) * ulp32 q

/-- The static function `apply_ema`, in binary32 as the code computes it: the
difference `1.0f - EMA_FACTOR`, the two products and the sum are each rounded. -/
def apply_ema (old_value new_value : ℚ) (initialized : Int) : ℚ :=
  if initialized = 0 then new_value
  else
    round32 (round32 (EMA_FACTOR * old_value) +
      round32 (round32 (1 - EMA_FACTOR) * new_value))

/-- The three values written through `cpu_out`, `mem_out`, `io_out`. -/
structure smoothed_out where
  cpu : ℚ
  mem : ℚ
  io : ℚ
deriving DecidableEq

/-- The raw sample handed to one `metrics_smoother_update` call. -/
structure raw_sample where
  cpu_raw : ℚ
  mem_raw_mb : ℚ
  io_raw : ℚ
deriving DecidableEq

/-- The function `metrics_smoother_update`: the smoother after the call and the
values written to the three out-parameters. -/
def metrics_smoother_update (smoother : metrics_smoother_t) (r : raw_sample) :
    metrics_smoother_t × smoothed_out :=
  let cpu_norm := normalize r.cpu_raw MAX_CPU_PERCENT
  let mem_norm := normalize r.mem_raw_mb MAX_MEM_MB
  let io_norm := normalize r.io_raw MAX_IO_RATE
  let cpu := apply_ema smoother.cpu_smoothed cpu_norm smoother.initialized
  let mem := apply_ema smoother.mem_smoothed mem_norm smoother.initialized
  let io := apply_ema smoother.io_smoothed io_norm smoother.initialized
  ({ cpu_smoothed := cpu, mem_smoothed := mem, io_smoothed := io, initialized := 1 },
   { cpu := cpu, mem := mem, io := io })

/-- The function `calculate_load_score`. -/
def calculate_load_score (cpu_norm mem_norm io_norm : ℚ) : ℚ :=
  ALPHA * cpu_norm + BETA * mem_norm + GAMMA * io_norm

/-- Successive `metrics_smoother_update` calls on the samples `rs`, starting from
`smoother`: the final smoother and the outputs of each call, in order. -/
def smoother_run (smoother : metrics_smoother_t) :
    List raw_sample → metrics_smoother_t × List smoothed_out
  | [] => (smoother, [])
  | r :: rest =>
    let u := metrics_smoother_update smoother r
    let t := smoother_run u.1 rest
    (t.1, u.2 :: t.2)

/-- A smoothed value within the normalised range. -/
def in_range (x : ℚ) : Prop := 0 ≤ x ∧ x ≤ 100

/-! ## worker.c, metrics_collector.c : the telemetry a worker reports -/

/-- The fields of `worker_state_t` that `send_metrics` reads or writes. -/
structure worker_state_t where
  worker_id : Int
  total_requests : Nat
  total_errors : Nat
  is_busy : Int
  smoother : metrics_smoother_t
deriving DecidableEq

/-- The function `send_metrics` of the worker process `pid`, for the raw
readings `r` taken at the time `now` (the result of `get_timestamp_ms`): the
worker state after the call and the datagram sent to the collector. -/
def send_metrics (pid : Int) (g_state : worker_state_t) (r : raw_sample) (now : Nat) :
    worker_state_t × worker_metrics_t :=
  let u := metrics_smoother_update g_state.smoother r
  ({ g_state with smoother := u.1 },
   { pid := pid,
     worker_id := g_state.worker_id,
     cpu := u.2.cpu,
     mem := u.2.mem,
     io := u.2.io,
     score := calculate_load_score u.2.cpu u.2.mem u.2.io,
     requests := g_state.total_requests,
     errors := g_state.total_errors,
     timestamp := now,
     status := if g_state.is_busy ≠ 0 then "busy".toList else "idle".toList })

/-- The datagrams a worker can send: its smoother, set up by
`metrics_smoother_init` at the start of the process, has been changed by the
earlier calls of `send_metrics` alone, one per element of `history`. -/
def reported (m : worker_metrics_t) : Prop :=
  ∃ (pid : Int) (g_state : worker_state_t) (history : List raw_sample) (r : raw_sample)
    (now : Nat),
    g_state.smoother = (smoother_run metrics_smoother_init history).1 ∧
    m = (send_metrics pid g_state r now).2

/-- The contents the collector's array can have: zeroed when the process
starts, then changed by one `update_worker_metrics` per datagram received. -/
inductive telemetry : Slots → Prop
  | start : telemetry idle_slots
  | received (slots : Slots) (m : worker_metrics_t) :
      telemetry slots → reported m → telemetry (update_worker_metrics slots m)

/-- A worker state at the start of the process `worker_id`. -/
def fresh_worker (worker_id : Int) : worker_state_t :=
  { worker_id := worker_id, total_requests := 0, total_errors := 0, is_busy := 0,
    smoother := metrics_smoother_init }

/-- Raw readings at half of each maximum. -/
def half_load : raw_sample := { cpu_raw := 50, mem_raw_mb := 256, io_raw := 5000 }

/-- Raw readings at each maximum. -/
def full_load : raw_sample := { cpu_raw := 100, mem_raw_mb := 512, io_raw := 10000 }

/-- The array after the first datagrams of workers 3, 2 and 1, in that order:
worker 3 under full load, workers 2 and 1 under half load; worker 0 has not
reported. -/
def reported_slots : Slots :=
  update_worker_metrics
    (update_worker_metrics
      (update_worker_metrics idle_slots (send_metrics 4003 (fresh_worker 3) full_load 1000).2)
      (send_metrics 4002 (fresh_worker 2) half_load 1001).2)
    (send_metrics 4001 (fresh_worker 1) half_load 1002).2

/-! ## gateway.c : descriptor validation -/

/-- The terminating NUL, read when a pointer stands at the end of a C string. -/
def NUL : Char := Char.ofNat 0

/-- The character `*p` under a pointer into a C string. -/
def deref (p : CStr) : Char := p.headD NUL

/-- The libc function `strstr`: the rest of `haystack` from the first occurrence
of `needle` on, `none` for the NULL result. -/
def strstr : CStr → CStr → Option CStr
  | [], needle => if needle = [] then some [] else none
  | c :: rest, needle =>
    if needle.isPrefixOf (c :: rest) then some (c :: rest) else strstr rest needle

/-- The libc function `strchr` for a character other than NUL: the rest of `s`
from the first occurrence of `c` on, `none` for the NULL result. -/
def strchr : CStr → Char → Option CStr
  | [], _ => none
  | x :: rest, c => if x = c then some (x :: rest) else strchr rest c

/-- The libc function `strncmp(p, lit, strlen(lit)) == 0`, for a literal `lit`. -/
def strncmp_eq (p lit : CStr) : Bool := lit.isPrefixOf p

/-- The libc function `snprintf` into a buffer of `size` bytes, applied to the
already formatted text: at most `size - 1` characters are kept. -/
def snprintf (size : Nat) (text : CStr) : CStr := text.take (size - 1)

/-- The table `supported_types` of `validate_descriptor`. -/
def supported_types : List CStr :=
  ["c".toList, "cpp".toList, "c++".toList, "python".toList, "rust".toList,
   "go".toList, "tinygo".toList, "wasm".toList, "php".toList]

/-- The search loop over `supported_types` (`strcmp == 0`). -/
def type_found (runtime_value : CStr) : Bool :=
  supported_types.any (fun t => decide (runtime_value = t))

/-- The check shared by the optional `memory` and `timeout` fields: after the
key (of `skip` characters) and any spaces, the next character must be a
decimal digit. `true` when the check fails. -/
def not_a_number (pos : CStr) (skip : Nat) : Bool :=
  let p := (pos.drop skip).dropWhile (fun c => c = ' ')
  decide (deref p < '0' ∨ deref p > '9')

/-- The tail of `validate_descriptor`, after the runtime has been accepted:
the `memory`, `timeout` and `method` checks. -/
def validate_optional (descriptor : CStr) (error_msg_size : Nat) : Except CStr Unit :=
  let memory_bad :=
    match strstr descriptor "\"memory\":".toList with
    | some memory_pos => not_a_number memory_pos 9
    | none => false
  if memory_bad then
    .error (snprintf error_msg_size "Field 'memory' must be a number".toList)
  else
    let timeout_bad :=
      match strstr descriptor "\"timeout\":".toList with
      | some timeout_pos => not_a_number timeout_pos 10
      | none => false
    if timeout_bad then
      .error (snprintf error_msg_size "Field 'timeout' must be a number".toList)
    else
      let method_bad :=
        match strstr descriptor "\"method\":\"".toList with
        | some method_pos =>
          let method_pos := method_pos.drop 10
          !strncmp_eq method_pos "GET".toList && !strncmp_eq method_pos "POST".toList &&
            !strncmp_eq method_pos "PUT".toList && !strncmp_eq method_pos "DELETE".toList &&
            !strncmp_eq method_pos "PATCH".toList
        | none => false
      if method_bad then
        .error (snprintf error_msg_size
          "Invalid method. Supported: GET, POST, PUT, DELETE, PATCH".toList)
      else .ok ()

/-- The function `validate_descriptor`: `.ok ()` is the result `0`, and
`.error msg` the result `-1` with `msg` left in `error_msg`. -/
def validate_descriptor (descriptor : CStr) (error_msg_size : Nat) : Except CStr Unit :=
  if descriptor = [] then
    .error (snprintf error_msg_size "Descriptor is empty".toList)
  else if deref descriptor ≠ '\x7b' then
    .error (snprintf error_msg_size
      "Descriptor must be a JSON object starting with '\x7b'".toList)
  else if (strstr descriptor "\"runtime\"".toList).isNone then
    .error (snprintf error_msg_size "Missing required field: 'runtime'".toList)
  else
    match strstr descriptor "\"runtime\"".toList with
    | none => .error (snprintf error_msg_size "Missing required field: 'runtime'".toList)
    | some runtime_pos =>
      match strchr runtime_pos ':' with
      | none => .error (snprintf error_msg_size "Malformed runtime field".toList)
      | some colon =>
        let colon := colon.drop 1
        let colon := colon.dropWhile (fun c => c = ' ' ∨ c = '\t' ∨ c = '\n')
        if deref colon ≠ '"' then
          .error (snprintf error_msg_size "Runtime must be a string".toList)
        else
          let colon := colon.drop 1
          match strchr colon '"' with
          | none => .error (snprintf error_msg_size "Unterminated runtime string".toList)
          | some value_end =>
            let value_len := colon.length - value_end.length
            if value_len ≥ 64 then
              .error (snprintf error_msg_size "Runtime value too long".toList)
            else
              let runtime_value := colon.take value_len
              if !type_found runtime_value then
                .error (snprintf error_msg_size
                  ("Invalid or unsupported runtime '".toList ++ runtime_value ++
                   "'. Supported: c, cpp, c++, python, rust, go, tinygo, wasm, php".toList))
              else validate_optional descriptor error_msg_size

/-- Whether the text `msg` contains the word `word`. -/
def mentions (msg word : CStr) : Bool := (strstr msg word).isSome

/-- The size of the buffer `validation_error` that `handle_http_client` passes. -/
def VALIDATION_ERROR_SIZE : Nat := 512

/-! ## faas_compiler.c : the field extractor; gateway.c : staging extension -/

/-- The function `extract_json_field` (allocation succeeding): `none` is the
NULL result. -/
def extract_json_field (json field : CStr) : Option CStr :=
  match strstr json field with
  | none => none
  | some pos =>
    match strchr pos ':' with
    | none => none
    | some pos =>
      let pos := pos.drop 1
      let pos := pos.dropWhile (fun c => c = ' ' ∨ c = '\t' ∨ c = '\n' ∨ c = '\r')
      if deref pos = '"' then
        let pos := pos.drop 1
        some (pos.takeWhile (fun c => c ≠ '"'))
      else
        let value := pos.takeWhile (fun c => c ≠ ',' ∧ c ≠ '\x7d' ∧ c ≠ '\n')
        some (value.reverse.dropWhile (fun c => c = ' ' ∨ c = '\t')).reverse

/-- The extension `handle_http_client` gives the staged code file, by runtime
(the `strcmp` chain; `.txt` is the default branch). -/
def code_extension (runtime : CStr) : CStr :=
  if runtime = "python".toList then ".py".toList
  else if runtime = "php".toList then ".php".toList
  else if runtime = "c".toList then ".c".toList
  else if runtime = "cpp".toList ∨ runtime = "c++".toList then ".cpp".toList
  else if runtime = "rust".toList then ".rs".toList
  else if runtime = "go".toList ∨ runtime = "tinygo".toList then ".go".toList
  else if runtime = "wasm".toList then ".wasm".toList
  else ".txt".toList

/-- The runtime `handle_http_client` works with after validation:
`runtime_value ? runtime_value : ""`. -/
def staged_runtime (descriptor : CStr) : CStr :=
  (extract_json_field descriptor "\"runtime\"".toList).getD []

/-- The method `compile_function` puts in the route key and `handle_http_client`
in the upload response: the extracted field, `POST` when there is none. -/
def route_method (descriptor : CStr) : CStr :=
  (extract_json_field descriptor "\"method\"".toList).getD "POST".toList

/-- The route key `compile_function` builds: `snprintf(route_key, 512, "%s:/api/%s")`. -/
def route_key (descriptor uuid : CStr) : CStr :=
  snprintf 512 (route_method descriptor ++ ":/api/".toList ++ uuid)

/-- The methods the validator's message names as supported. -/
def supported_methods : List CStr :=
  ["GET".toList, "POST".toList, "PUT".toList, "DELETE".toList, "PATCH".toList]

/-! ## http_handler.c : multipart/form-data -/

/-- The C string that starts at offset `off` of a byte buffer whose data is
followed by a NUL: the bytes from `off` up to the first NUL. -/
def cstr_at (buf : List Char) (off : Nat) : CStr :=
  (buf.drop off).takeWhile (fun c => c ≠ NUL)

/-- The byte `buf[off]`; NUL once `off` is past the data. -/
def byte_at (buf : List Char) (off : Nat) : Char := buf.getD off NUL

/-- The call `strstr(buf + off, needle)`, as an offset into `buf`. -/
def strstr_at (buf : List Char) (off : Nat) (needle : CStr) : Option Nat :=
  (strstr (cstr_at buf off) needle).map
    (fun suffix => off + ((cstr_at buf off).length - suffix.length))

/-- The call `strchr(buf + off, c)`, as an offset into `buf`. -/
def strchr_at (buf : List Char) (off : Nat) (c : Char) : Option Nat :=
  (strchr (cstr_at buf off) c).map
    (fun suffix => off + ((cstr_at buf off).length - suffix.length))

/-- The record `uploaded_file_t`; `data_len` is the length of `data`. -/
structure uploaded_file_t where
  name : CStr := []
  filename : CStr := []
  content_type : CStr := []
  data : List Char := []
deriving DecidableEq, Repr

/-- The extraction of `name="..."` and of `filename="..."` from a part's
headers: the text between the key and the next quote, when all of it lies
before `headers_end` and fits the field of `cap` bytes; `[]` is the field
left zeroed. -/
def quoted_field (buf : List Char) (disp headers_end : Nat) (key : CStr) (cap : Nat) : CStr :=
  match strstr_at buf disp key with
  | none => []
  | some start =>
    if start < headers_end then
      let start := start + key.length
      match strchr_at buf start '"' with
      | none => []
      | some stop =>
        if stop < headers_end then
          let len := stop - start
          if len < cap then (buf.drop start).take len else []
        else []
    else []

/-- The extraction of a part's `Content-Type:` value. -/
def part_content_type (buf : List Char) (pos headers_end : Nat) : CStr :=
  match strstr_at buf pos "Content-Type:".toList with
  | none => []
  | some ct =>
    if ct < headers_end then
      let ct := ct + 13
      let ct := ct + ((cstr_at buf ct).takeWhile (fun c => c = ' ')).length
      match strstr_at buf ct "\r\n".toList with
      | none => []
      | some ct_end =>
        if ct_end < headers_end then
          let len := ct_end - ct
          if len < 128 then (buf.drop ct).take len else []
        else []
    else []

/-- One pass through the body of the `while` loop of `parse_multipart_upload`,
entered at offset `pos`: `none` is a `break`, otherwise the part stored and the
offset the next pass starts from. -/
def parse_part (buf : List Char) (start_boundary end_boundary : CStr) (pos : Nat) :
    Option (uploaded_file_t × Nat) :=
  let pos := if byte_at buf pos = '\r' then pos + 1 else pos
  let pos := if byte_at buf pos = '\n' then pos + 1 else pos
  if end_boundary.isPrefixOf (cstr_at buf pos) then none
  else
    match strstr_at buf pos "\r\n\r\n".toList with
    | none => none
    | some headers_end =>
      let names : CStr × CStr :=
        match strstr_at buf pos "Content-Disposition:".toList with
        | none => ([], [])
        | some disp =>
          if disp < headers_end then
            (quoted_field buf disp headers_end "name=\"".toList 256,
             quoted_field buf disp headers_end "filename=\"".toList 256)
          else ([], [])
      let content_type := part_content_type buf pos headers_end
      let data_start := headers_end + 4
      let next_boundary :=
        match strstr_at buf data_start start_boundary with
        | some nb => some nb
        | none => strstr_at buf data_start end_boundary
      match next_boundary with
      | none => none
      | some next_boundary =>
        let data_end :=
          if next_boundary > data_start + 2 ∧ byte_at buf (next_boundary - 2) = '\r' ∧
              byte_at buf (next_boundary - 1) = '\n' then next_boundary - 2
          else next_boundary
        some ({ name := names.1, filename := names.2, content_type := content_type,
                data := (buf.drop data_start).take (data_end - data_start) },
              next_boundary)

/-- The `while (pos < end && upload->file_count < 10)` loop; `slots` is the
number of free entries of `files[10]`, which every completed pass lowers by one. -/
def parse_parts (buf : List Char) (start_boundary end_boundary : CStr) :
    Nat → Nat → List uploaded_file_t → List uploaded_file_t
  | 0, _, files => files
  | slots + 1, pos, files =>
    if pos < buf.length then
      match parse_part buf start_boundary end_boundary pos with
      | none => files
      | some (file, pos') =>
        parse_parts buf start_boundary end_boundary slots pos' (files ++ [file])
    else files

/-- The function `parse_multipart_upload` (allocation succeeding) on the
`body_len` bytes `body`: `none` is the result `-1`, `some files` the result
`0` with the parts stored in `upload`. -/
def parse_multipart_upload (body : List Char) (boundary : CStr) :
    Option (List uploaded_file_t) :=
  if body.length = 0 then none
  else
    let start_boundary := snprintf 512 ("--".toList ++ boundary)
    let end_boundary := snprintf 512 ("--".toList ++ boundary ++ "--".toList)
    match strstr_at body 0 start_boundary with
    | none => none
    | some first_boundary =>
      some (parse_parts body start_boundary end_boundary 10
        (first_boundary + start_boundary.length) [])

/-- The part selection of `handle_http_client`: the last part named `code` and
the last part named `descriptor`. -/
def select_parts (files : List uploaded_file_t) :
    Option uploaded_file_t × Option uploaded_file_t :=
  files.foldl
    (fun st file =>
      if file.name = "code".toList then (some file, st.2)
      else if file.name = "descriptor".toList then (st.1, some file)
      else st)
    (none, none)

/-- The step of `handle_http_client` after parsing: either the text handed to
`send_http_500`, or the code and descriptor parts validation proceeds with. -/
def require_parts (files : List uploaded_file_t) :
    Except CStr (uploaded_file_t × uploaded_file_t) :=
  match select_parts files with
  | (some code_file, some desc_file) => .ok (code_file, desc_file)
  | _ => .error "\x7b\"error\":\"Missing code or descriptor file\"\x7d".toList

/-- The part `file` is the last part of `files` that carries the name `name`. -/
def last_named (files : List uploaded_file_t) (name : CStr) (file : uploaded_file_t) : Prop :=
  ∃ front back, files = front ++ file :: back ∧ file.name = name ∧ ∀ g ∈ back, g.name ≠ name

/-- A part is recognized when its name is `code` or `descriptor`. -/
def recognized (file : uploaded_file_t) : Bool :=
  file.name = "code".toList || file.name = "descriptor".toList

/-- A well-formed file part: boundary line, disposition header, blank line,
data, CRLF. -/
def render_part (boundary name filename : CStr) (data : List Char) : List Char :=
  "--".toList ++ boundary ++ "\r\nContent-Disposition: form-data; name=\"".toList ++ name ++
    "\"; filename=\"".toList ++ filename ++ "\"\r\n\r\n".toList ++ data ++ "\r\n".toList

/-- A well-formed body of a `code` part and a `descriptor` part, closed by the
end marker. -/
def render_upload (boundary code_name : CStr) (code : List Char) (desc_name : CStr)
    (descriptor : List Char) : List Char :=
  render_part boundary "code".toList code_name code ++
    render_part boundary "descriptor".toList desc_name descriptor ++
    "--".toList ++ boundary ++ "--".toList

/-- The first eight bytes of every WebAssembly binary: `\0asm` and version 1. -/
def wasm_header : List Char :=
  [NUL, 'a', 's', 'm', Char.ofNat 1, NUL, NUL, NUL]

/-- Three parsed parts: two named `code` and one named `descriptor`. -/
def three_parts : List uploaded_file_t :=
  [{ name := "code".toList, filename := "a.c".toList, data := "A".toList },
   { name := "code".toList, filename := "b.c".toList, data := "B".toList },
   { name := "descriptor".toList, filename := "d.json".toList, data := "D".toList }]

/-! ## http_handler.c : request parsing -/

/-- A connected socket, as the data it will still deliver: every element is
the run of bytes one `recv` finds available. -/
abbrev Socket := List (List Char)

/-- The call `recv(fd, buf, len, 0)`: the bytes stored (none when the result is
`<= 0`) and the socket afterwards. At most `len` bytes of the available run are
taken; the others stay queued. -/
def recv (sock : Socket) (len : Nat) : List Char × Socket :=
  match sock with
  | [] => ([], [])
  | chunk :: rest =>
    if chunk.length ≤ len then (chunk, rest)
    else (chunk.take len, chunk.drop len :: rest)

/-- The libc predicate `isspace` (C locale). -/
def isspace (c : Char) : Bool :=
  c = ' ' || c = '\t' || c = '\n' || c = Char.ofNat 11 || c = Char.ofNat 12 || c = '\r'

/-- One `%Ns` conversion of `sscanf`: white space is skipped, then up to `width`
characters that are not white space are stored. `none` when the input ends
before a character is found; otherwise the token and the unread input. -/
def scan_s (width : Nat) (input : CStr) : Option (CStr × CStr) :=
  let s := input.dropWhile isspace
  if s = [] then none
  else
    let token := (s.takeWhile (fun c => !isspace c)).take width
    some (token, s.drop token.length)

/-- The call `sscanf(request_line, "%15s %511s", req->method, req->uri)` on the
zeroed request: the contents of `method` and `uri` afterwards. The result of
the call is not looked at. -/
def sscanf_method_uri (request_line : CStr) : CStr × CStr :=
  match scan_s 15 request_line with
  | none => ([], [])
  | some (method, rest) =>
    match scan_s 511 (rest.dropWhile isspace) with
    | none => (method, [])
    | some (uri, _) => (method, uri)

/-- The comparison `strncasecmp(hay, needle, strlen(needle)) == 0`. -/
def ci_prefix (needle hay : CStr) : Bool :=
  (needle.map Char.toLower).isPrefixOf (hay.map Char.toLower)

/-- The libc function `strcasestr`: the rest of `haystack` from the first
occurrence of `needle` in any letter case. -/
def strcasestr : CStr → CStr → Option CStr
  | [], needle => if needle = [] then some [] else none
  | c :: rest, needle =>
    if ci_prefix needle (c :: rest) then some (c :: rest) else strcasestr rest needle

/-- The libc function `atoi`, as glibc computes it: `(int) strtol(s, NULL, 10)`,
the `long` saturating and the conversion to `int` keeping the low 32 bits. -/
def atoi (s : CStr) : Int :=
  let s := s.dropWhile isspace
  let negative := s.head? = some '-'
  let s := if s.head? = some '-' ∨ s.head? = some '+' then s.drop 1 else s
  let digits := s.takeWhile Char.isDigit
  let magnitude : Nat := digits.foldl (fun acc c => acc * 10 + (c.toNat - 48)) 0
  let value : Int :=
    if negative then max (-(magnitude : Int)) (-9223372036854775808)
    else min (magnitude : Int) 9223372036854775807
  int32_wrap value

/-- The record `http_request_t`; `body` holds the first `body_len` bytes of the
body buffer. -/
structure http_request_t where
  method : CStr := []
  uri : CStr := []
  headers : CStr := []
  content_type : CStr := []
  body : List Char := []
  body_len : Nat := 0
deriving DecidableEq, Repr

/-- What a call of `parse_http_request` did: its result (`none` is `-1`), the
byte counts it passed to `recv`, in order, and the socket afterwards. -/
structure parse_outcome where
  result : Option http_request_t
  reads : List Nat
  rest : Socket
deriving DecidableEq, Repr

/-- The constant `BUFFER_SIZE`. -/
def BUFFER_SIZE : Nat := 8192

/-- The size `sizeof(req->body)`. -/
def BODY_SIZE : Nat := 65536

/-- The `Content-Length` extraction of `parse_http_request`, on the text of the
first read. -/
def parse_content_length (buffer : CStr) : Int :=
  match strcasestr buffer "Content-Length:".toList with
  | none => 0
  | some cl_header => atoi ((cl_header.drop 15).dropWhile (fun c => c = ' '))

/-- The `Content-Type` extraction of `parse_http_request`. -/
def parse_content_type (buffer : CStr) : CStr :=
  match strcasestr buffer "Content-Type:".toList with
  | none => []
  | some content_type =>
    let content_type := (content_type.drop 13).dropWhile (fun c => c = ' ')
    match strstr content_type "\r\n".toList with
    | none => []
    | some stop =>
      let len := content_type.length - stop.length
      if len < 128 then content_type.take len else []

/-- The function `parse_http_request`. -/
def parse_http_request (sock : Socket) : parse_outcome :=
  let first := recv sock (BUFFER_SIZE - 1)
  let bytes := first.1
  if bytes.length = 0 then { result := none, reads := [BUFFER_SIZE - 1], rest := first.2 }
  else
    let buffer : CStr := bytes.takeWhile (fun c => c ≠ NUL)
    match strstr buffer "\r\n".toList with
    | none => { result := none, reads := [BUFFER_SIZE - 1], rest := first.2 }
    | some line_end =>
      let req_line_len := buffer.length - line_end.length
      let req_line_len := if req_line_len ≥ 512 then 511 else req_line_len
      let request_line := buffer.take req_line_len
      let names := sscanf_method_uri request_line
      let content_length := parse_content_length buffer
      let content_type := parse_content_type buffer
      let no_body : parse_outcome :=
        { result := some { method := names.1, uri := names.2, content_type := content_type },
          reads := [BUFFER_SIZE - 1], rest := first.2 }
      match strstr buffer "\r\n\r\n".toList with
      | none => no_body
      | some body_start =>
        if content_length > 0 then
          let body_off := buffer.length - body_start.length + 4
          let already_read := bytes.length - body_off
          let copied :=
            if already_read > 0 ∧ already_read < BODY_SIZE then bytes.drop body_off
            else List.replicate already_read NUL
          let remaining := ((content_length - (already_read : Int)) % 18446744073709551616).toNat
          if remaining > 0 ∧ (already_read + remaining) % 18446744073709551616 < BODY_SIZE then
            let second := recv first.2 remaining
            { result := some { method := names.1, uri := names.2, content_type := content_type,
                               body := copied ++ second.1,
                               body_len := already_read + second.1.length },
              reads := [BUFFER_SIZE - 1, remaining], rest := second.2 }
          else
            { result := some { method := names.1, uri := names.2, content_type := content_type,
                               body := copied, body_len := already_read },
              reads := [BUFFER_SIZE - 1], rest := first.2 }
        else no_body

/-- The decimal digits of `n`, most significant first, written before `acc`. -/
def dec_digits_aux : Nat → Nat → List Char → List Char
  | 0, _, acc => acc
  | fuel + 1, n, acc =>
    if n < 10 then Char.ofNat (48 + n) :: acc
    else dec_digits_aux fuel (n / 10) (Char.ofNat (48 + n % 10) :: acc)

/-- The text `%zu` prints for `n`. -/
def dec_digits (n : Nat) : List Char := dec_digits_aux (n + 1) n []

/-- The head of a request: `<method> <uri> HTTP/1.1`, a `Content-Length` header
announcing `n` bytes, and the blank line. -/
def render_head (method uri : CStr) (n : Nat) : List Char :=
  method ++ ' ' :: uri ++ " HTTP/1.1\r\nContent-Length: ".toList ++ dec_digits n ++
    "\r\n\r\n".toList

/-- The request `<method> <uri> HTTP/1.1`, a `Content-Length` header giving the
length of `body`, the blank line, and `body`. -/
def render_request (method uri : CStr) (body : List Char) : List Char :=
  render_head method uri body.length ++ body

/-- A token of a request line: bytes that are neither white space nor NUL. -/
def is_token (s : CStr) : Prop := ∀ c ∈ s, isspace c = false ∧ c ≠ NUL

instance (s : CStr) : Decidable (is_token s) := by
  unfold is_token; infer_instance

/-- The text `request_line` that `parse_http_request` hands to `sscanf`: the
text of the first read up to its first CRLF, cut to 511 bytes; `none` when the
text holds no CRLF. -/
def request_line (bytes : List Char) : Option CStr :=
  let buffer : CStr := bytes.takeWhile (fun c => c ≠ NUL)
  match strstr buffer "\r\n".toList with
  | none => none
  | some line_end =>
    let req_line_len := buffer.length - line_end.length
    let req_line_len := if req_line_len ≥ 512 then 511 else req_line_len
    some (buffer.take req_line_len)

/-- The first word of `s`: its first run of bytes that are not white space. -/
def first_word (s : CStr) : CStr :=
  (s.dropWhile isspace).takeWhile (fun c => !isspace c)

/-- What follows the first word of `s`. -/
def after_first_word (s : CStr) : CStr :=
  (s.dropWhile isspace).dropWhile (fun c => !isspace c)

/-! ## kv_sqlite_sync.c : the store syncer -/

/-- One row a statement steps to: the `k` and `v` columns (`none` for a NULL
text) and the `updated` column, a 64-bit integer. -/
structure sql_row where
  k : Option CStr
  v : Option CStr
  updated : Int
deriving DecidableEq, Repr

/-- What one query yields: `none` when the store cannot be opened or the
statement cannot be prepared, otherwise the rows stepped through. -/
abbrev query_result := Option (List sql_row)

/-- One pass of the `while (sqlite3_step(stmt) == SQLITE_ROW)` loop of
`kv_refresh_from_sqlite_since`, on the store and `max_ts`. -/
def refresh_step (st : kv × Int) (row : sql_row) : kv × Int :=
  let store :=
    match row.k, row.v with
    | some k, some v => (kv_set true st.1 k v).2
    | _, _ => st.1
  (store, if row.updated > st.2 then row.updated else st.2)

/-- The function `kv_refresh_from_sqlite_since`: the store afterwards and the
returned timestamp. -/
def kv_refresh_from_sqlite_since (m : kv) (last_sync : Int) (q : query_result) : kv × Int :=
  match q with
  | none => (m, last_sync)
  | some rows => rows.foldl refresh_step (m, last_sync)

/-- One pass of the row loop of `load_initial_data`, on the store and `max_ts`. -/
def load_step (st : kv × Int) (row : sql_row) : kv × Int :=
  match row.k, row.v with
  | some k, some v =>
    ((kv_set true st.1 k v).2, if row.updated > st.2 then row.updated else st.2)
  | _, _ => st

/-- The function `load_initial_data`: `none` is the result `-1`, otherwise the
store afterwards and the value written to `out_max_timestamp`. -/
def load_initial_data (m : kv) (q : query_result) : Option (kv × Int) :=
  match q with
  | none => none
  | some rows => some (rows.foldl load_step (m, 0))

/-- One poll cycle of `sync_worker`, on the store and `ctx->last_sync`. -/
def sync_cycle (st : kv × Int) (q : query_result) : kv × Int :=
  let refreshed := kv_refresh_from_sqlite_since st.1 st.2 q
  (refreshed.1, if refreshed.2 > st.2 then refreshed.2 else st.2)

/-- The store and `ctx->last_sync` after each of the poll cycles `polls`. -/
def sync_states (st : kv × Int) : List query_result → List (kv × Int)
  | [] => []
  | q :: rest => sync_cycle st q :: sync_states (sync_cycle st q) rest

/-- The values `ctx->last_sync` takes in `kv_sync_init` and `sync_worker`: 0 at
allocation, the maximum found by the initial load, then the value after each
poll cycle. Empty when the initial load fails, the syncer not being started. -/
def last_sync_history (m : kv) (initial : query_result) (polls : List query_result) :
    List Int :=
  match load_initial_data m initial with
  | none => []
  | some st => 0 :: st.2 :: (sync_states st polls).map Prod.snd


/-! ## config_loader.c : route lookup -/

/-- The record `struct FunctionDescriptor`; every text field holds the C string
in its array. -/
structure FunctionDescriptor where
  method : CStr := []
  uri : CStr := []
  name : CStr := []
  runtime : CStr := []
  module : CStr := []
  handler : CStr := []
  memory : Int := 0
  timeout : Int := 0
deriving DecidableEq, Repr

/-- One string field of `parse_function_json`: the text after the first `key`
up to the next quote, copied when the quote exists and the text is shorter than
the `cap` bytes of the field; `[]` is the field left zeroed. -/
def json_string_field (json key : CStr) (cap : Nat) : CStr :=
  match strstr json key with
  | none => []
  | some start =>
    let start := start.drop key.length
    match strchr start '"' with
    | none => []
    | some stop =>
      let len := start.length - stop.length
      if len < cap then start.take len else []

/-- One integer field of `parse_function_json`: `atoi` of the text after the
first `key`; `0` is the field left zeroed. -/
def json_int_field (json key : CStr) : Int :=
  match strstr json key with
  | none => 0
  | some start => atoi (start.drop key.length)

/-- The function `parse_function_json`: the result and `*out` afterwards. The
record passed in is zeroed by the `memset` before any field is written. -/
def parse_function_json (json : CStr) (_out : FunctionDescriptor) : Int × FunctionDescriptor :=
  let out : FunctionDescriptor := {}
  let out := { out with module := json_string_field json "\"module\":\"".toList 256 }
  let out := { out with handler := json_string_field json "\"handler\":\"".toList 128 }
  let out := { out with name := json_string_field json "\"name\":\"".toList 64 }
  let out := { out with runtime := json_string_field json "\"runtime\":\"".toList 32 }
  let out := { out with memory := json_int_field json "\"memory\":".toList }
  let out := { out with timeout := json_int_field json "\"timeout\":".toList }
  (if deref out.module ≠ NUL ∧ deref out.handler ≠ NUL then 0 else -1, out)

/-- The route key `find_function` looks up:
`snprintf(route_key, 256, "%s:%s", method, uri)`. -/
def lookup_key (method uri : CStr) : CStr :=
  snprintf 256 (method ++ ':' :: uri)

/-- The function `find_function` on an initialised config loader whose store is
`store`: the result and `*out` afterwards. -/
def find_function (store : kv) (method uri : CStr) (out : FunctionDescriptor) :
    Int × FunctionDescriptor :=
  match kv_get store (lookup_key method uri) with
  | none => (-1, out)
  | some function_json =>
    let out := { out with method := method.take 15 }
    let out := { out with uri := uri.take 127 }
    let parsed := parse_function_json function_json out
    if parsed.1 ≠ 0 then (-1, parsed.2) else (0, parsed.2)

/-- The value of the string field `key` of a stored JSON text, as the loader
reads it: the text between the first `key` and the next quote; `none` when the
key or the closing quote is missing. -/
def stored_field (json key : CStr) : Option CStr :=
  match strstr json key with
  | none => none
  | some start =>
    match strchr (start.drop key.length) '"' with
    | none => none
    | some stop =>
      some ((start.drop key.length).take ((start.drop key.length).length - stop.length))

/-- A route store holding one row. -/
def store_of (key value : CStr) : kv := (kv_set true (kv_new 1024) key value).2

/-- A URI of `n` bytes: a slash and `n - 1` letters `a`. -/
def long_uri (n : Nat) : CStr := '/' :: List.replicate (n - 1) 'a'

/-- A stored key of 255 bytes: `GET:` and a URI of 251 bytes. -/
def key255 : CStr := "GET:".toList ++ long_uri 251

/-- A stored value with the two fields the loader demands. -/
def sample_json : CStr := "\x7b\"module\":\"m\",\"handler\":\"h\"\x7d".toList

/-! ## The registry table and the queries of the syncer -/

/-- The table `functions (k TEXT PRIMARY KEY, v TEXT, updated INTEGER)`: its
rows. -/
abbrev registry := List sql_row

/-- The statement `INSERT OR REPLACE INTO functions (k, v, updated) VALUES
(k, v, strftime('%s','now'))` of `compile_function`, run in the unix second
`now`: the row of key `k`, if any, is replaced. -/
def insert_or_replace (table : registry) (k v : CStr) (now : Int) : registry :=
  table.filter (fun row => decide (row.k ≠ some k)) ++
    [{ k := some k, v := some v, updated := now }]

/-- The query `SELECT k, v, updated FROM functions;` of `load_initial_data`. -/
def select_all (table : registry) : query_result := some table

/-- The query `SELECT k, v, updated FROM functions WHERE updated > ?;` of
`kv_refresh_from_sqlite_since`, the parameter bound to `last_sync`. -/
def select_since (table : registry) (last_sync : Int) : query_result :=
  some (table.filter (fun row => decide (row.updated > last_sync)))

/-- One poll cycle of `sync_worker` against the table `table`. -/
def poll (table : registry) (st : kv × Int) : kv × Int :=
  sync_cycle st (select_since table st.2)

/-- The store and `last_sync` after `n` poll cycles against an unchanged table. -/
def poll_n (table : registry) (st : kv × Int) : Nat → kv × Int
  | 0 => st
  | n + 1 => poll table (poll_n table st n)

/-- The syncer after `kv_sync_init` on a registry holding the one row
`POST:/api/a`, written in the unix second 100. -/
def synced_once : kv × Int :=
  (load_initial_data (kv_new 1024)
    (select_all (insert_or_replace [] "POST:/api/a".toList sample_json 100))).getD
    (kv_new 1024, 0)

/-- The registry after a second upload, `POST:/api/b`, in the same unix
second 100. -/
def two_uploads : registry :=
  insert_or_replace (insert_or_replace [] "POST:/api/a".toList sample_json 100)
    "POST:/api/b".toList sample_json 100

/-! ## http_handler.c : responses -/

/-- The record `http_response_t`; `body` holds the C string in the body array. -/
structure http_response_t where
  status_code : Int := 0
  content_type : CStr := []
  body : CStr := []
  body_len : Nat := 0
deriving DecidableEq, Repr

/-- The record `worker_request_t` of `worker_protocol.h`; `body` is the whole
array of 4096 bytes. -/
structure worker_request_t where
  runtime : CStr := []
  module : CStr := []
  handler : CStr := []
  body : List Char := []
  body_len : Nat := 0
deriving DecidableEq, Repr

/-- What a thread does with the client descriptor: a `send` of some bytes, a
`close`, or the call `send_to_worker_with_fd` that passes the descriptor to the
worker `idx`, with the request it carried (if one was built) and its result. -/
inductive fd_event where
  | send (data : List Char)
  | close
  | handoff (idx : Int) (req : Option worker_request_t) (result : Int)
deriving DecidableEq, Repr

/-- The text `%d` prints for `n`. -/
def dec_int (n : Int) : List Char :=
  if n < 0 then '-' :: dec_digits n.natAbs else dec_digits n.toNat

/-- The reason phrase `send_http_response` picks for a status code. -/
def reason_phrase (status_code : Int) : CStr :=
  if status_code = 200 then "OK".toList
  else if status_code = 404 then "Not Found".toList
  else if status_code = 500 then "Internal Server Error".toList
  else "Unknown".toList

/-- The function `send_http_response`: the head (always shorter than the buffer
of 8192 bytes it is formatted in), then the body when `body_len > 0`. -/
def send_http_response (resp : http_response_t) : List fd_event :=
  let response :=
    "HTTP/1.1 ".toList ++ dec_int resp.status_code ++ ' ' :: reason_phrase resp.status_code ++
    "\r\nContent-Type: ".toList ++
    (if deref resp.content_type ≠ NUL then resp.content_type else "text/plain".toList) ++
    "\r\nContent-Length: ".toList ++ dec_digits resp.body_len ++
    "\r\nConnection: close\r\n\r\n".toList
  fd_event.send response ::
    (if resp.body_len > 0 then [fd_event.send (resp.body.take resp.body_len)] else [])

/-- The size `sizeof(resp.body)`. -/
def RESPONSE_BODY_SIZE : Nat := 131072

/-- The response `send_http_200` builds for a non-NULL `body`. -/
def http_200 (body : CStr) : http_response_t :=
  { status_code := 200, content_type := "application/json".toList,
    body := body.take (RESPONSE_BODY_SIZE - 1),
    body_len := (body.take (RESPONSE_BODY_SIZE - 1)).length }

/-- The response `send_http_404` builds. -/
def http_404 : http_response_t :=
  { status_code := 404, content_type := "application/json".toList,
    body := "\x7b\"error\":\"Function not found\"\x7d".toList,
    body_len := "\x7b\"error\":\"Function not found\"\x7d".toList.length }

/-- The response `send_http_500` builds for a non-NULL `error`. -/
def http_500 (error : CStr) : http_response_t :=
  { status_code := 500, content_type := "application/json".toList,
    body := snprintf RESPONSE_BODY_SIZE ("\x7b\"error\":\"".toList ++ error ++ "\"\x7d".toList),
    body_len :=
      (snprintf RESPONSE_BODY_SIZE ("\x7b\"error\":\"".toList ++ error ++ "\"\x7d".toList)).length }

/-- The function `send_http_200` with a non-NULL `body`. -/
def send_http_200 (body : CStr) : List fd_event := send_http_response (http_200 body)

/-- The function `send_http_404`. -/
def send_http_404 : List fd_event := send_http_response http_404

/-- The function `send_http_500` with a non-NULL `error`. -/
def send_http_500 (error : CStr) : List fd_event := send_http_response (http_500 error)

/-- The file `pages/<filename>` as `serve_html_file` finds it: whether `fopen`
succeeds, the size `ftell` reports, whether `malloc` succeeds, and the bytes
`fread` delivers. -/
structure html_file where
  opened : Bool
  file_size : Int
  alloc_ok : Bool
  content : List Char

/-- The function `serve_html_file`, on the client descriptor. -/
def serve_html_file (file : html_file) : List fd_event :=
  if !file.opened then send_http_404
  else if file.file_size ≤ 0 ∨ file.file_size > 1024 * 1024 then
    send_http_500 "File too large or empty".toList
  else if !file.alloc_ok then send_http_500 "Memory allocation failed".toList
  else if (file.content.length : Int) ≠ file.file_size then
    send_http_500 "File read error".toList
  else
    let body := (cstr_at file.content 0).take (RESPONSE_BODY_SIZE - 1)
    send_http_response
      { status_code := 200, content_type := "text/html; charset=utf-8".toList,
        body := body, body_len := body.length }

/-! ## gateway.c, worker.c : the handoff payload -/

/-- The constant `MAX_BODY_LEN`. -/
def MAX_BODY_LEN : Nat := 4096

/-- The request `send_to_worker_with_fd` prepares: the zeroed record, the three
`strncpy` calls, and the body copy. `body` is what the pointer `body` gives
access to (NUL follows its last byte); `none` is the NULL pointer. -/
def build_worker_request (runtime module handler : CStr) (body : Option (List Char)) :
    worker_request_t :=
  let req : worker_request_t :=
    { runtime := runtime.take 31, module := module.take 255, handler := handler.take 127,
      body := List.replicate MAX_BODY_LEN NUL, body_len := 0 }
  match body with
  | none => req
  | some body =>
    let text := cstr_at body 0
    let body_len := text.length
    if body_len < MAX_BODY_LEN then
      { req with body := text ++ List.replicate (MAX_BODY_LEN - body_len) NUL,
                 body_len := body_len }
    else
      { req with body := text.take (MAX_BODY_LEN - 1) ++ [NUL], body_len := MAX_BODY_LEN - 1 }

/-- The outcomes of the system calls of `send_to_worker_with_fd`. -/
structure worker_link where
  socket_ok : Bool
  connect_ok : Bool
  sendfd_ok : Bool
deriving DecidableEq, Repr

/-- The function `send_to_worker_with_fd`: its result and the request it built,
if it got that far. -/
def send_to_worker_with_fd (link : worker_link) (runtime module handler : CStr)
    (body : Option (List Char)) : Int × Option worker_request_t :=
  if !link.socket_ok then (-1, none)
  else if !link.connect_ok then (-1, none)
  else
    let req := build_worker_request runtime module handler body
    if !link.sendfd_ok then (-1, some req) else (0, some req)

/-- The array `request_body[4096]` of the worker after the copy from the
received request. -/
def worker_request_body (req : worker_request_t) : List Char :=
  if req.body_len > 0 ∧ req.body_len < 4096 then
    req.body.take req.body_len ++ List.replicate (4096 - req.body_len) NUL
  else List.replicate 4096 NUL

/-- The bytes the worker writes to the child's standard input:
`strlen(request_body)` bytes when `request_body[0]` is not NUL, none otherwise. -/
def child_stdin (req : worker_request_t) : List Char :=
  if byte_at (worker_request_body req) 0 ≠ NUL then cstr_at (worker_request_body req) 0
  else []

/-! ## worker.c : response synthesis -/

/-- The size of `function_output`. -/
def OUTPUT_SIZE : Nat := 8192

/-- The `read` loop of the worker over the output pipe, whose pending data is a
list of runs (one per `read`); `acc` is what `function_output` holds so far.
The loop stops at an empty read and when the buffer holds 8191 bytes. -/
def read_function_output : List (List Char) → List Char → List Char
  | [], acc => acc
  | chunk :: rest, acc =>
    let got := chunk.take (OUTPUT_SIZE - acc.length - 1)
    if got.length = 0 then acc
    else if (acc ++ got).length ≥ OUTPUT_SIZE - 1 then acc ++ got
    else read_function_output rest (acc ++ got)

/-- The text the format `\x7b"result":"%s"\x7d` gives for `output`. -/
def wrap_result (output : CStr) : CStr :=
  "\x7b\"result\":\"".toList ++ output ++ "\"\x7d".toList

/-- The response the worker synthesises after `waitpid`: `status` is the exit
code of a child that exited (`none` for one that did not), `function_output`
the bytes read. The descriptor is closed at the end of the loop body. -/
def worker_reply (status : Option Int) (function_output : List Char) : List fd_event :=
  let total_read := function_output.length
  let text := cstr_at function_output 0
  (if status = some 0 ∧ total_read > 0 then
    if byte_at function_output 0 = '\x7b' ∨ byte_at function_output 0 = '[' then
      send_http_200 text
    else
      send_http_200 (snprintf 8192 (wrap_result text))
  else
    send_http_500 (snprintf 512
      ("\x7b\"error\":\"Function failed\",\"exit_code\":".toList ++ dec_int (status.getD (-1)) ++
       ",\"output_bytes\":".toList ++ dec_digits total_read ++ ",\"output\":\"".toList ++
       (if total_read > 0 then text.take 200 else []) ++ "\"\x7d".toList))) ++
  [fd_event.close]

/-- The parent branch of the worker for one request, from the `read` loop on. -/
def worker_respond (status : Option Int) (pipe : List (List Char)) : List fd_event :=
  worker_reply status (read_function_output pipe [])

/-- The events of a 200 response with JSON body `body`, followed by the close. -/
def reply_200 (body : CStr) : List fd_event :=
  send_http_response
    { status_code := 200, content_type := "application/json".toList,
      body := body, body_len := body.length } ++ [fd_event.close]

/-- Whether the first byte of `output` is an opening brace or bracket. -/
def looks_like_json (output : List Char) : Prop :=
  output.head? = some '\x7b' ∨ output.head? = some '['

instance (output : List Char) : Decidable (looks_like_json output) := by
  unfold looks_like_json; infer_instance

/-- An output of 8192 bytes, each an opening bracket. -/
def long_output : List Char := List.replicate 8192 '['

/-- An output of 8191 bytes, each the letter `a`. -/
def plain_output : List Char := List.replicate 8191 'a'

/-! ## gateway.c, faas_compiler.c : the upload pipeline -/

/-- The id `handle_http_client` mints:
`snprintf(uuid, 128, "func_%lu_%u_%d", (unsigned long)time(NULL), upload_counter++,
getpid() % 1000)`; `now` is the value of `time(NULL)`, `upload_counter` the
number of ids minted before, `pid` the (positive) process id. -/
def mint_uuid (now : Int) (upload_counter pid : Nat) : CStr :=
  snprintf 128
    ("func_".toList ++ dec_digits (now % 18446744073709551616).toNat ++
     '_' :: dec_digits (upload_counter % 4294967296) ++ '_' :: dec_int ((pid : Int) % 1000))

/-- The path `out_module` of `compile_function`: `OUT_BASE "/" uuid` in a buffer
of 1024 bytes, then `/module.wasm` in one of 2048. -/
def out_module (uuid : CStr) : CStr :=
  snprintf 2048 (snprintf 1024 ("/opt/functions".toList ++ '/' :: uuid) ++ "/module.wasm".toList)

/-- The registry value `dbjson` that `compile_function` builds for `uuid`. -/
def dbjson (uuid : CStr) : CStr :=
  snprintf 2048
    ("\x7b\"name\":\"".toList ++ uuid ++ "\",\"runtime\":\"wasm\",\"module\":\"".toList ++
     out_module uuid ++ "\",\"handler\":\"".toList ++ uuid ++
     "\",\"memory\":128,\"timeout\":5\x7d".toList)

/-- What surrounds one run of `handle_http_client`: the page file, the clock,
the upload counter and the process id, the outcomes of the two `fopen` calls
of the upload path, the result of `compile_function`, the route store, the
telemetry slots and fallback counter, and the link to the workers. -/
structure gateway_env where
  upload_page : html_file
  now : Int
  upload_counter : Nat
  pid : Nat
  code_fopen_ok : Bool
  desc_fopen_ok : Bool
  compile_result : Int
  store : kv
  slots : Slots
  fallback_counter : Int
  link : worker_link

/-- The branch `POST /upload` of `handle_http_client`, on the client descriptor. -/
def handle_upload (env : gateway_env) (req : http_request_t) : List fd_event :=
  if (strstr req.content_type "multipart/form-data".toList).isNone then
    send_http_500 "\x7b\"error\":\"Content-Type must be multipart/form-data\"\x7d".toList ++
      [fd_event.close]
  else
    match strstr req.content_type "boundary=".toList with
    | none =>
      send_http_500 "\x7b\"error\":\"No boundary in Content-Type\"\x7d".toList ++ [fd_event.close]
    | some boundary_start =>
      let boundary := (boundary_start.drop 9).take 255
      match parse_multipart_upload (req.body.take req.body_len) boundary with
      | none =>
        send_http_500 "\x7b\"error\":\"Failed to parse multipart upload\"\x7d".toList ++
          [fd_event.close]
      | some files =>
        match require_parts files with
        | .error message => send_http_500 message ++ [fd_event.close]
        | .ok (_, desc_file) =>
          let descriptor := cstr_at desc_file.data 0
          match validate_descriptor descriptor VALIDATION_ERROR_SIZE with
          | .error validation_error =>
            let error_response := snprintf 1024
              ("\x7b\"status\":\"error\",\"message\":\"Invalid descriptor\",\"details\":\"".toList ++
               validation_error ++ "\"\x7d".toList)
            send_http_500 error_response ++ [fd_event.close]
          | .ok () =>
            let uuid := mint_uuid env.now env.upload_counter env.pid
            if !env.code_fopen_ok then
              send_http_500 "Failed to save code file".toList ++ [fd_event.close]
            else if !env.desc_fopen_ok then
              send_http_500 "Failed to save descriptor".toList ++ [fd_event.close]
            else if env.compile_result ≠ 0 then
              send_http_500 (snprintf 256
                ("Compilation failed (error code: ".toList ++ dec_int env.compile_result ++
                 ")".toList)) ++ [fd_event.close]
            else
              let function_method := route_method descriptor
              let function_uri := snprintf 256 ("/api/".toList ++ uuid)
              let response := snprintf 1024
                ("\x7b\"status\":\"success\",\"message\":\"Function compiled and deployed\",\"uri\":\"".toList
                 ++ function_uri ++ "\",\"method\":\"".toList ++ function_method ++
                 "\",\"info\":\"Will be available in <5 seconds\"\x7d".toList)
              send_http_200 response ++ [fd_event.close]

/-- The function `handle_http_client`: what the gateway thread does with the
client descriptor after reading the request from it. -/
def handle_http_client (env : gateway_env) (sock : Socket) : List fd_event :=
  match (parse_http_request sock).result with
  | none => send_http_500 "Failed to parse request".toList ++ [fd_event.close]
  | some req =>
    if req.method = "GET".toList ∧ req.uri = "/upload".toList then
      serve_html_file env.upload_page ++ [fd_event.close]
    else if req.method = "POST".toList ∧ req.uri = "/upload".toList then
      handle_upload env req
    else
      let found := find_function env.store req.method req.uri {}
      if found.1 ≠ 0 then send_http_404 ++ [fd_event.close]
      else
        let fn := found.2
        let worker_id := (select_worker NUM_WORKERS env.slots env.fallback_counter).1
        let sent := send_to_worker_with_fd env.link fn.runtime fn.module fn.handler
          (some (req.body.take req.body_len))
        if sent.1 ≠ 0 then
          fd_event.handoff worker_id sent.2 sent.1 ::
            (send_http_500 "Worker communication failed".toList ++ [fd_event.close])
        else [fd_event.handoff worker_id sent.2 sent.1]

/-- An upload request as a client sends it in one piece: request line,
`Content-Type` with the boundary, `Content-Length`, blank line, and a body of
a `code` part and a `descriptor` part. -/
def upload_request (boundary : CStr) (code descriptor : List Char) : List Char :=
  "POST /upload HTTP/1.1\r\nContent-Type: multipart/form-data; boundary=".toList ++ boundary ++
  "\r\nContent-Length: ".toList ++
  dec_digits (render_upload boundary "f.c".toList code "d.json".toList descriptor).length ++
  "\r\n\r\n".toList ++ render_upload boundary "f.c".toList code "d.json".toList descriptor

/-- A gateway with an empty route store, no telemetry, and working links. -/
def quiet_env : gateway_env :=
  { upload_page := { opened := false, file_size := 0, alloc_ok := true, content := [] },
    now := 1700000000, upload_counter := 0, pid := 4242,
    code_fopen_ok := true, desc_fopen_ok := true, compile_result := 0,
    store := kv_new 1024, slots := idle_slots, fallback_counter := 0,
    link := { socket_ok := true, connect_ok := true, sendfd_ok := true } }

/-- The descriptor a function registered under the id `uuid` stands for: the
fields `compile_function` writes into its registry value. -/
def registered (uuid : CStr) : FunctionDescriptor :=
  { name := uuid, runtime := "wasm".toList,
    module := "/opt/functions/".toList ++ uuid ++ "/module.wasm".toList,
    handler := uuid, memory := 128, timeout := 5 }

/-! ## Text built from fixed and variable parts -/

/-- The prefix `a` of a text rules out a match of `needle` at its start. -/
def clash (needle a : CStr) : Bool := !needle.isPrefixOf a && !a.isPrefixOf needle

/-- No match of `needle` starts inside the fixed text `lit`, whatever follows. -/
def skips (needle lit : CStr) : Bool :=
  (List.range lit.length).all (fun i => clash needle (lit.drop i))

/-- Every match of `needle` in a text that starts with `part` starts after
`part`. -/
def passes (needle part : CStr) : Prop :=
  ∀ tail : CStr, strstr (part ++ tail) needle = strstr tail needle

/-- The part of a minted id after `func_`: seconds, counter and process id
modulo 1000, separated by underscores. -/
def mint_tail (now : Int) (upload_counter pid : Nat) : CStr :=
  dec_digits (now % 18446744073709551616).toNat ++
    '_' :: dec_digits (upload_counter % 4294967296) ++ '_' :: dec_digits (pid % 1000)

/-- The word `word` between double quotes, as a JSON string is written. -/
def quoted (word : CStr) : CStr := '"' :: word ++ ['"']

/-- Whether the text `d` contains the key `key`: the quoted name followed,
after optional white space, by a colon. -/
def has_key (d key : CStr) : Bool :=
  (List.range d.length).any (fun i =>
    (quoted key).isPrefixOf (d.drop i) &&
      decide (((d.drop (i + (quoted key).length)).dropWhile isspace).head? = some ':'))

/-! # Theorems -/

/-! ## Route store -/

/-! ### Chain lemmas -/

theorem chain_set_none_iff (c : Chain) (key val : CStr) :
    chain_set c key val = none ↔ chain_get c key = none := by
  induction c with
  | nil => simp [chain_set, chain_get]
  | cons p rest ih =>
    obtain ⟨k, v⟩ := p
    by_cases h : k = key
    · simp [chain_set, chain_get, h]
    · simp [chain_set, chain_get, h, ih]

theorem chain_del_none_iff (c : Chain) (key : CStr) :
    chain_del c key = none ↔ chain_get c key = none := by
  induction c with
  | nil => simp [chain_del, chain_get]
  | cons p rest ih =>
    obtain ⟨k, v⟩ := p
    by_cases h : k = key
    · simp [chain_del, chain_get, h]
    · simp [chain_del, chain_get, h, ih]

theorem chain_get_none_iff (c : Chain) (key : CStr) :
    chain_get c key = none ↔ key ∉ c.map Prod.fst := by
  induction c with
  | nil => simp [chain_get]
  | cons p rest ih =>
    obtain ⟨k, v⟩ := p
    by_cases h : k = key
    · simp [chain_get, h]
    · have h' : ¬ key = k := fun e => h e.symm
      simp [chain_get, h, h', ih]

theorem chain_get_of_set {c c' : Chain} {key val : CStr}
    (h : chain_set c key val = some c') (key' : CStr) :
    chain_get c' key' = if key' = key then some val else chain_get c key' := by
  induction c generalizing c' with
  | nil => simp [chain_set] at h
  | cons p rest ih =>
    obtain ⟨k, v⟩ := p
    by_cases hk : k = key
    · subst hk
      simp [chain_set] at h
      subst h
      by_cases e : key' = k
      · simp [chain_get, e]
      · have e' : ¬ k = key' := fun x => e x.symm
        simp [chain_get, e, e']
    · simp only [chain_set, hk, if_false, Option.map_eq_some'] at h
      obtain ⟨r, hr, rfl⟩ := h
      by_cases e : k = key'
      · have e2 : ¬ key' = key := fun x => hk (e.trans x)
        simp [chain_get, e, e2]
      · simp [chain_get, e, ih hr]

theorem chain_keys_of_set {c c' : Chain} {key val : CStr}
    (h : chain_set c key val = some c') : c'.map Prod.fst = c.map Prod.fst := by
  induction c generalizing c' with
  | nil => simp [chain_set] at h
  | cons p rest ih =>
    obtain ⟨k, v⟩ := p
    by_cases hk : k = key
    · subst hk
      simp [chain_set] at h
      subst h
      simp
    · simp only [chain_set, hk, if_false, Option.map_eq_some'] at h
      obtain ⟨r, hr, rfl⟩ := h
      simp [ih hr]

theorem chain_set_again {c c' : Chain} {key val : CStr}
    (h : chain_set c key val = some c') : chain_set c' key val = some c' := by
  induction c generalizing c' with
  | nil => simp [chain_set] at h
  | cons p rest ih =>
    obtain ⟨k, v⟩ := p
    by_cases hk : k = key
    · simp [chain_set, hk] at h
      subst h
      simp [chain_set]
    · simp only [chain_set, hk, if_false, Option.map_eq_some'] at h
      obtain ⟨r, hr, rfl⟩ := h
      simp [chain_set, hk, ih hr]

theorem chain_keys_of_del {c c' : Chain} {key : CStr}
    (h : chain_del c key = some c') :
    (c'.map Prod.fst).Sublist (c.map Prod.fst) ∧ c'.length + 1 = c.length := by
  induction c generalizing c' with
  | nil => simp [chain_del] at h
  | cons p rest ih =>
    obtain ⟨k, v⟩ := p
    by_cases hk : k = key
    · simp [chain_del, hk] at h
      subst h
      simp
    · simp only [chain_del, hk, if_false, Option.map_eq_some'] at h
      obtain ⟨r, hr, rfl⟩ := h
      obtain ⟨h1, h2⟩ := ih hr
      refine ⟨?_, by simp [h2]⟩
      simpa using h1.cons₂ k

theorem chain_get_of_del {c c' : Chain} {key : CStr}
    (hnd : (c.map Prod.fst).Nodup) (h : chain_del c key = some c') (key' : CStr) :
    chain_get c' key' = if key' = key then none else chain_get c key' := by
  induction c generalizing c' with
  | nil => simp [chain_del] at h
  | cons p rest ih =>
    obtain ⟨k, v⟩ := p
    simp only [List.map_cons, List.nodup_cons] at hnd
    by_cases hk : k = key
    · simp [chain_del, hk] at h
      subst h
      subst hk
      by_cases e : key' = k
      · subst e
        simp only [if_true]
        exact (chain_get_none_iff _ _).2 hnd.1
      · have e' : ¬ k = key' := fun x => e x.symm
        simp [chain_get, e, e']
    · simp only [chain_del, hk, if_false, Option.map_eq_some'] at h
      obtain ⟨r, hr, rfl⟩ := h
      by_cases e : k = key'
      · have e2 : ¬ key' = key := fun x => hk (e.trans x)
        simp [chain_get, e, e2]
      · simp [chain_get, e, ih hnd.2 hr]

/-! ### Store lemmas -/

theorem getD_set_same {l : List Chain} {i : Nat} (h : i < l.length) (c : Chain) :
    (l.set i c).getD i [] = c := by
  simp [List.getD_eq_getElem?_getD, List.getElem?_set, h]

theorem getD_set_ne {l : List Chain} {i j : Nat} (h : i ≠ j) (c : Chain) :
    (l.set i c).getD j [] = l.getD j [] := by
  simp [List.getD_eq_getElem?_getD, List.getElem?_set, h]

theorem bucket_index_lt {m : kv} (hs : kv_shaped m) (key : CStr) :
    bucket_index m key < m.buckets.length := by
  unfold bucket_index
  rw [hs.1]
  exact Nat.mod_lt _ hs.2

theorem kv_set_of_some {m : kv} {key val : CStr} {c' : Chain} (ok : Bool)
    (h : chain_set (m.buckets.getD (bucket_index m key) []) key val = some c') :
    kv_set ok m key val =
      if ok then (0, { m with buckets := m.buckets.set (bucket_index m key) c' })
      else (-1, m) := by
  unfold kv_set
  simp only [h]

theorem kv_set_of_none {m : kv} {key val : CStr} (ok : Bool)
    (h : chain_set (m.buckets.getD (bucket_index m key) []) key val = none) :
    kv_set ok m key val =
      if ok then
        (0, { buckets := m.buckets.set (bucket_index m key)
                ((key, val) :: m.buckets.getD (bucket_index m key) []),
              cap := m.cap, n := m.n + 1 })
      else (-1, m) := by
  unfold kv_set
  simp only [h]

theorem kv_del_of_some {m : kv} {key : CStr} {c' : Chain}
    (h : chain_del (m.buckets.getD (bucket_index m key) []) key = some c') :
    kv_del m key =
      (1, { buckets := m.buckets.set (bucket_index m key) c', cap := m.cap, n := m.n - 1 }) := by
  unfold kv_del
  simp only [h]

theorem kv_del_of_none {m : kv} {key : CStr}
    (h : chain_del (m.buckets.getD (bucket_index m key) []) key = none) :
    kv_del m key = (0, m) := by
  unfold kv_del
  simp only [h]

theorem kv_set_fail (m : kv) (key val : CStr) : kv_set false m key val = (-1, m) := by
  cases h : chain_set (m.buckets.getD (bucket_index m key) []) key val with
  | some c => simp [kv_set_of_some false h]
  | none => simp [kv_set_of_none false h]

theorem kv_set_rc (ok : Bool) (m : kv) (key val : CStr) :
    (kv_set ok m key val).1 = if ok then 0 else -1 := by
  cases h : chain_set (m.buckets.getD (bucket_index m key) []) key val with
  | some c => rw [kv_set_of_some ok h]; cases ok <;> simp
  | none => rw [kv_set_of_none ok h]; cases ok <;> simp

theorem kv_set_shaped (ok : Bool) {m : kv} (hs : kv_shaped m) (key val : CStr) :
    kv_shaped (kv_set ok m key val).2 := by
  cases h : chain_set (m.buckets.getD (bucket_index m key) []) key val with
  | some c => rw [kv_set_of_some ok h]; cases ok <;> simp [kv_shaped, hs.1, hs.2, hs]
  | none => rw [kv_set_of_none ok h]; cases ok <;> simp [kv_shaped, hs.1, hs.2, hs]

theorem kv_del_shaped {m : kv} (hs : kv_shaped m) (key : CStr) :
    kv_shaped (kv_del m key).2 := by
  cases h : chain_del (m.buckets.getD (bucket_index m key) []) key with
  | some c => rw [kv_del_of_some h]; simp [kv_shaped, hs.1, hs.2]
  | none => rw [kv_del_of_none h]; exact hs

theorem kv_new_shaped (capacity : Nat) : kv_shaped (kv_new capacity) := by
  unfold kv_new kv_shaped
  by_cases h : capacity < 8
  · simp [h]
  · simp [h]; omega

theorem kv_clear_shaped {m : kv} (hs : kv_shaped m) : kv_shaped (kv_clear m) := by
  unfold kv_clear kv_shaped at *
  simp [hs.2]

theorem kv_get_of_set_ok {m : kv} (hs : kv_shaped m) (key val key' : CStr) :
    kv_get (kv_set true m key val).2 key' =
      if key' = key then some val else kv_get m key' := by
  have hlt : fnv1a key % m.cap < m.buckets.length := bucket_index_lt hs key
  cases hc : chain_set (m.buckets.getD (bucket_index m key) []) key val with
  | some c' =>
    rw [kv_set_of_some true hc]
    simp only [if_true, kv_get, bucket_index] at hc ⊢
    by_cases hi : fnv1a key % m.cap = fnv1a key' % m.cap
    · rw [← hi, getD_set_same hlt, chain_get_of_set hc]
    · rw [getD_set_ne hi]
      have : ¬ key' = key := fun e => hi (by rw [e])
      simp [this]
  | none =>
    rw [kv_set_of_none true hc]
    simp only [if_true, kv_get, bucket_index] at hc ⊢
    by_cases hi : fnv1a key % m.cap = fnv1a key' % m.cap
    · rw [← hi, getD_set_same hlt]
      by_cases e : key' = key
      · simp [chain_get, e]
      · have e' : ¬ key = key' := fun x => e x.symm
        simp only [chain_get, e, e', if_false]
    · rw [getD_set_ne hi]
      have : ¬ key' = key := fun e => hi (by rw [e])
      simp [this]

theorem kv_set_fixed {m1 : kv} {key val : CStr}
    (hset : chain_set (m1.buckets.getD (bucket_index m1 key) []) key val
      = some (m1.buckets.getD (bucket_index m1 key) []))
    (hlt : bucket_index m1 key < m1.buckets.length) (ok : Bool) :
    (kv_set ok m1 key val).2 = m1 := by
  rw [kv_set_of_some ok hset]
  have : m1.buckets.set (bucket_index m1 key) (m1.buckets.getD (bucket_index m1 key) [])
      = m1.buckets := by
    apply List.ext_getElem?
    intro j
    by_cases hj : bucket_index m1 key = j
    · subst hj
      simp [List.getElem?_set, hlt, List.getD_eq_getElem?_getD]
    · simp [List.getElem?_set, hj]
  cases ok
  · simp
  · simp only [if_true, this]

theorem kv_set_twice {m : kv} (hs : kv_shaped m) (ok : Bool) (key val : CStr) :
    (kv_set ok (kv_set true m key val).2 key val).2 = (kv_set true m key val).2 := by
  have hlt : fnv1a key % m.cap < m.buckets.length := bucket_index_lt hs key
  cases hc : chain_set (m.buckets.getD (bucket_index m key) []) key val with
  | some c' =>
    rw [kv_set_of_some true hc]
    simp only [if_true]
    apply kv_set_fixed
    · simp only [bucket_index, getD_set_same hlt]
      exact chain_set_again hc
    · simpa [bucket_index] using hlt
  | none =>
    rw [kv_set_of_none true hc]
    simp only [if_true]
    apply kv_set_fixed
    · simp only [bucket_index, getD_set_same hlt]
      simp [chain_set]
    · simpa [bucket_index] using hlt

/-! ### The size invariant -/

theorem getD_chain_nodup {bs : List Chain} (h : ∀ c ∈ bs, (c.map Prod.fst).Nodup) (i : Nat) :
    ((bs.getD i []).map Prod.fst).Nodup := by
  rw [List.getD_eq_getElem?_getD]
  cases hi : bs[i]? with
  | none => simp
  | some c => exact h c (List.getElem?_mem hi)

theorem kv_get_isSome_iff_chain_set (m : kv) (key val : CStr) :
    (kv_get m key).isSome ↔
      (chain_set (m.buckets.getD (bucket_index m key) []) key val).isSome := by
  unfold kv_get
  rw [← not_iff_not]
  simp only [Option.not_isSome_iff_eq_none]
  exact (chain_set_none_iff _ _ _).symm

theorem kv_get_isSome_iff_chain_del (m : kv) (key : CStr) :
    (kv_get m key).isSome ↔
      (chain_del (m.buckets.getD (bucket_index m key) []) key).isSome := by
  unfold kv_get
  rw [← not_iff_not]
  simp only [Option.not_isSome_iff_eq_none]
  exact (chain_del_none_iff _ _).symm

theorem kv_get_replicate (cap : Nat) (n : Nat) (key : CStr) :
    kv_get { buckets := List.replicate cap [], cap := cap, n := n } key = none := by
  unfold kv_get
  rw [List.getD_eq_getElem?_getD]
  cases h : (List.replicate cap ([] : Chain))[bucket_index
      { buckets := List.replicate cap [], cap := cap, n := n } key]? with
  | none => rfl
  | some c =>
    have hc := List.getElem?_mem h
    rw [List.mem_replicate] at hc
    rw [hc.2]
    rfl

theorem kv_inv_empty (cap : Nat) (hcap : 0 < cap) :
    kv_inv { buckets := List.replicate cap [], cap := cap, n := 0 } := by
  refine ⟨⟨by simp, hcap⟩, ?_, [], List.nodup_nil, ?_, rfl⟩
  · intro c hc
    rw [List.mem_replicate] at hc
    simp [hc.2]
  · intro k
    simp [kv_get_replicate]

theorem kv_inv_new (capacity : Nat) : kv_inv (kv_new capacity) := by
  unfold kv_new
  apply kv_inv_empty
  by_cases h : capacity < 8
  · simp [h]
  · simp only [h, if_false]; omega

theorem kv_inv_clear {m : kv} (h : kv_inv m) : kv_inv (kv_clear m) :=
  kv_inv_empty m.cap h.1.2

theorem kv_inv_set (ok : Bool) {m : kv} (h : kv_inv m) (key val : CStr) :
    kv_inv (kv_set ok m key val).2 := by
  cases ok with
  | false => rw [kv_set_fail]; exact h
  | true =>
    obtain ⟨hs, hnd, ks, hks, hmem, hn⟩ := h
    have hget := kv_get_of_set_ok hs key val
    refine ⟨kv_set_shaped true hs key val, ?_, ?_⟩
    · intro c hc
      cases hcs : chain_set (m.buckets.getD (bucket_index m key) []) key val with
      | some c' =>
        rw [kv_set_of_some true hcs] at hc
        simp only [if_true] at hc
        rcases List.mem_or_eq_of_mem_set hc with h1 | h1
        · exact hnd c h1
        · rw [h1, chain_keys_of_set hcs]
          exact getD_chain_nodup hnd _
      | none =>
        rw [kv_set_of_none true hcs] at hc
        simp only [if_true] at hc
        rcases List.mem_or_eq_of_mem_set hc with h1 | h1
        · exact hnd c h1
        · rw [h1, List.map_cons, List.nodup_cons]
          refine ⟨?_, getD_chain_nodup hnd _⟩
          exact (chain_get_none_iff _ _).1 ((chain_set_none_iff _ _ _).1 hcs)
    · cases hcs : chain_set (m.buckets.getD (bucket_index m key) []) key val with
      | some c' =>
        have hin : key ∈ ks := by
          rw [hmem, kv_get_isSome_iff_chain_set m key val, hcs]; rfl
        refine ⟨ks, hks, ?_, ?_⟩
        · intro k
          rw [hget k]
          by_cases e : k = key
          · subst e; simp [hin]
          · simp only [e, if_false]; exact hmem k
        · rw [kv_set_of_some true hcs]; exact hn
      | none =>
        have hnin : key ∉ ks := by
          rw [hmem, kv_get_isSome_iff_chain_set m key val, hcs]; simp
        refine ⟨key :: ks, List.nodup_cons.2 ⟨hnin, hks⟩, ?_, ?_⟩
        · intro k
          rw [hget k]
          by_cases e : k = key
          · subst e; simp
          · simp only [e, if_false, List.mem_cons, false_or]; exact hmem k
        · rw [kv_set_of_none true hcs]
          simp [hn]

theorem kv_get_of_del {m : kv} (hs : kv_shaped m)
    (hnd : ∀ c ∈ m.buckets, (c.map Prod.fst).Nodup) {key : CStr} {c' : Chain}
    (hc : chain_del (m.buckets.getD (bucket_index m key) []) key = some c') (key' : CStr) :
    kv_get (kv_del m key).2 key' = if key' = key then none else kv_get m key' := by
  have hlt : fnv1a key % m.cap < m.buckets.length := bucket_index_lt hs key
  rw [kv_del_of_some hc]
  simp only [kv_get, bucket_index] at hc ⊢
  by_cases hi : fnv1a key % m.cap = fnv1a key' % m.cap
  · rw [← hi, getD_set_same hlt, chain_get_of_del (getD_chain_nodup hnd _) hc]
  · rw [getD_set_ne hi]
    have : ¬ key' = key := fun e => hi (by rw [e])
    simp [this]

theorem kv_inv_del {m : kv} (h : kv_inv m) (key : CStr) : kv_inv (kv_del m key).2 := by
  cases hc : chain_del (m.buckets.getD (bucket_index m key) []) key with
  | none => rw [kv_del_of_none hc]; exact h
  | some c' =>
    obtain ⟨hs, hnd, ks, hks, hmem, hn⟩ := h
    have hget := kv_get_of_del hs hnd hc
    have hin : key ∈ ks := by
      rw [hmem, kv_get_isSome_iff_chain_del m key, hc]; rfl
    refine ⟨kv_del_shaped hs key, ?_, ks.erase key, hks.erase key, ?_, ?_⟩
    · intro c hcm
      rw [kv_del_of_some hc] at hcm
      rcases List.mem_or_eq_of_mem_set hcm with h1 | h1
      · exact hnd c h1
      · rw [h1]
        exact (chain_keys_of_del hc).1.nodup (getD_chain_nodup hnd _)
    · intro k
      rw [hget k, hks.mem_erase_iff]
      by_cases e : k = key
      · simp [e]
      · simp only [e, if_false, ne_eq, not_false_eq_true, true_and]; exact hmem k
    · rw [kv_del_of_some hc, List.length_erase_of_mem hin]
      simp [hn]

theorem kv_inv_run (capacity : Nat) (ops : List KvOp) : kv_inv (kv_run capacity ops) := by
  unfold kv_run
  have gen : ∀ (l : List KvOp) (m : kv), kv_inv m → kv_inv (l.foldl kv_apply m) := by
    intro l
    induction l with
    | nil => intro m hm; exact hm
    | cons op rest ih =>
      intro m hm
      rw [List.foldl_cons]
      apply ih
      cases op with
      | set key val mem_ok => exact kv_inv_set mem_ok hm key val
      | del key => exact kv_inv_del hm key
      | clear => exact kv_inv_clear hm
  exact gen ops _ (kv_inv_new capacity)

/-! ### Claims on the route store -/

/-- C1: on an allocated store, a successful `kv_set m k v` is a finite-map
update: afterwards `kv_get` returns `v` for the key `k` itself (compared
character by character, so case-sensitively) and, for every other key,
exactly what it returned before the call. -/
theorem kv_set_is_map_update (m : kv) (hs : kv_shaped m) (mem_ok : Bool) (k v k' : CStr)
    (hok : (kv_set mem_ok m k v).1 = 0) :
    kv_get (kv_set mem_ok m k v).2 k' = if k' = k then some v else kv_get m k' := by
  cases mem_ok with
  | false => rw [kv_set_rc] at hok; simp at hok
  | true => exact kv_get_of_set_ok hs k v k'

/-- Witness for C1 on a fresh 8-bucket store: the key written is found, and the
lookup of its lower-case spelling is what it was before (absent). -/
theorem kv_set_is_map_update_witness :
    kv_shaped (kv_new 8) ∧
    (kv_set true (kv_new 8) "GET:/a".toList "x".toList).1 = 0 ∧
    kv_get (kv_set true (kv_new 8) "GET:/a".toList "x".toList).2 "get:/a".toList =
      if "get:/a".toList = "GET:/a".toList then some "x".toList
      else kv_get (kv_new 8) "get:/a".toList :=
  ⟨kv_new_shaped 8, by rw [kv_set_rc]; rfl,
   kv_set_is_map_update (kv_new 8) (kv_new_shaped 8) true "GET:/a".toList "x".toList
     "get:/a".toList (by rw [kv_set_rc]; rfl)⟩

/-- C2: upsert is idempotent. After a successful `kv_set k v`, a second
`kv_set k v` (whether or not its allocation succeeds) leaves every `kv_get`
result and `kv_size` as they were after the first. -/
theorem kv_set_idempotent (m : kv) (hs : kv_shaped m) (ok1 ok2 : Bool) (k v : CStr)
    (h1 : (kv_set ok1 m k v).1 = 0) :
    (∀ k', kv_get (kv_set ok2 (kv_set ok1 m k v).2 k v).2 k' =
        kv_get (kv_set ok1 m k v).2 k') ∧
    kv_size (kv_set ok2 (kv_set ok1 m k v).2 k v).2 = kv_size (kv_set ok1 m k v).2 := by
  cases ok1 with
  | false => rw [kv_set_rc] at h1; simp at h1
  | true =>
    rw [kv_set_twice hs ok2 k v]
    exact ⟨fun _ => rfl, rfl⟩

/-- Witness for C2: the row `POST:/echo` upserted twice into a fresh store. -/
theorem kv_set_idempotent_witness :
    kv_shaped (kv_new 1024) ∧
    (kv_set true (kv_new 1024) "POST:/echo".toList "v".toList).1 = 0 ∧
    ((∀ k', kv_get (kv_set true (kv_set true (kv_new 1024) "POST:/echo".toList
          "v".toList).2 "POST:/echo".toList "v".toList).2 k' =
        kv_get (kv_set true (kv_new 1024) "POST:/echo".toList "v".toList).2 k') ∧
     kv_size (kv_set true (kv_set true (kv_new 1024) "POST:/echo".toList
          "v".toList).2 "POST:/echo".toList "v".toList).2 =
       kv_size (kv_set true (kv_new 1024) "POST:/echo".toList "v".toList).2) :=
  ⟨kv_new_shaped 1024, by rw [kv_set_rc]; rfl,
   kv_set_idempotent (kv_new 1024) (kv_new_shaped 1024) true true "POST:/echo".toList
     "v".toList (by rw [kv_set_rc]; rfl)⟩

/-- C3: in every store reached from `kv_new` by `kv_set`, `kv_del` and
`kv_clear` calls, the keys for which `kv_get` returns a value form a finite
set whose cardinality is `kv_size`; no chain holds a key twice; `kv_set` on a
present key keeps the size; `kv_del` on a present key returns 1 and lowers the
size by one; `kv_del` on an absent key returns 0 and leaves the store as it is. -/
theorem kv_size_counts_keys (capacity : Nat) (ops : List KvOp) :
    ({k | (kv_get (kv_run capacity ops) k).isSome}.Finite ∧
      {k | (kv_get (kv_run capacity ops) k).isSome}.ncard = kv_size (kv_run capacity ops)) ∧
    (∀ c ∈ (kv_run capacity ops).buckets, (c.map Prod.fst).Nodup) ∧
    (∀ k v mem_ok, (kv_get (kv_run capacity ops) k).isSome →
      kv_size (kv_set mem_ok (kv_run capacity ops) k v).2 = kv_size (kv_run capacity ops)) ∧
    (∀ k, (kv_get (kv_run capacity ops) k).isSome →
      (kv_del (kv_run capacity ops) k).1 = 1 ∧
      kv_size (kv_del (kv_run capacity ops) k).2 + 1 = kv_size (kv_run capacity ops)) ∧
    (∀ k, kv_get (kv_run capacity ops) k = none →
      kv_del (kv_run capacity ops) k = (0, kv_run capacity ops)) := by
  obtain ⟨_, hnd, ks, hks, hmem, hn⟩ := kv_inv_run capacity ops
  have hset : {k | (kv_get (kv_run capacity ops) k).isSome} = ↑ks.toFinset := by
    ext k
    simp [hmem]
  refine ⟨⟨?_, ?_⟩, hnd, ?_, ?_, ?_⟩
  · rw [hset]; exact Finset.finite_toSet _
  · rw [hset, Set.ncard_coe_Finset, List.toFinset_card_of_nodup hks]
    exact hn.symm
  · intro k v mem_ok hk
    rw [kv_get_isSome_iff_chain_set _ k v, Option.isSome_iff_exists] at hk
    obtain ⟨c', hc⟩ := hk
    rw [kv_set_of_some mem_ok hc]
    cases mem_ok <;> rfl
  · intro k hk
    have hin : k ∈ ks := (hmem k).2 hk
    have hpos : 0 < ks.length := List.length_pos_of_mem hin
    rw [kv_get_isSome_iff_chain_del, Option.isSome_iff_exists] at hk
    obtain ⟨c', hc⟩ := hk
    rw [kv_del_of_some hc]
    refine ⟨rfl, ?_⟩
    simp only [kv_size]
    omega
  · intro k hk
    apply kv_del_of_none
    exact (chain_del_none_iff _ _).2 hk

/-! ## Worker selection -/

theorem get_worker_metrics_of_lt (slots : Slots) {i : Nat} (h : i < 30) :
    get_worker_metrics slots (i : Int) = some (slots i) := by
  unfold get_worker_metrics
  have h1 : ¬ ((i : Int) < 0 ∨ (i : Int) ≥ 30) := by omega
  simp only [h1, if_false, Int.toNat_ofNat]

theorem get_after_update (slots : Slots) (m : worker_metrics_t)
    (h0 : 0 ≤ m.worker_id) (h1 : m.worker_id < 30) :
    get_worker_metrics (update_worker_metrics slots m) m.worker_id = some m := by
  have h : ¬ (m.worker_id < 0 ∨ m.worker_id ≥ 30) := by omega
  simp [get_worker_metrics, update_worker_metrics, h]

theorem select_scan_succ (N : Nat) (slots : Slots) :
    select_scan (N + 1) slots = select_scan_step slots (select_scan N slots) N := by
  unfold select_scan
  rw [List.range_succ, List.foldl_append]
  rfl

/-- The loop invariant of `select_worker` after `n` iterations. -/
theorem select_scan_spec (slots : Slots) (n : Nat) (hn : n ≤ 30) :
    (select_scan n slots = (-1, 1000000) ∧
      ∀ i < n, (slots i).timestamp > 0 → 1000000 ≤ (slots i).score) ∨
    (∃ j < n, select_scan n slots = ((j : Int), (slots j).score) ∧
      (slots j).timestamp > 0 ∧ (slots j).score < 1000000 ∧
      (∀ i < n, (slots i).timestamp > 0 → (slots j).score ≤ (slots i).score) ∧
      (∀ i < j, (slots i).timestamp > 0 → (slots j).score < (slots i).score)) := by
  induction n with
  | zero => left; exact ⟨rfl, fun i hi => absurd hi (Nat.not_lt_zero i)⟩
  | succ n ih =>
    have hlt : n < 30 := by omega
    rw [select_scan_succ]
    rcases ih (by omega) with ⟨heq, hall⟩ | ⟨j, hj, heq, hts, hsc, hmin, hfirst⟩
    · rw [heq]
      simp only [select_scan_step, get_worker_metrics_of_lt slots hlt]
      by_cases hc : (slots n).timestamp > 0 ∧ (slots n).score < 1000000
      · right
        refine ⟨n, Nat.lt_succ_self n, by simp only [hc, and_self, if_true], hc.1, hc.2, ?_, ?_⟩
        · intro i hi hti
          rcases Nat.lt_succ_iff_lt_or_eq.1 hi with h1 | h1
          · exact le_trans (le_of_lt hc.2) (hall i h1 hti)
          · rw [h1]
        · intro i hi hti
          exact lt_of_lt_of_le hc.2 (hall i hi hti)
      · left
        refine ⟨by simp only [hc, if_false], ?_⟩
        intro i hi hti
        rcases Nat.lt_succ_iff_lt_or_eq.1 hi with h1 | h1
        · exact hall i h1 hti
        · subst h1
          by_contra hcon
          exact hc ⟨hti, lt_of_not_le hcon⟩
    · rw [heq]
      simp only [select_scan_step, get_worker_metrics_of_lt slots hlt]
      right
      by_cases hc : (slots n).timestamp > 0 ∧ (slots n).score < (slots j).score
      · refine ⟨n, Nat.lt_succ_self n, by simp only [hc, and_self, if_true], hc.1,
          lt_trans hc.2 hsc, ?_, ?_⟩
        · intro i hi hti
          rcases Nat.lt_succ_iff_lt_or_eq.1 hi with h1 | h1
          · exact le_trans (le_of_lt hc.2) (hmin i h1 hti)
          · rw [h1]
        · intro i hi hti
          exact lt_of_lt_of_le hc.2 (hmin i hi hti)
      · refine ⟨j, Nat.lt_succ_of_lt hj, by simp only [hc, if_false], hts, hsc, ?_, hfirst⟩
        intro i hi hti
        rcases Nat.lt_succ_iff_lt_or_eq.1 hi with h1 | h1
        · exact hmin i h1 hti
        · subst h1
          by_contra hcon
          exact hc ⟨hti, lt_of_not_le hcon⟩

theorem select_scan_none {N : Nat} (hN : N ≤ 30) {slots : Slots}
    (h : ∀ i < N, (slots i).timestamp > 0 → 1000000 ≤ (slots i).score) :
    select_scan N slots = (-1, 1000000) := by
  rcases select_scan_spec slots N hN with ⟨heq, _⟩ | ⟨j, hj, _, hts, hsc, _, _⟩
  · exact heq
  · exact absurd (h j hj hts) (not_le_of_lt hsc)

theorem select_worker_fallback {N : Nat} (hN : N ≤ 30) {slots : Slots}
    (h : ∀ i < N, (slots i).timestamp > 0 → 1000000 ≤ (slots i).score) (c : Int) :
    select_worker N slots c = (Int.tmod c (N : Int), int32_wrap (c + 1)) := by
  unfold select_worker
  simp only [select_scan_none hN h, if_true]

theorem select_worker_found {N : Nat} (hN : N ≤ 30) {slots : Slots}
    (h : ∃ i < N, (slots i).timestamp > 0 ∧ (slots i).score < 1000000) (c : Int) :
    ∃ j < N, select_worker N slots c = ((j : Int), c) ∧ (slots j).timestamp > 0 ∧
      (∀ i < N, (slots i).timestamp > 0 → (slots j).score ≤ (slots i).score) ∧
      (∀ i < j, (slots i).timestamp > 0 → (slots j).score < (slots i).score) := by
  obtain ⟨i0, hi0, hts0, hsc0⟩ := h
  rcases select_scan_spec slots N hN with ⟨_, hall⟩ | ⟨j, hj, heq, hts, _, hmin, hfirst⟩
  · exact absurd (hall i0 hi0 hts0) (not_le_of_lt hsc0)
  · refine ⟨j, hj, ?_, hts, hmin, hfirst⟩
    unfold select_worker
    have hne : ¬ ((j : Int) = -1) := by omega
    simp only [heq, hne, if_false]

theorem idle_slots_no_candidate (N : Nat) :
    ∀ i < N, (idle_slots i).timestamp > 0 → (1000000 : ℚ) ≤ (idle_slots i).score := by
  intro i _ h
  simp [idle_slots] at h

theorem int32_wrap_add (x : Int) (k : Int) :
    int32_wrap (int32_wrap x + k) = int32_wrap (x + k) := by
  unfold int32_wrap
  omega

theorem int32_wrap_idem (x : Int) : int32_wrap (int32_wrap x) = int32_wrap x := by
  unfold int32_wrap
  omega

theorem select_calls_fallback_counter {N : Nat} (hN : N ≤ 30) (ss : List Slots)
    (h : ∀ s ∈ ss, ∀ i < N, (s i).timestamp > 0 → 1000000 ≤ (s i).score) (c : Int)
    (hc : int32_wrap c = c) :
    (select_calls N ss c).2 = int32_wrap (c + ss.length) := by
  induction ss generalizing c with
  | nil => simp [select_calls, hc]
  | cons s rest ih =>
    have hs := h s (List.mem_cons_self _ _)
    have hrest : ∀ t ∈ rest, ∀ i < N, (t i).timestamp > 0 → 1000000 ≤ (t i).score :=
      fun t ht => h t (List.mem_cons_of_mem _ ht)
    simp only [select_calls, select_worker_fallback hN hs]
    rw [ih hrest _ (int32_wrap_idem _), int32_wrap_add]
    simp only [List.length_cons, Nat.cast_add, Nat.cast_one]
    congr 1
    ring

/-! ### Claims on worker selection -/

theorem select_worker_in_range_of_nonneg {N : Nat} (hN0 : 0 < N) (hN : N ≤ 30)
    (slots : Slots) (c : Int) (hc : 0 ≤ c) :
    0 ≤ (select_worker N slots c).1 ∧ (select_worker N slots c).1 < (N : Int) := by
  by_cases h : ∃ i < N, (slots i).timestamp > 0 ∧ (slots i).score < 1000000
  · obtain ⟨j, hj, heq, _⟩ := select_worker_found hN h c
    rw [heq]
    constructor
    · exact Int.natCast_nonneg j
    · exact Int.ofNat_lt.2 hj
  · have h' : ∀ i < N, (slots i).timestamp > 0 → 1000000 ≤ (slots i).score := by
      intro i hi hts
      by_contra hcon
      exact h ⟨i, hi, hts, lt_of_not_le hcon⟩
    rw [select_worker_fallback hN h']
    exact ⟨Int.tmod_nonneg _ hc, Int.tmod_lt_of_pos _ (Int.ofNat_lt.2 hN0)⟩

theorem select_calls_from {N : Nat} (hN : N ≤ 30) (ss : List Slots)
    (h : ∀ s ∈ ss, ∀ i < N, (s i).timestamp > 0 → 1000000 ≤ (s i).score) (c : Nat)
    (hc : c + ss.length < 2147483648) :
    select_calls N ss (c : Int) =
      ((List.range ss.length).map (fun k => (((c + k) % N : Nat) : Int)),
        ((c + ss.length : Nat) : Int)) := by
  induction ss generalizing c with
  | nil => simp [select_calls]
  | cons s rest ih =>
    have hs := h s (List.mem_cons_self _ _)
    have hrest : ∀ t ∈ rest, ∀ i < N, (t i).timestamp > 0 → 1000000 ≤ (t i).score :=
      fun t ht => h t (List.mem_cons_of_mem _ ht)
    simp only [List.length_cons] at hc
    have hw : int32_wrap ((c : Int) + 1) = ((c + 1 : Nat) : Int) := by
      unfold int32_wrap
      omega
    simp only [select_calls, select_worker_fallback hN hs, hw]
    rw [ih hrest (c + 1) (by omega)]
    simp only [List.length_cons, List.range_succ_eq_map, List.map_cons, List.map_map,
      Nat.add_zero, ← Int.ofNat_tmod]
    refine Prod.ext ?_ ?_
    · simp only [List.cons.injEq, true_and]
      apply List.map_congr_left
      intro k _
      simp only [Function.comp, Nat.succ_eq_add_one]
      rw [show c + 1 + k = c + (k + 1) by omega]
    · simp only
      rw [show c + 1 + rest.length = c + (rest.length + 1) by omega]

/-- C4: the fallback counter is a C `int`. From a fresh process, 2^31 + 1
calls that find no telemetry leave it at -2147483647 (the increment wraps),
and the next such call returns -3 in the gateway (`NUM_WORKERS = 4`) and -1
in the load balancer (`NUM_WORKERS = 2`): neither is a worker id in `[0, N)`. -/
theorem select_worker_negative_id :
    (select_calls NUM_WORKERS (List.replicate 2147483649 idle_slots) 0).2 = -2147483647 ∧
    select_worker NUM_WORKERS idle_slots (-2147483647) = (-3, -2147483646) ∧
    select_worker LB_NUM_WORKERS idle_slots (-2147483647) = (-1, -2147483646) := by
  refine ⟨?_, ?_, ?_⟩
  · rw [select_calls_fallback_counter (by decide) _ _ 0 (by decide)]
    · rw [List.length_replicate]
      decide
    · intro s hs
      rw [List.eq_of_mem_replicate hs]
      exact idle_slots_no_candidate _
  · rw [select_worker_fallback (by decide) (idle_slots_no_candidate _)]
    decide
  · rw [select_worker_fallback (by decide) (idle_slots_no_candidate _)]
    decide

theorem select_calls_counter {N : Nat} (hN : N ≤ 30) (history : List Slots) (c : Nat)
    (hc : c + fallback_count N history < 2147483648) :
    (select_calls N history (c : Int)).2 = ((c + fallback_count N history : Nat) : Int) := by
  induction history generalizing c with
  | nil => simp [select_calls, fallback_count]
  | cons s rest ih =>
    by_cases hs : fallback_call N s
    · have hcnt : fallback_count N (s :: rest) = fallback_count N rest + 1 := by
        simp [fallback_count, List.countP_cons, hs]
      rw [hcnt] at hc ⊢
      have hw : int32_wrap ((c : Int) + 1) = ((c + 1 : Nat) : Int) := by
        unfold int32_wrap
        omega
      simp only [select_calls, select_worker_fallback hN hs, hw]
      rw [ih (c + 1) (by omega)]
      rw [show c + 1 + fallback_count N rest = c + (fallback_count N rest + 1) by omega]
    · have hcnt : fallback_count N (s :: rest) = fallback_count N rest := by
        simp [fallback_count, List.countP_cons, hs]
      rw [hcnt] at hc ⊢
      have hex : ∃ i < N, (s i).timestamp > 0 ∧ (s i).score < 1000000 := by
        unfold fallback_call at hs
        push_neg at hs
        exact hs
      obtain ⟨j, _, heq, _⟩ := select_worker_found hN hex (c : Int)
      simp only [select_calls, heq]
      exact ih c hc

/-- Round-robin below the wrap of the counter. Call a call a fallback call when
no slot below `N` has both a timestamp above zero and a score below 1000000
(on the array as the collector fills it: when no slot has a timestamp above
zero, see `telemetry_fallback_iff`). After any history of calls from a fresh
process (counter 0) that holds `k < 2^31 - 1` fallback calls, a fallback call
returns `k mod N` and leaves the counter at `k + 1`, and any other call leaves
the counter unchanged; in particular fewer than 2^31 successive fallback calls
return `0 mod N, 1 mod N, 2 mod N, ...`. -/
theorem select_worker_round_robin (N : Nat) (hN : N ≤ 30) (history : List Slots)
    (slots : Slots) (hk : fallback_count N history + 1 < 2147483648) :
    (fallback_call N slots →
      select_worker N slots (select_calls N history 0).2 =
        (((fallback_count N history % N : Nat) : Int),
         ((fallback_count N history + 1 : Nat) : Int))) ∧
    (¬ fallback_call N slots →
      (select_worker N slots (select_calls N history 0).2).2 = (select_calls N history 0).2) ∧
    ((∀ s ∈ history, fallback_call N s) →
      (select_calls N history 0).1 =
        (List.range history.length).map (fun k => ((k % N : Nat) : Int))) := by
  have hcnt : (select_calls N history 0).2 = ((fallback_count N history : Nat) : Int) := by
    have := select_calls_counter hN history 0 (by omega)
    simpa using this
  refine ⟨?_, ?_, ?_⟩
  · intro hs
    rw [hcnt, select_worker_fallback hN hs, ← Int.ofNat_tmod]
    have hw : int32_wrap ((fallback_count N history : Int) + 1)
        = ((fallback_count N history + 1 : Nat) : Int) := by
      unfold int32_wrap
      omega
    rw [hw]
  · intro hs
    have hex : ∃ i < N, (slots i).timestamp > 0 ∧ (slots i).score < 1000000 := by
      unfold fallback_call at hs
      push_neg at hs
      exact hs
    obtain ⟨j, _, heq, _⟩ := select_worker_found hN hex (select_calls N history 0).2
    rw [heq]
  · intro hall
    have hlen : fallback_count N history = history.length := by
      unfold fallback_count
      rw [List.countP_eq_length]
      intro s hs
      exact decide_eq_true (hall s hs)
    have := select_calls_from hN history hall 0 (by omega)
    simpa using congrArg Prod.fst this

/-- Round-robin on a fresh gateway: with no telemetry at all, the third call
returns 2 and leaves the counter at 3, after the calls that returned 0 and 1. -/
theorem select_worker_round_robin_third_call :
    NUM_WORKERS ≤ 30 ∧
    fallback_count NUM_WORKERS [idle_slots, idle_slots] + 1 < 2147483648 ∧
    fallback_call NUM_WORKERS idle_slots ∧
    select_worker NUM_WORKERS idle_slots
      (select_calls NUM_WORKERS [idle_slots, idle_slots] 0).2 = (2, 3) ∧
    (select_calls NUM_WORKERS [idle_slots, idle_slots] 0).1 = [0, 1] := by
  have hc : fallback_count NUM_WORKERS [idle_slots, idle_slots] = 2 := by
    have hi : fallback_call NUM_WORKERS idle_slots := idle_slots_no_candidate _
    simp [fallback_count, List.countP_cons, hi]
  have h := select_worker_round_robin NUM_WORKERS (by decide) [idle_slots, idle_slots]
    idle_slots (by rw [hc]; decide)
  refine ⟨by decide, by rw [hc]; decide, idle_slots_no_candidate _, ?_, ?_⟩
  · rw [h.1 (idle_slots_no_candidate _), hc]
    decide
  · rw [h.2.2 (by
      intro s hs
      simp only [List.mem_cons, List.mem_singleton, List.not_mem_nil, or_false, or_self] at hs
      rw [hs]
      exact idle_slots_no_candidate _)]
    decide

/-! ## Metrics smoother -/

theorem normalize_bounds (value max_value : ℚ) : in_range (normalize value max_value) := by
  unfold normalize in_range
  by_cases h : max_value ≤ 0
  · simp [h]
  · simp only [h, if_false]
    by_cases h1 : value / max_value * 100 < 0
    · norm_num [h1]
    · simp only [h1, if_false]
      by_cases h2 : value / max_value * 100 > 100
      · simp [h2]
      · simp only [h2, if_false]
        exact ⟨le_of_not_lt h1, le_of_not_lt h2⟩

/-! ### Rounding to binary32 -/

theorem round_half_even_error (m : ℚ) : |(round_half_even m : ℚ) - m| ≤ 1 / 2 := by
  have h1 := Int.floor_le m
  have h2 := Int.lt_floor_add_one m
  unfold round_half_even
  rw [abs_le]
  split_ifs with a b c
  · constructor <;> linarith
  · push_cast; constructor <;> linarith
  · have hb : m - ⌊m⌋ = 1 / 2 := le_antisymm (not_lt.1 b) (not_lt.1 a)
    constructor <;> linarith
  · have hb : m - ⌊m⌋ = 1 / 2 := le_antisymm (not_lt.1 b) (not_lt.1 a)
    push_cast; constructor <;> linarith

theorem round_half_even_le (m : ℚ) (n : ℤ) (h : m < n + 1 / 2) : round_half_even m ≤ n := by
  have h1 := (abs_le.1 (round_half_even_error m)).2
  have h2 : (round_half_even m : ℚ) < n + 1 := by linarith
  have h3 : round_half_even m < n + 1 := by exact_mod_cast h2
  omega

theorem round_half_even_nonneg (m : ℚ) (h : 0 ≤ m) : 0 ≤ round_half_even m := by
  have h1 := (abs_le.1 (round_half_even_error m)).1
  have h2 : ((-1 : ℤ) : ℚ) < round_half_even m := by push_cast; linarith
  have h3 : (-1 : ℤ) < round_half_even m := by exact_mod_cast h2
  omega

theorem round_half_even_near (m : ℚ) (n : ℤ) (h1 : (n : ℚ) - 1 / 2 < m) (h2 : m < n + 1 / 2) :
    round_half_even m = n := by
  have e := abs_le.1 (round_half_even_error m)
  have a : (round_half_even m : ℚ) < n + 1 := by linarith [e.2]
  have b : ((n - 1 : ℤ) : ℚ) < round_half_even m := by push_cast; linarith [e.1]
  have a2 : round_half_even m < n + 1 := by exact_mod_cast a
  have b2 : n - 1 < round_half_even m := by exact_mod_cast b
  omega

theorem round_half_even_tie (m : ℚ) (n : ℤ) (h : m = n + 1 / 2) :
    round_half_even m = if n % 2 = 0 then n else n + 1 := by
  have hf : ⌊m⌋ = n := by
    rw [Int.floor_eq_iff, h]
    constructor <;> linarith
  unfold round_half_even
  rw [hf, h]
  have a : ¬ ((n : ℚ) + 1 / 2 - n < 1 / 2) := by
    intro hh; linarith
  have b : ¬ ((1 : ℚ) / 2 < (n : ℚ) + 1 / 2 - n) := by
    intro hh; linarith
  simp only [a, b, if_false]

theorem ulp32_pos (q : ℚ) : 0 < ulp32 q := by
  unfold ulp32
  positivity

theorem ulp32_eq (q : ℚ) (e : ℤ) (he : -126 ≤ e) (h1 : (2 : ℚ) ^ e ≤ |q|)
    (h2 : |q| < (2 : ℚ) ^ (e + 1)) : ulp32 q = (2 : ℚ) ^ (e - 23) := by
  have hpos : 0 < |q| := lt_of_lt_of_le (by positivity) h1
  have a : e ≤ Int.log 2 |q| := by
    rw [← Int.zpow_le_iff_le_log (by decide) hpos]
    exact_mod_cast h1
  have b : Int.log 2 |q| < e + 1 := by
    rw [← Int.lt_zpow_iff_log_lt (by decide) hpos]
    exact_mod_cast h2
  have c : Int.log 2 |q| = e := by omega
  unfold ulp32
  rw [c, max_eq_left he]

theorem ulp32_le (q : ℚ) (e : ℤ) (he : 0 ≤ e) (h2 : |q| < (2 : ℚ) ^ (e + 1)) :
    ulp32 q ≤ (2 : ℚ) ^ (e - 23) := by
  have hlog : Int.log 2 |q| ≤ e := by
    rcases (abs_nonneg q).eq_or_lt with h0 | hpos
    · rw [← h0, Int.log_of_right_le_zero 2 (le_refl (0 : ℚ))]
      exact he
    · have b : Int.log 2 |q| < e + 1 := by
        rw [← Int.lt_zpow_iff_log_lt (by decide) hpos]
        exact_mod_cast h2
      omega
  unfold ulp32
  apply zpow_le_zpow_right₀ (by norm_num)
  have : max (Int.log 2 |q|) (-126) ≤ e := max_le hlog (by omega)
  omega

theorem round32_error (q : ℚ) : |round32 q - q| ≤ ulp32 q / 2 := by
  have hu := ulp32_pos q
  have e := round_half_even_error (q / ulp32 q)
  have h : round32 q - q = ((round_half_even (q / ulp32 q) : ℚ) - q / ulp32 q) * ulp32 q := by
    unfold round32
    field_simp
  rw [h, abs_mul, abs_of_pos hu]
  calc |(round_half_even (q / ulp32 q) : ℚ) - q / ulp32 q| * ulp32 q
      ≤ 1 / 2 * ulp32 q := mul_le_mul_of_nonneg_right e (le_of_lt hu)
    _ = ulp32 q / 2 := by ring

theorem round32_nonneg (q : ℚ) (h : 0 ≤ q) : 0 ≤ round32 q := by
  unfold round32
  have hu := ulp32_pos q
  have := round_half_even_nonneg (q / ulp32 q) (div_nonneg h (le_of_lt hu))
  have h2 : (0 : ℚ) ≤ round_half_even (q / ulp32 q) := by exact_mod_cast this
  positivity

/-- A bound that is a multiple of the spacing is kept by the rounding. -/
theorem round32_le_of_multiple (q bound : ℚ) (n : ℤ) (hn : bound = n * ulp32 q)
    (h : q < bound + ulp32 q / 2) : round32 q ≤ bound := by
  have hu := ulp32_pos q
  have hm : q / ulp32 q < n + 1 / 2 := by
    rw [div_lt_iff₀ hu]
    rw [hn] at h
    linarith
  have := round_half_even_le _ n hm
  have h2 : (round_half_even (q / ulp32 q) : ℚ) ≤ n := by exact_mod_cast this
  unfold round32
  rw [hn]
  exact mul_le_mul_of_nonneg_right h2 (le_of_lt hu)

/-- A natural number is a multiple of the spacing around every `q` below `2^24`. -/
theorem nat_multiple_of_ulp32 (q : ℚ) (k : ℕ) (hq : |q| < 16777216) :
    ∃ n : ℤ, (k : ℚ) = n * ulp32 q := by
  have hlog : Int.log 2 |q| ≤ 23 := by
    rcases (abs_nonneg q).eq_or_lt with h0 | hpos
    · rw [← h0, Int.log_of_right_le_zero 2 (le_refl (0 : ℚ))]
      decide
    · have b : Int.log 2 |q| < 24 := by
        rw [← Int.lt_zpow_iff_log_lt (by decide) hpos]
        norm_num
        exact hq
      omega
  have hk : max (Int.log 2 |q|) (-126) - 23 ≤ 0 := by
    have : max (Int.log 2 |q|) (-126) ≤ 23 := max_le hlog (by decide)
    omega
  obtain ⟨t, ht⟩ : ∃ t : ℕ, max (Int.log 2 |q|) (-126) - 23 = -(t : ℤ) :=
    ⟨(-(max (Int.log 2 |q|) (-126) - 23)).toNat, by omega⟩
  refine ⟨(k : ℤ) * 2 ^ t, ?_⟩
  unfold ulp32
  rw [ht, zpow_neg, zpow_natCast]
  push_cast
  field_simp

theorem round32_le_nat (q : ℚ) (k : ℕ) (hq : |q| < 16777216) (h : q ≤ k) : round32 q ≤ k := by
  obtain ⟨n, hn⟩ := nat_multiple_of_ulp32 q k hq
  exact round32_le_of_multiple q k n hn (by linarith [ulp32_pos q])

/-- The value of `round32` where the exponent is `e` and the quotient by the
spacing is nearer to the integer `n` than to any other. -/
theorem round32_near (q : ℚ) (e n : ℤ) (he : -126 ≤ e) (h1 : (2 : ℚ) ^ e ≤ |q|)
    (h2 : |q| < (2 : ℚ) ^ (e + 1)) (h3 : (n : ℚ) - 1 / 2 < q / (2 : ℚ) ^ (e - 23))
    (h4 : q / (2 : ℚ) ^ (e - 23) < n + 1 / 2) : round32 q = n * (2 : ℚ) ^ (e - 23) := by
  unfold round32
  rw [ulp32_eq q e he h1 h2, round_half_even_near _ n h3 h4]

/-- The value of `round32` where the exponent is `e` and the quotient by the
spacing lies halfway between `n` and `n + 1`. -/
theorem round32_tie (q : ℚ) (e n : ℤ) (he : -126 ≤ e) (h1 : (2 : ℚ) ^ e ≤ |q|)
    (h2 : |q| < (2 : ℚ) ^ (e + 1)) (h3 : q / (2 : ℚ) ^ (e - 23) = n + 1 / 2) :
    round32 q = (if n % 2 = 0 then n else n + 1 : ℤ) * (2 : ℚ) ^ (e - 23) := by
  unfold round32
  rw [ulp32_eq q e he h1 h2, round_half_even_tie _ n h3]

/-- The difference `1.0f - 0.7f` is a binary32 value: its rounding is exact. -/
theorem round32_one_sub_factor : round32 (1 - EMA_FACTOR) = 1 - EMA_FACTOR := by
  rw [round32_near (1 - EMA_FACTOR) (-2) 10066330 (by decide)] <;>
    norm_num [EMA_FACTOR, abs_of_pos]

theorem apply_ema_eq (s x : ℚ) (initialized : Int) (h : initialized ≠ 0) :
    apply_ema s x initialized =
      round32 (round32 (EMA_FACTOR * s) + round32 ((1 - EMA_FACTOR) * x)) := by
  unfold apply_ema
  rw [if_neg h, round32_one_sub_factor]

/-- The two rounded products of an EMA step on values in `[0, 100]`: their
bounds and their distance from the exact products. -/
theorem ema_products {s x : ℚ} (hs : in_range s) (hx : in_range x) :
    (0 ≤ round32 (EMA_FACTOR * s) ∧ round32 (EMA_FACTOR * s) ≤ 70 ∧
      |round32 (EMA_FACTOR * s) - EMA_FACTOR * s| ≤ 1 / 262144) ∧
    (0 ≤ round32 ((1 - EMA_FACTOR) * x) ∧
      round32 ((1 - EMA_FACTOR) * x) ≤ 30 + 9 / 4194304 ∧
      |round32 ((1 - EMA_FACTOR) * x) - (1 - EMA_FACTOR) * x| ≤ 1 / 1048576) := by
  obtain ⟨hs0, hs1⟩ := hs
  obtain ⟨hx0, hx1⟩ := hx
  have a0 : 0 ≤ EMA_FACTOR * s := by unfold EMA_FACTOR; positivity
  have a1 : EMA_FACTOR * s ≤ 70 := by unfold EMA_FACTOR; linarith
  have b0 : 0 ≤ (1 - EMA_FACTOR) * x := by
    unfold EMA_FACTOR; norm_num; positivity
  have b1 : (1 - EMA_FACTOR) * x ≤ 30 + 5 / 4194304 := by
    unfold EMA_FACTOR; linarith
  have ea : |round32 (EMA_FACTOR * s) - EMA_FACTOR * s| ≤ 1 / 262144 := by
    have u := ulp32_le (EMA_FACTOR * s) 6 (by decide)
      (by rw [abs_of_nonneg a0]; norm_num; linarith)
    have := round32_error (EMA_FACTOR * s)
    norm_num at u
    linarith
  have eb : |round32 ((1 - EMA_FACTOR) * x) - (1 - EMA_FACTOR) * x| ≤ 1 / 1048576 := by
    have u := ulp32_le ((1 - EMA_FACTOR) * x) 4 (by decide)
      (by rw [abs_of_nonneg b0]; norm_num; linarith)
    have := round32_error ((1 - EMA_FACTOR) * x)
    norm_num at u
    linarith
  refine ⟨⟨round32_nonneg _ a0, ?_, ea⟩, ⟨round32_nonneg _ b0, ?_, eb⟩⟩
  · have := round32_le_nat (EMA_FACTOR * s) 70
      (by rw [abs_of_nonneg a0]; linarith) (by exact_mod_cast a1)
    exact_mod_cast this
  · have := (abs_le.1 eb).2
    linarith

/-- The distance of an EMA step on values in `[0, 100]` from the exact
combination `EMA_FACTOR * s + (1 - EMA_FACTOR) * x`. -/
theorem apply_ema_error {s x : ℚ} (hs : in_range s) (hx : in_range x) (initialized : Int)
    (h : initialized ≠ 0) :
    |apply_ema s x initialized - (EMA_FACTOR * s + (1 - EMA_FACTOR) * x)| ≤ 3 / 262144 := by
  obtain ⟨⟨p0, p1, pe⟩, ⟨q0, q1, qe⟩⟩ := ema_products hs hx
  rw [apply_ema_eq s x initialized h]
  generalize round32 (EMA_FACTOR * s) = p at *
  generalize round32 ((1 - EMA_FACTOR) * x) = q at *
  have u := ulp32_le (p + q) 6 (by decide)
    (by rw [abs_of_nonneg (by linarith)]; norm_num; linarith)
  have e := round32_error (p + q)
  norm_num at u
  rw [abs_le] at pe qe e ⊢
  constructor <;> linarith [pe.1, pe.2, qe.1, qe.2, e.1, e.2]

theorem apply_ema_in_range {s x : ℚ} (hs : in_range s) (hx : in_range x) (initialized : Int) :
    in_range (apply_ema s x initialized) := by
  by_cases h : initialized = 0
  · unfold apply_ema
    rw [if_pos h]
    exact hx
  · obtain ⟨⟨p0, p1, _⟩, ⟨q0, q1, _⟩⟩ := ema_products hs hx
    rw [apply_ema_eq s x initialized h]
    generalize round32 (EMA_FACTOR * s) = p at *
    generalize round32 ((1 - EMA_FACTOR) * x) = q at *
    refine ⟨round32_nonneg _ (by linarith), ?_⟩
    by_cases hle : p + q ≤ 100
    · have := round32_le_nat (p + q) 100
        (by rw [abs_of_nonneg (by linarith)]; linarith) (by exact_mod_cast hle)
      exact_mod_cast this
    · have hgt : 100 < p + q := lt_of_not_le hle
      have hu : ulp32 (p + q) = (2 : ℚ) ^ ((6 : ℤ) - 23) :=
        ulp32_eq (p + q) 6 (by decide)
          (by rw [abs_of_nonneg (by linarith)]; norm_num; linarith)
          (by rw [abs_of_nonneg (by linarith)]; norm_num; linarith)
      apply round32_le_of_multiple (p + q) 100 13107200
      · rw [hu]; norm_num
      · rw [hu]; norm_num; linarith

/-- The smoother invariant: its three values lie in `[0, 100]`. -/
theorem update_in_range {s : metrics_smoother_t}
    (hs : in_range s.cpu_smoothed ∧ in_range s.mem_smoothed ∧ in_range s.io_smoothed)
    (r : raw_sample) :
    (in_range (metrics_smoother_update s r).1.cpu_smoothed ∧
      in_range (metrics_smoother_update s r).1.mem_smoothed ∧
      in_range (metrics_smoother_update s r).1.io_smoothed) ∧
    (in_range (metrics_smoother_update s r).2.cpu ∧
      in_range (metrics_smoother_update s r).2.mem ∧
      in_range (metrics_smoother_update s r).2.io) ∧
    (metrics_smoother_update s r).1.initialized = 1 := by
  have a := apply_ema_in_range hs.1 (normalize_bounds r.cpu_raw MAX_CPU_PERCENT) s.initialized
  have b := apply_ema_in_range hs.2.1 (normalize_bounds r.mem_raw_mb MAX_MEM_MB) s.initialized
  have c := apply_ema_in_range hs.2.2 (normalize_bounds r.io_raw MAX_IO_RATE) s.initialized
  exact ⟨⟨a, b, c⟩, ⟨a, b, c⟩, rfl⟩

theorem smoother_run_in_range (rs : List raw_sample) {s : metrics_smoother_t}
    (hs : in_range s.cpu_smoothed ∧ in_range s.mem_smoothed ∧ in_range s.io_smoothed) :
    (in_range (smoother_run s rs).1.cpu_smoothed ∧
      in_range (smoother_run s rs).1.mem_smoothed ∧
      in_range (smoother_run s rs).1.io_smoothed) ∧
    ∀ o ∈ (smoother_run s rs).2, in_range o.cpu ∧ in_range o.mem ∧ in_range o.io := by
  induction rs generalizing s with
  | nil => exact ⟨hs, fun o ho => by simp [smoother_run] at ho⟩
  | cons r rest ih =>
    obtain ⟨h1, h2, _⟩ := update_in_range hs r
    obtain ⟨i1, i2⟩ := ih h1
    refine ⟨i1, ?_⟩
    intro o ho
    simp only [smoother_run, List.mem_cons] at ho
    rcases ho with rfl | ho
    · exact h2
    · exact i2 o ho

theorem load_score_nonneg {o : smoothed_out}
    (h : in_range o.cpu ∧ in_range o.mem ∧ in_range o.io) :
    0 ≤ calculate_load_score o.cpu o.mem o.io := by
  unfold calculate_load_score ALPHA BETA GAMMA
  have := h.1.1
  have := h.2.1.1
  have := h.2.2.1
  linarith

theorem init_in_range :
    in_range metrics_smoother_init.cpu_smoothed ∧ in_range metrics_smoother_init.mem_smoothed ∧
      in_range metrics_smoother_init.io_smoothed := by
  simp [metrics_smoother_init, in_range]

/-- C7, as stated, fails of the code, which computes in binary32. For
`s = x = 7.9f` (the binary32 value `16567501 / 2^21`) the step returns
`16567502 / 2^21`, above `max s x`; for `s = x = 1.9f` (`15938355 / 2^23`) it
returns `15938354 / 2^23`, below `min s x`. -/
theorem apply_ema_leaves_min_max :
    round32 (16567501 / 2097152) = 16567501 / 2097152 ∧
    apply_ema (16567501 / 2097152) (16567501 / 2097152) 1 = 16567502 / 2097152 ∧
    max (16567501 / 2097152 : ℚ) (16567501 / 2097152) <
      apply_ema (16567501 / 2097152) (16567501 / 2097152) 1 ∧
    round32 (15938355 / 8388608) = 15938355 / 8388608 ∧
    apply_ema (15938355 / 8388608) (15938355 / 8388608) 1 = 15938354 / 8388608 ∧
    apply_ema (15938355 / 8388608) (15938355 / 8388608) 1 <
      min (15938355 / 8388608 : ℚ) (15938355 / 8388608) := by
  have s1 : round32 (16567501 / 2097152) = 16567501 / 2097152 := by
    rw [round32_near (16567501 / 2097152) 2 16567501 (by decide)] <;>
      norm_num [abs_of_pos]
  have s2 : round32 (15938355 / 8388608) = 15938355 / 8388608 := by
    rw [round32_near (15938355 / 8388608) 0 15938355 (by decide)] <;>
      norm_num [abs_of_pos]
  have a1 : round32 (EMA_FACTOR * (16567501 / 2097152)) = 11597251 / 2097152 := by
    rw [round32_near (EMA_FACTOR * (16567501 / 2097152)) 2 11597251 (by decide)] <;>
      norm_num [EMA_FACTOR, abs_of_pos]
  have a2 : round32 ((1 - EMA_FACTOR) * (16567501 / 2097152)) = 9940501 / 4194304 := by
    rw [round32_near ((1 - EMA_FACTOR) * (16567501 / 2097152)) 1 9940501 (by decide)] <;>
      norm_num [EMA_FACTOR, abs_of_pos]
  have a3 : round32 (11597251 / 2097152 + 9940501 / 4194304) = 16567502 / 2097152 := by
    rw [round32_tie (11597251 / 2097152 + 9940501 / 4194304) 2 16567501 (by decide)] <;>
      norm_num [abs_of_pos]
  have b1 : round32 (EMA_FACTOR * (15938355 / 8388608)) = 11156848 / 8388608 := by
    rw [round32_near (EMA_FACTOR * (15938355 / 8388608)) 0 11156848 (by decide)] <;>
      norm_num [EMA_FACTOR, abs_of_pos]
  have b2 : round32 ((1 - EMA_FACTOR) * (15938355 / 8388608)) = 9563013 / 16777216 := by
    rw [round32_near ((1 - EMA_FACTOR) * (15938355 / 8388608)) (-1) 9563013 (by decide)] <;>
      norm_num [EMA_FACTOR, abs_of_pos]
  have b3 : round32 (11156848 / 8388608 + 9563013 / 16777216) = 15938354 / 8388608 := by
    rw [round32_tie (11156848 / 8388608 + 9563013 / 16777216) 0 15938354 (by decide)] <;>
      norm_num [abs_of_pos]
  have e1 : apply_ema (16567501 / 2097152) (16567501 / 2097152) 1 = 16567502 / 2097152 := by
    rw [apply_ema_eq _ _ 1 (by decide), a1, a2, a3]
  have e2 : apply_ema (15938355 / 8388608) (15938355 / 8388608) 1 = 15938354 / 8388608 := by
    rw [apply_ema_eq _ _ 1 (by decide), b1, b2, b3]
  refine ⟨s1, e1, ?_, s2, e2, ?_⟩
  · rw [e1, max_self]; norm_num
  · rw [e2, min_self]; norm_num

/-- C7, amended: an EMA step on values `s`, `x` in `[0, 100]`, computed in
binary32 with the factor `0.7f`, returns `x` while the smoother is not
initialised; afterwards its result differs by at most `3 / 2^18` from the
exact combination `EMA_FACTOR * s + (1 - EMA_FACTOR) * x`, which lies between
`min s x` and `max s x`. Every step therefore yields a value between
`min s x - 3 / 2^18` and `max s x + 3 / 2^18`. -/
theorem apply_ema_near_min_max (s x : ℚ) (initialized : Int) (hs : in_range s)
    (hx : in_range x) :
    (initialized = 0 → apply_ema s x initialized = x) ∧
    (min s x ≤ EMA_FACTOR * s + (1 - EMA_FACTOR) * x ∧
      EMA_FACTOR * s + (1 - EMA_FACTOR) * x ≤ max s x) ∧
    (initialized ≠ 0 →
      |apply_ema s x initialized - (EMA_FACTOR * s + (1 - EMA_FACTOR) * x)| ≤ 3 / 262144) ∧
    min s x - 3 / 262144 ≤ apply_ema s x initialized ∧
    apply_ema s x initialized ≤ max s x + 3 / 262144 := by
  have hex : min s x ≤ EMA_FACTOR * s + (1 - EMA_FACTOR) * x ∧
      EMA_FACTOR * s + (1 - EMA_FACTOR) * x ≤ max s x := by
    unfold EMA_FACTOR
    rcases le_total s x with hsx | hsx
    · rw [min_eq_left hsx, max_eq_right hsx]
      constructor <;> linarith
    · rw [min_eq_right hsx, max_eq_left hsx]
      constructor <;> linarith
  have h0 : initialized = 0 → apply_ema s x initialized = x := by
    intro h
    unfold apply_ema
    rw [if_pos h]
  refine ⟨h0, hex, apply_ema_error hs hx initialized, ?_⟩
  by_cases h : initialized = 0
  · rw [h0 h]
    constructor
    · linarith [min_le_right s x]
    · linarith [le_max_right s x]
  · have e := abs_le.1 (apply_ema_error hs hx initialized h)
    constructor <;> linarith [e.1, e.2, hex.1, hex.2]

/-- Witness for C7 amended: the step on `s = x = 7.9f`, whose result is one
spacing, `1 / 2^21`, above both. -/
theorem apply_ema_near_min_max_witness :
    in_range (16567501 / 2097152) ∧
    ((1 : Int) = 0 → apply_ema (16567501 / 2097152) (16567501 / 2097152) 1
      = 16567501 / 2097152) ∧
    (min (16567501 / 2097152 : ℚ) (16567501 / 2097152) ≤
        EMA_FACTOR * (16567501 / 2097152) + (1 - EMA_FACTOR) * (16567501 / 2097152) ∧
      EMA_FACTOR * (16567501 / 2097152) + (1 - EMA_FACTOR) * (16567501 / 2097152) ≤
        max (16567501 / 2097152 : ℚ) (16567501 / 2097152)) ∧
    ((1 : Int) ≠ 0 →
      |apply_ema (16567501 / 2097152) (16567501 / 2097152) 1 -
        (EMA_FACTOR * (16567501 / 2097152) + (1 - EMA_FACTOR) * (16567501 / 2097152))|
        ≤ 3 / 262144) ∧
    min (16567501 / 2097152 : ℚ) (16567501 / 2097152) - 3 / 262144 ≤
      apply_ema (16567501 / 2097152) (16567501 / 2097152) 1 ∧
    apply_ema (16567501 / 2097152) (16567501 / 2097152) 1 ≤
      max (16567501 / 2097152 : ℚ) (16567501 / 2097152) + 3 / 262144 :=
  ⟨by unfold in_range; norm_num,
   apply_ema_near_min_max (16567501 / 2097152) (16567501 / 2097152) 1
     (by unfold in_range; norm_num) (by unfold in_range; norm_num)⟩

/-- C9: starting from `metrics_smoother_init`, after any non-empty sequence of
`metrics_smoother_update` calls the smoother's three values and the three
outputs of every call lie in `[0, 100]`, the first call outputs exactly the
normalised inputs, and the load score of every call's outputs is at least 0. -/
theorem smoother_outputs_bounded (r : raw_sample) (rest : List raw_sample) :
    (in_range (smoother_run metrics_smoother_init (r :: rest)).1.cpu_smoothed ∧
      in_range (smoother_run metrics_smoother_init (r :: rest)).1.mem_smoothed ∧
      in_range (smoother_run metrics_smoother_init (r :: rest)).1.io_smoothed) ∧
    (∀ o ∈ (smoother_run metrics_smoother_init (r :: rest)).2,
      in_range o.cpu ∧ in_range o.mem ∧ in_range o.io ∧
      0 ≤ calculate_load_score o.cpu o.mem o.io) ∧
    (smoother_run metrics_smoother_init (r :: rest)).2.head? =
      some { cpu := normalize r.cpu_raw MAX_CPU_PERCENT,
             mem := normalize r.mem_raw_mb MAX_MEM_MB,
             io := normalize r.io_raw MAX_IO_RATE } := by
  obtain ⟨h1, h2⟩ := smoother_run_in_range (r :: rest) init_in_range
  refine ⟨h1, ?_, ?_⟩
  · intro o ho
    have := h2 o ho
    exact ⟨this.1, this.2.1, this.2.2, load_score_nonneg this⟩
  · simp [smoother_run, metrics_smoother_update, apply_ema, metrics_smoother_init]

/-! ### Telemetry as the workers report it -/

theorem load_score_le {o : smoothed_out}
    (h : in_range o.cpu ∧ in_range o.mem ∧ in_range o.io) :
    calculate_load_score o.cpu o.mem o.io ≤ 100 := by
  unfold calculate_load_score ALPHA BETA GAMMA
  have := h.1.2
  have := h.2.1.2
  have := h.2.2.2
  linarith

/-- The score of a datagram a worker sends lies in `[0, 100]`. -/
theorem reported_score {m : worker_metrics_t} (h : reported m) :
    0 ≤ m.score ∧ m.score ≤ 100 := by
  obtain ⟨pid, g, history, r, now, hg, hm⟩ := h
  have hs := (smoother_run_in_range history init_in_range).1
  rw [← hg] at hs
  have ho := (update_in_range hs r).2.1
  rw [hm]
  exact ⟨load_score_nonneg ho, load_score_le ho⟩

/-- What the collector's array holds: every score lies in `[0, 100]`, and a slot
with a timestamp above zero holds a datagram of the worker of that index. -/
theorem telemetry_slots {slots : Slots} (h : telemetry slots) (i : Nat) :
    (0 ≤ (slots i).score ∧ (slots i).score ≤ 100) ∧
    ((slots i).timestamp > 0 → (slots i).worker_id = (i : Int)) := by
  induction h with
  | start => exact ⟨⟨le_refl _, by norm_num [idle_slots]⟩, fun ht => (Nat.lt_irrefl 0 ht).elim⟩
  | received s m _ hm ih =>
    unfold update_worker_metrics
    by_cases hid : m.worker_id < 0 ∨ m.worker_id ≥ 30
    · rw [if_pos hid]; exact ih
    · rw [if_neg hid]
      by_cases hi : i = m.worker_id.toNat
      · subst hi
        rw [Function.update_same]
        refine ⟨reported_score hm, fun _ => ?_⟩
        omega
      · rw [Function.update_noteq hi]
        exact ih

/-- On the array as the collector fills it, a call takes the round-robin
branch exactly when no slot below `N` has a timestamp above zero. -/
theorem telemetry_fallback_iff {slots : Slots} (h : telemetry slots) (N : Nat) :
    fallback_call N slots ↔ ∀ i < N, (slots i).timestamp = 0 := by
  unfold fallback_call
  constructor
  · intro hf i hi
    by_contra hne
    have hpos : (slots i).timestamp > 0 := Nat.pos_of_ne_zero hne
    have := hf i hi hpos
    have := (telemetry_slots h i).1.2
    linarith
  · intro hz i hi hpos
    rw [hz i hi] at hpos
    exact absurd hpos (by decide)

theorem reported_slots_telemetry : telemetry reported_slots :=
  telemetry.received _ _
    (telemetry.received _ _
      (telemetry.received _ _ telemetry.start
        ⟨4003, fresh_worker 3, [], full_load, 1000, rfl, rfl⟩)
      ⟨4002, fresh_worker 2, [], half_load, 1001, rfl, rfl⟩)
    ⟨4001, fresh_worker 1, [], half_load, 1002, rfl, rfl⟩

/-- The four slots of `reported_slots`: timestamps and scores. -/
theorem reported_slots_values :
    ((reported_slots 0).timestamp = 0 ∧ (reported_slots 0).score = 0) ∧
    ((reported_slots 1).timestamp = 1002 ∧ (reported_slots 1).score = 50) ∧
    ((reported_slots 2).timestamp = 1001 ∧ (reported_slots 2).score = 50) ∧
    ((reported_slots 3).timestamp = 1000 ∧ (reported_slots 3).score = 100) := by
  have e1 : (send_metrics 4001 (fresh_worker 1) half_load 1002).2.worker_id = 1 := rfl
  have e2 : (send_metrics 4002 (fresh_worker 2) half_load 1001).2.worker_id = 2 := rfl
  have e3 : (send_metrics 4003 (fresh_worker 3) full_load 1000).2.worker_id = 3 := rfl
  have s1 : (send_metrics 4001 (fresh_worker 1) half_load 1002).2.score = 50 := by
    norm_num [send_metrics, fresh_worker, half_load, metrics_smoother_update,
      metrics_smoother_init, apply_ema, normalize, calculate_load_score, ALPHA, BETA, GAMMA,
      MAX_CPU_PERCENT, MAX_MEM_MB, MAX_IO_RATE]
  have s2 : (send_metrics 4002 (fresh_worker 2) half_load 1001).2.score = 50 := by
    norm_num [send_metrics, fresh_worker, half_load, metrics_smoother_update,
      metrics_smoother_init, apply_ema, normalize, calculate_load_score, ALPHA, BETA, GAMMA,
      MAX_CPU_PERCENT, MAX_MEM_MB, MAX_IO_RATE]
  have s3 : (send_metrics 4003 (fresh_worker 3) full_load 1000).2.score = 100 := by
    norm_num [send_metrics, fresh_worker, full_load, metrics_smoother_update,
      metrics_smoother_init, apply_ema, normalize, calculate_load_score, ALPHA, BETA, GAMMA,
      MAX_CPU_PERCENT, MAX_MEM_MB, MAX_IO_RATE]
  have t1 : (send_metrics 4001 (fresh_worker 1) half_load 1002).2.timestamp = 1002 := rfl
  have t2 : (send_metrics 4002 (fresh_worker 2) half_load 1001).2.timestamp = 1001 := rfl
  have t3 : (send_metrics 4003 (fresh_worker 3) full_load 1000).2.timestamp = 1000 := rfl
  have n1 : Int.toNat 1 = 1 := rfl
  have n2 : Int.toNat 2 = 2 := rfl
  have n3 : Int.toNat 3 = 3 := rfl
  unfold reported_slots update_worker_metrics
  simp only [e1, e2, e3]
  norm_num [Function.update, s1, s2, s3, t1, t2, t3, n1, n2, n3, idle_slots]

/-- C5: on the array as the collector fills it from the workers' datagrams,
whenever some slot below `N` has a timestamp above zero, `select_worker`
returns the index `j` of a slot with timestamp above zero, holding a datagram
of worker `j`, whose score is minimal among all slots with timestamp above
zero, and `j` is the smallest index among the slots of that score. -/
theorem select_worker_min_score (N : Nat) (hN : N ≤ 30) (slots : Slots) (counter : Int)
    (ht : telemetry slots) (h : ∃ i < N, (slots i).timestamp > 0) :
    ∃ j < N, (select_worker N slots counter).1 = (j : Int) ∧ (slots j).timestamp > 0 ∧
      (slots j).worker_id = (j : Int) ∧
      (∀ i < N, (slots i).timestamp > 0 → (slots j).score ≤ (slots i).score) ∧
      (∀ i < N, (slots i).timestamp > 0 → (slots i).score = (slots j).score → j ≤ i) := by
  obtain ⟨i0, hi0, hts0⟩ := h
  have hc : ∃ i < N, (slots i).timestamp > 0 ∧ (slots i).score < 1000000 :=
    ⟨i0, hi0, hts0, by linarith [(telemetry_slots ht i0).1.2]⟩
  obtain ⟨j, hj, heq, hts, hmin, hfirst⟩ := select_worker_found hN hc counter
  refine ⟨j, hj, by rw [heq], hts, (telemetry_slots ht j).2 hts, hmin, ?_⟩
  intro i _ hti he
  by_contra hcon
  have := hfirst i (Nat.lt_of_not_le hcon) hti
  rw [he] at this
  exact lt_irrefl _ this

/-- Witness for C5: after the first datagrams of workers 3 (score 100), 2 and
1 (score 50 each), worker 0 silent, the call returns worker 1: the slot of
worker 0, whose score field is 0, is not eligible, and of the two slots with the
least score the one of smaller index is taken. -/
theorem select_worker_min_score_witness :
    NUM_WORKERS ≤ 30 ∧ telemetry reported_slots ∧
    (∃ i < NUM_WORKERS, (reported_slots i).timestamp > 0) ∧
    (∃ j < NUM_WORKERS, (select_worker NUM_WORKERS reported_slots 0).1 = (j : Int) ∧
      (reported_slots j).timestamp > 0 ∧ (reported_slots j).worker_id = (j : Int) ∧
      (∀ i < NUM_WORKERS, (reported_slots i).timestamp > 0 →
        (reported_slots j).score ≤ (reported_slots i).score) ∧
      (∀ i < NUM_WORKERS, (reported_slots i).timestamp > 0 →
        (reported_slots i).score = (reported_slots j).score → j ≤ i)) ∧
    (select_worker NUM_WORKERS reported_slots 0).1 = 1 := by
  obtain ⟨v0, v1, v2, v3⟩ := reported_slots_values
  have hex : ∃ i < NUM_WORKERS, (reported_slots i).timestamp > 0 :=
    ⟨1, by decide, by rw [v1.1]; decide⟩
  have key := select_worker_min_score NUM_WORKERS (by decide) reported_slots 0
    reported_slots_telemetry hex
  refine ⟨by decide, reported_slots_telemetry, hex, key, ?_⟩
  obtain ⟨j, hj, heq, hts, _, hmin, hfirst⟩ := key
  have hj4 : j < 4 := hj
  have h1 := hmin 1 (by decide) (by rw [v1.1]; decide)
  rw [heq]
  interval_cases j
  · rw [v0.1] at hts; exact absurd hts (by decide)
  · rfl
  · have := hfirst 1 (by decide) (by rw [v1.1]; decide) (by rw [v1.2, v2.2])
    omega
  · rw [v3.2, v1.2] at h1
    norm_num at h1

/-- C6: the fallback counter is a C `int`, and its increment wraps. From a
fresh process whose collector has received nothing, the call number 2147483647
(counted from 0) leaves the counter at -2147483648 instead of 2147483648,
and the call number 2147483649 returns -3, where round-robin order asks for
`2147483649 mod 4 = 1`. -/
theorem select_worker_round_robin_wraps :
    telemetry idle_slots ∧
    (∀ i < NUM_WORKERS, (idle_slots i).timestamp = 0) ∧
    (select_worker NUM_WORKERS idle_slots
      (select_calls NUM_WORKERS (List.replicate 2147483647 idle_slots) 0).2).2
        = -2147483648 ∧
    (select_worker NUM_WORKERS idle_slots
      (select_calls NUM_WORKERS (List.replicate 2147483649 idle_slots) 0).2).1 = -3 ∧
    ((2147483649 % NUM_WORKERS : Nat) : Int) = 1 := by
  have hall : ∀ n, ∀ s ∈ List.replicate n idle_slots,
      ∀ i < NUM_WORKERS, (s i).timestamp > 0 → 1000000 ≤ (s i).score := by
    intro n s hs
    rw [List.eq_of_mem_replicate hs]
    exact idle_slots_no_candidate _
  refine ⟨telemetry.start, fun _ _ => rfl, ?_, ?_, by decide⟩
  · rw [select_calls_fallback_counter (by decide) _ (hall _) 0 (by decide),
      List.length_replicate, select_worker_fallback (by decide) (idle_slots_no_candidate _)]
    decide
  · rw [select_calls_fallback_counter (by decide) _ (hall _) 0 (by decide),
      List.length_replicate, select_worker_fallback (by decide) (idle_slots_no_candidate _)]
    decide

/-! ## Descriptor validation -/

theorem strstr_none_iff_absent (w : CStr) (d : CStr) :
    strstr d w = none ↔ ¬ (w <:+: d) := by
  induction d with
  | nil =>
    unfold strstr
    by_cases hw : w = []
    · simp [hw]
    · simp [hw]
  | cons c rest ih =>
    unfold strstr
    by_cases hp : w.isPrefixOf (c :: rest) = true
    · simp only [hp, if_true, reduceCtorEq, false_iff, not_not]
      exact (List.isPrefixOf_iff_prefix.1 hp).isInfix
    · simp only [hp, Bool.false_eq_true, if_false]
      rw [ih]
      have hp2 : ¬ (w <+: c :: rest) := fun h => hp (List.isPrefixOf_iff_prefix.2 h)
      constructor
      · intro hn hi
        rw [List.infix_cons_iff] at hi
        rcases hi with h | h
        · exact hp2 h
        · exact hn h
      · intro hn hi
        exact hn (List.infix_cons hi)

theorem has_key_occurs (d key : CStr) (h : has_key d key = true) : quoted key <:+: d := by
  unfold has_key at h
  rw [List.any_eq_true] at h
  obtain ⟨i, _, hi⟩ := h
  rw [Bool.and_eq_true] at hi
  have hp := List.isPrefixOf_iff_prefix.1 hi.1
  exact hp.isInfix.trans (List.drop_suffix i d).isInfix

/-- C10, as stated, fails, in three ways. The empty descriptor and the
descriptor `[]` have no key `runtime`, and the messages of their rejection do
not mention runtime. The descriptor `{"name":"runtime","x":"c"}` has no key
`runtime` either, the quoted word being a value, and it is accepted: the search
for the key is a search for the quoted word, and the value read is the string
after the next colon. -/
theorem validate_descriptor_empty_message :
    (has_key [] "runtime".toList = false ∧
      validate_descriptor [] VALIDATION_ERROR_SIZE = .error "Descriptor is empty".toList ∧
      mentions "Descriptor is empty".toList "runtime".toList = false) ∧
    (has_key "[]".toList "runtime".toList = false ∧
      validate_descriptor "[]".toList VALIDATION_ERROR_SIZE =
        .error "Descriptor must be a JSON object starting with '\x7b'".toList ∧
      mentions "Descriptor must be a JSON object starting with '\x7b'".toList
        "runtime".toList = false) ∧
    (has_key "\x7b\"name\":\"runtime\",\"x\":\"c\"\x7d".toList "runtime".toList = false ∧
      validate_descriptor "\x7b\"name\":\"runtime\",\"x\":\"c\"\x7d".toList
        VALIDATION_ERROR_SIZE = .ok () ∧
      staged_runtime "\x7b\"name\":\"runtime\",\"x\":\"c\"\x7d".toList = "c".toList) := by
  refine ⟨⟨by decide, rfl, by decide⟩, ⟨by decide, rfl, by decide⟩, ⟨by decide, ?_, ?_⟩⟩
  · rfl
  · decide

/-- C10, amended: every descriptor that begins with an opening brace and does
not contain the quoted word `"runtime"` anywhere (so that it has no key
`runtime`) is rejected with the message `Missing required field: 'runtime'`,
which mentions runtime. -/
theorem validate_descriptor_missing_runtime (d : CStr) (h0 : d.head? = some '\x7b')
    (h : ¬ (quoted "runtime".toList <:+: d)) :
    has_key d "runtime".toList = false ∧
    validate_descriptor d VALIDATION_ERROR_SIZE =
      .error "Missing required field: 'runtime'".toList ∧
    mentions "Missing required field: 'runtime'".toList "runtime".toList = true := by
  have hs : strstr d "\"runtime\"".toList = none :=
    (strstr_none_iff_absent _ d).2 h
  refine ⟨?_, ?_, by decide⟩
  · cases hk : has_key d "runtime".toList with
    | false => rfl
    | true => exact absurd (has_key_occurs d _ hk) h
  · cases d with
    | nil => simp at h0
    | cons c rest =>
      simp only [List.head?_cons, Option.some.injEq] at h0
      subst h0
      unfold validate_descriptor
      rw [hs]
      simp only [deref, List.headD_cons, ne_eq, not_true_eq_false, if_false,
        Option.isNone_none, if_true]
      simp
      rfl

/-- Witness for C10 amended: the descriptor `{"memory":"big"}`, whose
non-numeric memory is not what the rejection reports. -/
theorem validate_descriptor_missing_runtime_witness :
    "\x7b\"memory\":\"big\"\x7d".toList.head? = some '\x7b' ∧
    ¬ (quoted "runtime".toList <:+: "\x7b\"memory\":\"big\"\x7d".toList) ∧
    (has_key "\x7b\"memory\":\"big\"\x7d".toList "runtime".toList = false ∧
     validate_descriptor "\x7b\"memory\":\"big\"\x7d".toList VALIDATION_ERROR_SIZE =
      .error "Missing required field: 'runtime'".toList ∧
     mentions "Missing required field: 'runtime'".toList "runtime".toList = true) :=
  ⟨rfl, (strstr_none_iff_absent _ _).1 (by decide),
   validate_descriptor_missing_runtime "\x7b\"memory\":\"big\"\x7d".toList rfl
     ((strstr_none_iff_absent _ _).1 (by decide))⟩

/-! ## Validator and extractor -/

theorem strchr_length_le (c : Char) (s : CStr) {rest : CStr} (h : strchr s c = some rest) :
    rest.length ≤ s.length := by
  induction s with
  | nil => simp [strchr] at h
  | cons x t ih =>
    by_cases hx : x = c
    · simp only [strchr, hx, if_true, Option.some.injEq] at h
      subst h; simp
    · simp only [strchr, hx, if_false] at h
      have := ih h
      simp only [List.length_cons]
      omega

theorem strchr_take_eq_takeWhile (s : CStr) (c : Char) {rest : CStr}
    (h : strchr s c = some rest) :
    s.take (s.length - rest.length) = s.takeWhile (fun x => x ≠ c) := by
  induction s with
  | nil => simp [strchr] at h
  | cons x t ih =>
    by_cases hx : x = c
    · simp only [strchr, hx, if_true, Option.some.injEq] at h
      subst h
      simp [hx]
    · simp only [strchr, hx, if_false] at h
      have hlen := strchr_length_le c t h
      have e : (x :: t).length - rest.length = (t.length - rest.length) + 1 := by
        simp only [List.length_cons]; omega
      rw [e, List.take_succ_cons, ih h]
      simp [hx]

theorem dropWhile_wider (P Q : Char → Bool) (hPQ : ∀ c, P c = true → Q c = true)
    (s : CStr) (c : Char) (hc : Q c = false)
    (h : (s.dropWhile P).head? = some c) :
    s.dropWhile Q = s.dropWhile P := by
  induction s with
  | nil => simp at h
  | cons x t ih =>
    by_cases hx : P x = true
    · have hq := hPQ x hx
      simp only [List.dropWhile_cons, hx, hq, if_true] at h ⊢
      exact ih h
    · have hx' : P x = false := by simpa using hx
      simp only [List.dropWhile_cons, hx', Bool.false_eq_true, if_false, List.head?_cons,
        Option.some.injEq] at h
      subst h
      simp [List.dropWhile_cons, hx', hc]

theorem deref_eq_iff_head (p : CStr) (c : Char) (hc : c ≠ NUL) :
    deref p = c ↔ p.head? = some c := by
  cases p with
  | nil =>
    simp only [deref, List.headD_nil, List.head?_nil]
    constructor
    · intro h; exact absurd h.symm hc
    · intro h; cases h
  | cons x t => simp [deref]

theorem type_found_iff (r : CStr) : type_found r = true ↔ r ∈ supported_types := by
  unfold type_found
  rw [List.any_eq_true]
  constructor
  · rintro ⟨t, ht, hd⟩
    have : r = t := of_decide_eq_true hd
    rw [this]; exact ht
  · intro h
    exact ⟨r, h, decide_eq_true rfl⟩

theorem code_extension_supported {r : CStr} (h : r ∈ supported_types) :
    code_extension r ≠ ".txt".toList := by
  simp only [supported_types, List.mem_cons, List.mem_singleton, List.not_mem_nil, or_false] at h
  rcases h with h | h | h | h | h | h | h | h | h <;> subst h <;> decide


/-- C11: every descriptor that `validate_descriptor` accepts begins with an
opening brace, and the runtime that `extract_json_field` then reads from it is
one of the supported runtimes, so the staged code file never gets the `.txt`
extension. -/
theorem validated_runtime_is_supported (d : CStr) (size : Nat)
    (h : validate_descriptor d size = .ok ()) :
    d.head? = some '\x7b' ∧
    (∃ r, extract_json_field d "\"runtime\"".toList = some r ∧ r ∈ supported_types) ∧
    code_extension (staged_runtime d) ≠ ".txt".toList := by
  unfold validate_descriptor at h
  split at h
  · cases h
  split at h
  · cases h
  rename_i hbrace
  split at h
  · cases h
  split at h
  · cases h
  rename_i runtime_pos hpos
  split at h
  · cases h
  rename_i colon hcolon
  simp only at h
  split at h
  · cases h
  rename_i hquote
  split at h
  · cases h
  rename_i value_end hend
  split at h
  · cases h
  split at h
  · cases h
  rename_i hfound
  have hb : d.head? = some '\x7b' := by
    rw [← deref_eq_iff_head d '\x7b' (by decide)]
    exact not_not.1 hbrace
  have hq : ((colon.drop 1).dropWhile (fun c => decide (c = ' ' ∨ c = '\t' ∨ c = '\n'))).head?
      = some '"' := by
    rw [← deref_eq_iff_head _ '"' (by decide)]
    exact not_not.1 hquote
  have hw := dropWhile_wider (fun c => decide (c = ' ' ∨ c = '\t' ∨ c = '\n'))
    (fun c => decide (c = ' ' ∨ c = '\t' ∨ c = '\n' ∨ c = '\r'))
    (by
      intro c hc
      simp only [decide_eq_true_eq] at hc ⊢
      rcases hc with h1 | h1 | h1
      · exact Or.inl h1
      · exact Or.inr (Or.inl h1)
      · exact Or.inr (Or.inr (Or.inl h1)))
    (colon.drop 1) '"' (by decide) hq
  have hval := strchr_take_eq_takeWhile _ '"' hend
  have hext : extract_json_field d "\"runtime\"".toList =
      some ((((colon.drop 1).dropWhile
        (fun c => decide (c = ' ' ∨ c = '\t' ∨ c = '\n'))).drop 1).takeWhile
          (fun c => c ≠ '"')) := by
    unfold extract_json_field
    simp only [hpos, hcolon, hw]
    rw [(deref_eq_iff_head _ '"' (by decide)).2 hq]
    simp
  have hmem : (((colon.drop 1).dropWhile
        (fun c => decide (c = ' ' ∨ c = '\t' ∨ c = '\n'))).drop 1).takeWhile
          (fun c => c ≠ '"') ∈ supported_types := by
    rw [← hval, ← type_found_iff]
    simpa using hfound
  refine ⟨hb, ⟨_, hext, hmem⟩, ?_⟩
  unfold staged_runtime
  rw [hext]
  exact code_extension_supported hmem

/-- Witness for C11: the descriptor `{"runtime":"wasm"}`. -/
theorem validated_runtime_is_supported_witness :
    validate_descriptor "\x7b\"runtime\":\"wasm\"\x7d".toList VALIDATION_ERROR_SIZE = .ok () ∧
    ("\x7b\"runtime\":\"wasm\"\x7d".toList.head? = some '\x7b' ∧
     (∃ r, extract_json_field "\x7b\"runtime\":\"wasm\"\x7d".toList "\"runtime\"".toList
        = some r ∧ r ∈ supported_types) ∧
     code_extension (staged_runtime "\x7b\"runtime\":\"wasm\"\x7d".toList) ≠ ".txt".toList) :=
  ⟨rfl, validated_runtime_is_supported "\x7b\"runtime\":\"wasm\"\x7d".toList
    VALIDATION_ERROR_SIZE rfl⟩

theorem validate_optional_of_ok {d : CStr} {size : Nat}
    (h : validate_descriptor d size = .ok ()) : validate_optional d size = .ok () := by
  unfold validate_descriptor at h
  split at h
  · cases h
  split at h
  · cases h
  split at h
  · cases h
  split at h
  · cases h
  split at h
  · cases h
  simp only at h
  split at h
  · cases h
  split at h
  · cases h
  split at h
  · cases h
  split at h
  · cases h
  exact h

/-- Where the text `"memory":` or `"timeout":` does occur and the first
character after it and any spaces is not a decimal digit, the descriptor is
rejected. -/
theorem validate_rejects_non_numeric (d : CStr) (size : Nat) :
    (∀ pos, strstr d "\"memory\":".toList = some pos → not_a_number pos 9 = true →
      validate_descriptor d size ≠ .ok ()) ∧
    (∀ pos, strstr d "\"timeout\":".toList = some pos → not_a_number pos 10 = true →
      validate_descriptor d size ≠ .ok ()) := by
  constructor
  · intro pos hpos hbad hok
    have h := validate_optional_of_ok hok
    unfold validate_optional at h
    simp only [hpos, hbad, if_true] at h
    cases h
  · intro pos hpos hbad hok
    have h := validate_optional_of_ok hok
    unfold validate_optional at h
    simp only [hpos, hbad, if_true] at h
    split at h <;> cases h

/-- C12: the descriptor `{"runtime":"c","memory" : "big"}` has a `memory` key
whose value, as the extractor reads it, is `big`; `validate_descriptor`
accepts it, and likewise with `timeout` in the place of `memory`. -/
theorem validate_accepts_spaced_memory :
    validate_descriptor "\x7b\"runtime\":\"c\",\"memory\" : \"big\"\x7d".toList
      VALIDATION_ERROR_SIZE = .ok () ∧
    extract_json_field "\x7b\"runtime\":\"c\",\"memory\" : \"big\"\x7d".toList
      "\"memory\"".toList = some "big".toList ∧
    validate_descriptor "\x7b\"runtime\":\"c\",\"timeout\" : \"soon\"\x7d".toList
      VALIDATION_ERROR_SIZE = .ok () ∧
    extract_json_field "\x7b\"runtime\":\"c\",\"timeout\" : \"soon\"\x7d".toList
      "\"timeout\"".toList = some "soon".toList :=
  ⟨rfl, rfl, rfl, rfl⟩

/-- C13: the descriptor `{"runtime":"wasm","method":"GETX"}` is accepted by
`validate_descriptor`; the method the extractor reads from it is `GETX`, which
is none of the five supported methods, and the route key built for the id
`f` is `GETX:/api/f`. The descriptor `{"runtime":"wasm","method": "HEAD"}`,
with a blank after the colon, is accepted too, its method being `HEAD`. -/
theorem validate_accepts_method_prefix :
    validate_descriptor "\x7b\"runtime\":\"wasm\",\"method\":\"GETX\"\x7d".toList
      VALIDATION_ERROR_SIZE = .ok () ∧
    extract_json_field "\x7b\"runtime\":\"wasm\",\"method\":\"GETX\"\x7d".toList
      "\"method\"".toList = some "GETX".toList ∧
    "GETX".toList ∉ supported_methods ∧
    route_key "\x7b\"runtime\":\"wasm\",\"method\":\"GETX\"\x7d".toList "f".toList
      = "GETX:/api/f".toList ∧
    validate_descriptor "\x7b\"runtime\":\"wasm\",\"method\": \"HEAD\"\x7d".toList
      VALIDATION_ERROR_SIZE = .ok () ∧
    extract_json_field "\x7b\"runtime\":\"wasm\",\"method\": \"HEAD\"\x7d".toList
      "\"method\"".toList = some "HEAD".toList ∧
    "HEAD".toList ∉ supported_methods := by
  refine ⟨rfl, rfl, by decide, rfl, rfl, rfl, by decide⟩

/-! ## Multipart upload -/

set_option maxRecDepth 100000 in
/-- C14: in the well-formed upload whose `code` part has empty content, the
bytes between that part's header terminator and the next boundary marker are
`\r\n`; the part `parse_multipart_upload` returns for it has these two bytes
as data, not the empty content. -/
theorem parse_multipart_keeps_crlf_of_empty_part :
    parse_multipart_upload
      (render_upload "B".toList "f.c".toList [] "d.json".toList
        "\x7b\"runtime\":\"c\"\x7d".toList) "B".toList =
    some [{ name := "code".toList, filename := "f.c".toList, data := "\r\n".toList },
          { name := "descriptor".toList, filename := "d.json".toList,
            data := "\x7b\"runtime\":\"c\"\x7d".toList }] := by
  rfl

set_option maxRecDepth 100000 in
/-- C15: the well-formed upload of a WebAssembly binary (its data begins with
the byte 0 and does not contain the boundary) and a descriptor parses to no
part at all: the call returns 0 with `file_count = 0`. -/
theorem parse_multipart_drops_wasm_upload :
    strstr wasm_header "--B".toList = none ∧
    parse_multipart_upload
      (render_upload "B".toList "m.wasm".toList wasm_header "d.json".toList
        "\x7b\"runtime\":\"wasm\"\x7d".toList) "B".toList = some [] := by
  refine ⟨rfl, rfl⟩

theorem select_parts_concat (l : List uploaded_file_t) (f : uploaded_file_t) :
    select_parts (l ++ [f]) =
      if f.name = "code".toList then (some f, (select_parts l).2)
      else if f.name = "descriptor".toList then ((select_parts l).1, some f)
      else select_parts l := by
  unfold select_parts
  rw [List.foldl_append]
  rfl

theorem select_parts_code (files : List uploaded_file_t) :
    ((select_parts files).1 = none ↔ ∀ f ∈ files, f.name ≠ "code".toList) ∧
    (∀ c, (select_parts files).1 = some c → last_named files "code".toList c) := by
  induction files using List.reverseRecOn with
  | nil => simp [select_parts]
  | append_singleton l f ih =>
    rw [select_parts_concat]
    by_cases hc : f.name = "code".toList
    · simp only [hc, if_true]
      constructor
      · constructor
        · intro h; cases h
        · intro h
          exact absurd hc (h f (by simp))
      · intro c hcs
        simp only [Option.some.injEq] at hcs
        subst hcs
        exact ⟨l, [], rfl, hc, by simp⟩
    · have hstep : (if f.name = "code".toList then (some f, (select_parts l).2)
          else if f.name = "descriptor".toList then ((select_parts l).1, some f)
          else select_parts l).1 = (select_parts l).1 := by
        simp only [hc, if_false]
        split <;> rfl
      rw [hstep]
      constructor
      · rw [ih.1]
        constructor
        · intro h g hg
          rcases List.mem_append.1 hg with h1 | h1
          · exact h g h1
          · simp only [List.mem_singleton] at h1
            rw [h1]; exact hc
        · intro h g hg
          exact h g (List.mem_append_left _ hg)
      · intro c hcs
        obtain ⟨front, back, hl, hn, hb⟩ := ih.2 c hcs
        refine ⟨front, back ++ [f], by rw [hl]; simp, hn, ?_⟩
        intro g hg
        rcases List.mem_append.1 hg with h1 | h1
        · exact hb g h1
        · simp only [List.mem_singleton] at h1
          rw [h1]; exact hc

theorem select_parts_descriptor (files : List uploaded_file_t) :
    ((select_parts files).2 = none ↔ ∀ f ∈ files, f.name ≠ "descriptor".toList) ∧
    (∀ d, (select_parts files).2 = some d → last_named files "descriptor".toList d) := by
  induction files using List.reverseRecOn with
  | nil => simp [select_parts]
  | append_singleton l f ih =>
    rw [select_parts_concat]
    by_cases hc : f.name = "code".toList
    · have hd : f.name ≠ "descriptor".toList := by
        rw [hc]; decide
      simp only [hc, if_true]
      constructor
      · rw [ih.1]
        constructor
        · intro h g hg
          rcases List.mem_append.1 hg with h1 | h1
          · exact h g h1
          · simp only [List.mem_singleton] at h1
            rw [h1, hc]; decide
        · intro h g hg
          exact h g (List.mem_append_left _ hg)
      · intro d hds
        obtain ⟨front, back, hl, hn, hb⟩ := ih.2 d hds
        refine ⟨front, back ++ [f], by rw [hl]; simp, hn, ?_⟩
        intro g hg
        rcases List.mem_append.1 hg with h1 | h1
        · exact hb g h1
        · simp only [List.mem_singleton] at h1
          rw [h1]; exact hd
    · by_cases hd : f.name = "descriptor".toList
      · simp only [hc, if_false, hd, if_true]
        constructor
        · constructor
          · intro h; cases h
          · intro h
            exact absurd hd (h f (by simp))
        · intro d hds
          have hfd : f = d := by simpa using hds
          subst hfd
          exact ⟨l, [], rfl, hd, by simp⟩
      · simp only [hc, if_false, hd]
        constructor
        · rw [ih.1]
          constructor
          · intro h g hg
            rcases List.mem_append.1 hg with h1 | h1
            · exact h g h1
            · simp only [List.mem_singleton] at h1
              rw [h1]; exact hd
          · intro h g hg
            exact h g (List.mem_append_left _ hg)
        · intro d hds
          obtain ⟨front, back, hl, hn, hb⟩ := ih.2 d hds
          refine ⟨front, back ++ [f], by rw [hl]; simp, hn, ?_⟩
          intro g hg
          rcases List.mem_append.1 hg with h1 | h1
          · exact hb g h1
          · simp only [List.mem_singleton] at h1
            rw [h1]; exact hd

/-- C16, as stated, fails: an upload with three recognized parts, two named
`code` and one named `descriptor`, is not answered with the error; validation
proceeds with the second `code` part and the descriptor. -/
theorem require_parts_accepts_three :
    three_parts.countP recognized = 3 ∧
    require_parts three_parts =
      .ok ({ name := "code".toList, filename := "b.c".toList, data := "B".toList },
           { name := "descriptor".toList, filename := "d.json".toList, data := "D".toList }) := by
  refine ⟨by decide, rfl⟩

/-- C16, amended: the pipeline proceeds to validation exactly when the parsed
upload holds at least one part named `code` and at least one part named
`descriptor`, and then with the last part of each name; in every other case,
in particular with fewer than two recognized parts, it answers with the error
`Missing code or descriptor file`. -/
theorem require_parts_iff (files : List uploaded_file_t) :
    (require_parts files = .error "\x7b\"error\":\"Missing code or descriptor file\"\x7d".toList ↔
      ¬ ((∃ f ∈ files, f.name = "code".toList) ∧ (∃ f ∈ files, f.name = "descriptor".toList))) ∧
    (∀ c d, require_parts files = .ok (c, d) →
      last_named files "code".toList c ∧ last_named files "descriptor".toList d) ∧
    ((∃ f ∈ files, f.name = "code".toList) → (∃ f ∈ files, f.name = "descriptor".toList) →
      ∃ c d, require_parts files = .ok (c, d)) ∧
    (files.countP recognized < 2 → ∃ msg, require_parts files = .error msg) := by
  have hc := select_parts_code files
  have hd := select_parts_descriptor files
  have hshape : require_parts files =
      match (select_parts files).1, (select_parts files).2 with
      | some c, some d => .ok (c, d)
      | _, _ => .error "\x7b\"error\":\"Missing code or descriptor file\"\x7d".toList := by
    unfold require_parts
    rcases select_parts files with ⟨a, b⟩
    cases a <;> cases b <;> rfl
  have hiff : (require_parts files =
        .error "\x7b\"error\":\"Missing code or descriptor file\"\x7d".toList ↔
      ¬ ((∃ f ∈ files, f.name = "code".toList) ∧
         (∃ f ∈ files, f.name = "descriptor".toList))) := by
    rw [hshape]
    cases h1 : (select_parts files).1 with
    | none =>
      have := hc.1.1 h1
      simp only [true_iff, not_and]
      intro ⟨f, hf, hn⟩
      exact absurd hn (this f hf)
    | some c =>
      cases h2 : (select_parts files).2 with
      | none =>
        have := hd.1.1 h2
        simp only [true_iff, not_and]
        intro _ ⟨f, hf, hn⟩
        exact absurd hn (this f hf)
      | some d =>
        obtain ⟨f1, b1, e1, n1, _⟩ := hc.2 c h1
        obtain ⟨f2, b2, e2, n2, _⟩ := hd.2 d h2
        simp only [false_iff, not_not, reduceCtorEq]
        exact ⟨⟨c, by rw [e1]; simp, n1⟩, ⟨d, by rw [e2]; simp, n2⟩⟩
  refine ⟨hiff, ?_, ?_, ?_⟩
  · intro c d h
    rw [hshape] at h
    cases h1 : (select_parts files).1 with
    | none => rw [h1] at h; cases h
    | some c' =>
      cases h2 : (select_parts files).2 with
      | none => rw [h1, h2] at h; cases h
      | some d' =>
        rw [h1, h2] at h
        simp only [Except.ok.injEq, Prod.mk.injEq] at h
        obtain ⟨rfl, rfl⟩ := h
        exact ⟨hc.2 _ h1, hd.2 _ h2⟩
  · intro ⟨f1, hf1, hn1⟩ ⟨f2, hf2, hn2⟩
    rw [hshape]
    cases h1 : (select_parts files).1 with
    | none => exact absurd hn1 (hc.1.1 h1 f1 hf1)
    | some c' =>
      cases h2 : (select_parts files).2 with
      | none => exact absurd hn2 (hd.1.1 h2 f2 hf2)
      | some d' => exact ⟨c', d', rfl⟩
  · intro hcount
    refine ⟨_, hiff.2 ?_⟩
    rintro ⟨⟨f1, hf1, hn1⟩, ⟨f2, hf2, hn2⟩⟩
    have hne : f1 ≠ f2 := by
      intro e
      rw [e, hn2] at hn1
      exact absurd hn1 (by decide)
    have hr1 : recognized f1 = true := by simp [recognized, hn1]
    have hr2 : recognized f2 = true := by simp [recognized, hn2]
    have h2 : 2 ≤ files.countP recognized := by
      have hsub : [f1, f2].Subperm (files.filter recognized) := by
        apply List.subperm_of_subset
        · simp [hne]
        · intro x hx
          simp only [List.mem_cons, List.mem_singleton, List.not_mem_nil, or_false] at hx
          rcases hx with rfl | rfl
          · exact List.mem_filter.2 ⟨hf1, hr1⟩
          · exact List.mem_filter.2 ⟨hf2, hr2⟩
      have := hsub.length_le
      rw [List.countP_eq_length_filter]
      simpa using this
    omega

/-! ## Request parsing -/

theorem recv_length_le (sock : Socket) (len : Nat) : (recv sock len).1.length ≤ len := by
  unfold recv
  cases sock with
  | nil => simp
  | cons chunk rest =>
    by_cases h : chunk.length ≤ len
    · simp [h]
    · simp only [h, if_false, List.length_take]
      omega

theorem scan_s_eq (width : Nat) (input : CStr) :
    scan_s width input =
      if input.dropWhile isspace = [] then none
      else some (((input.dropWhile isspace).takeWhile (fun c => !isspace c)).take width,
        (input.dropWhile isspace).drop
          (((input.dropWhile isspace).takeWhile (fun c => !isspace c)).take width).length) :=
  rfl

theorem scan_s_token_length (width : Nat) (input : CStr) {token rest : CStr}
    (h : scan_s width input = some (token, rest)) : token.length ≤ width := by
  rw [scan_s_eq] at h
  split at h
  · cases h
  · simp only [Option.some.injEq, Prod.mk.injEq] at h
    rw [← h.1, List.length_take]
    exact Nat.min_le_left _ _

theorem sscanf_method_uri_lengths (line : CStr) :
    (sscanf_method_uri line).1.length ≤ 15 ∧ (sscanf_method_uri line).2.length ≤ 511 := by
  unfold sscanf_method_uri
  cases h1 : scan_s 15 line with
  | none => simp
  | some p =>
    obtain ⟨method, rest⟩ := p
    have hm := scan_s_token_length 15 line h1
    simp only
    cases h2 : scan_s 511 (rest.dropWhile isspace) with
    | none => exact ⟨hm, by simp⟩
    | some q =>
      obtain ⟨uri, rest2⟩ := q
      exact ⟨hm, scan_s_token_length 511 _ h2⟩

theorem parse_http_request_none_iff (sock : Socket) :
    (parse_http_request sock).result = none ↔
      (recv sock (BUFFER_SIZE - 1)).1 = [] ∨
      strstr ((recv sock (BUFFER_SIZE - 1)).1.takeWhile (fun c => c ≠ NUL)) "\r\n".toList
        = none := by
  unfold parse_http_request
  simp only
  by_cases h0 : (recv sock (BUFFER_SIZE - 1)).1.length = 0
  · simp only [h0, if_true, true_iff]
    left
    exact List.length_eq_zero.1 h0
  · have hne : (recv sock (BUFFER_SIZE - 1)).1 ≠ [] := fun e => h0 (by rw [e]; rfl)
    simp only [h0, if_false, hne, false_or]
    cases hl : strstr ((recv sock (BUFFER_SIZE - 1)).1.takeWhile (fun c => c ≠ NUL))
        "\r\n".toList with
    | none => simp
    | some line_end =>
      simp only [reduceCtorEq, iff_false]
      split
      · simp
      · split
        · split <;> simp
        · simp

set_option maxRecDepth 100000 in
/-- C17, as stated, fails: the request `GET\r\n`, whose request line has no
URI, is parsed with success (method `GET`, empty URI), and a request with the
19-byte method `ABCDEFGHIJKLMNOPQRS` is parsed with success, the method cut to
its first 15 bytes and the URI `/x` replaced by the method's last four. -/
theorem parse_http_request_accepts_bare_method :
    (parse_http_request ["GET\r\n".toList]).result = some { method := "GET".toList } ∧
    (parse_http_request ["ABCDEFGHIJKLMNOPQRS /x HTTP/1.1\r\n\r\n".toList]).result =
      some { method := "ABCDEFGHIJKLMNO".toList, uri := "PQRS".toList } := by
  refine ⟨rfl, rfl⟩

theorem int32_wrap_lt (x : Int) : int32_wrap x < 2147483648 := by
  unfold int32_wrap
  omega

theorem atoi_lt (s : CStr) : atoi s < 2147483648 := by
  unfold atoi
  exact int32_wrap_lt _

theorem parse_content_length_lt (buffer : CStr) : parse_content_length buffer < 2147483648 := by
  unfold parse_content_length
  cases strcasestr buffer "Content-Length:".toList with
  | none => decide
  | some cl => exact atoi_lt _

theorem strstr_length_le (needle : CStr) (s : CStr) {rest : CStr}
    (h : strstr s needle = some rest) : rest.length ≤ s.length := by
  induction s with
  | nil =>
    simp only [strstr] at h
    split at h
    · simp only [Option.some.injEq] at h; rw [← h]
    · cases h
  | cons x t ih =>
    simp only [strstr] at h
    split at h
    · simp only [Option.some.injEq] at h; rw [← h]
    · have := ih h
      simp only [List.length_cons]
      omega

set_option maxRecDepth 100000 in
/-- C18, as stated, fails: a request that declares `Content-Length: 65537`, one
byte over the cap, and whose first three body bytes arrive with the headers is
parsed with success, with those three bytes as its body. -/
theorem parse_http_request_truncates_long_body :
    (parse_http_request
      ["POST /x HTTP/1.1\r\nContent-Length: 65537\r\n\r\nabc".toList,
       List.replicate 65534 'd']).result =
    some { method := "POST".toList, uri := "/x".toList, body := "abc".toList, body_len := 3 } := by
  rfl

/-- C18, amended: for every request whose first read holds a request line and
declares a `Content-Length` of 65536 or more (as an `int`), `parse_http_request`
returns success after that single read of at most 8191 bytes: the body it
stores is what the first read held after the blank line, nothing more is read
from the socket. -/
theorem parse_http_request_long_body (sock : Socket)
    (h0 : (recv sock (BUFFER_SIZE - 1)).1 ≠ [])
    (hline : strstr ((recv sock (BUFFER_SIZE - 1)).1.takeWhile (fun c => c ≠ NUL))
      "\r\n".toList ≠ none)
    (hlen : 65536 ≤ parse_content_length
      ((recv sock (BUFFER_SIZE - 1)).1.takeWhile (fun c => c ≠ NUL))) :
    ∃ req, (parse_http_request sock).result = some req ∧
      (parse_http_request sock).reads = [BUFFER_SIZE - 1] ∧
      (parse_http_request sock).rest = (recv sock (BUFFER_SIZE - 1)).2 ∧
      req.body_len = req.body.length ∧ req.body_len < BUFFER_SIZE ∧
      (∀ body_start,
        strstr ((recv sock (BUFFER_SIZE - 1)).1.takeWhile (fun c => c ≠ NUL))
          "\r\n\r\n".toList = some body_start →
        req.body = (recv sock (BUFFER_SIZE - 1)).1.drop
          (((recv sock (BUFFER_SIZE - 1)).1.takeWhile (fun c => c ≠ NUL)).length
            - body_start.length + 4)) ∧
      (strstr ((recv sock (BUFFER_SIZE - 1)).1.takeWhile (fun c => c ≠ NUL))
          "\r\n\r\n".toList = none → req.body = []) := by
  have hb := recv_length_le sock (BUFFER_SIZE - 1)
  have hcl := parse_content_length_lt
    ((recv sock (BUFFER_SIZE - 1)).1.takeWhile (fun c => c ≠ NUL))
  generalize hbytes : (recv sock (BUFFER_SIZE - 1)).1 = bytes at *
  generalize hcontent : parse_content_length (bytes.takeWhile (fun c => c ≠ NUL)) = cl at *
  have hblen : bytes.length ≠ 0 := fun e => h0 (List.length_eq_zero.1 e)
  unfold parse_http_request
  simp only [hbytes, hblen, if_false, hcontent]
  cases hl : strstr (bytes.takeWhile (fun c => c ≠ NUL)) "\r\n".toList with
  | none => exact absurd hl hline
  | some line_end =>
    simp only
    cases hbs : strstr (bytes.takeWhile (fun c => c ≠ NUL)) "\r\n\r\n".toList with
    | none =>
      refine ⟨_, rfl, ?_⟩
      simp [BUFFER_SIZE]
    | some body_start =>
      have hpos : cl > 0 := by omega
      simp only [hpos, if_true]
      generalize hoff : (bytes.takeWhile (fun c => c ≠ NUL)).length - body_start.length + 4
        = off
      have har : bytes.length - off ≤ 8191 := by
        simp only [BUFFER_SIZE] at hb
        omega
      have hrem : ((cl - ((bytes.length - off : Nat) : Int)) % 18446744073709551616).toNat
          = (cl - ((bytes.length - off : Nat) : Int)).toNat := by
        congr 1
        apply Int.emod_eq_of_lt <;> omega
      have hcond : ¬ (((cl - ((bytes.length - off : Nat) : Int)) % 18446744073709551616).toNat
            > 0 ∧
          ((bytes.length - off) +
            ((cl - ((bytes.length - off : Nat) : Int)) % 18446744073709551616).toNat)
            % 18446744073709551616 < BODY_SIZE) := by
        rw [hrem]
        simp only [BODY_SIZE]
        omega
      simp only [hcond, if_false]
      have hcopied : (if bytes.length - off > 0 ∧ bytes.length - off < BODY_SIZE
          then bytes.drop off else List.replicate (bytes.length - off) NUL) = bytes.drop off := by
        by_cases hz : bytes.length - off > 0
        · have : bytes.length - off < BODY_SIZE := by simp only [BODY_SIZE]; omega
          simp only [hz, this, and_self, if_true]
        · have hz0 : bytes.length - off = 0 := by omega
          have : bytes.drop off = [] := by
            apply List.drop_eq_nil_of_le
            omega
          simp [hz0, this]
      refine ⟨_, rfl, ?_⟩
      simp only [hcopied, List.length_drop, Option.some.injEq, reduceCtorEq, false_implies,
        and_true, true_and]
      refine ⟨?_, ?_⟩
      · simp only [BUFFER_SIZE]; omega
      · intro bs h
        subst h
        rw [hoff]


set_option maxRecDepth 100000 in
/-- Witness for C18 amended: `Content-Length: 65537` with three body bytes in
the first read and the others still on the socket. -/
theorem parse_http_request_long_body_witness :
    (parse_http_request
      ["POST /x HTTP/1.1\r\nContent-Length: 65537\r\n\r\nabc".toList, "defg".toList]).result
      = some { method := "POST".toList, uri := "/x".toList, body := "abc".toList,
               body_len := 3 } ∧
    ∃ req, (parse_http_request
        ["POST /x HTTP/1.1\r\nContent-Length: 65537\r\n\r\nabc".toList,
         "defg".toList]).result = some req ∧
      (parse_http_request
        ["POST /x HTTP/1.1\r\nContent-Length: 65537\r\n\r\nabc".toList,
         "defg".toList]).reads = [BUFFER_SIZE - 1] ∧
      (parse_http_request
        ["POST /x HTTP/1.1\r\nContent-Length: 65537\r\n\r\nabc".toList,
         "defg".toList]).rest = ["defg".toList] ∧
      req.body_len = req.body.length ∧ req.body_len < BUFFER_SIZE := by
  obtain ⟨req, h1, h2, h3, h4, h5, _⟩ := parse_http_request_long_body
    ["POST /x HTTP/1.1\r\nContent-Length: 65537\r\n\r\nabc".toList, "defg".toList]
    (by decide) (by decide) (by decide)
  exact ⟨rfl, req, h1, h2, h3, h4, h5⟩

/-! ## Store syncer -/

theorem refresh_step_ge (st : kv × Int) (row : sql_row) : st.2 ≤ (refresh_step st row).2 := by
  unfold refresh_step
  simp only
  split <;> omega

theorem refresh_foldl_ge (rows : List sql_row) (st : kv × Int) :
    st.2 ≤ (rows.foldl refresh_step st).2 := by
  induction rows generalizing st with
  | nil => exact le_refl _
  | cons r rest ih =>
    rw [List.foldl_cons]
    exact le_trans (refresh_step_ge st r) (ih _)

theorem load_step_ge (st : kv × Int) (row : sql_row) : st.2 ≤ (load_step st row).2 := by
  unfold load_step
  split
  · simp only
    split <;> omega
  · exact le_refl _

theorem load_foldl_ge (rows : List sql_row) (st : kv × Int) :
    st.2 ≤ (rows.foldl load_step st).2 := by
  induction rows generalizing st with
  | nil => exact le_refl _
  | cons r rest ih =>
    rw [List.foldl_cons]
    exact le_trans (load_step_ge st r) (ih _)

theorem sync_cycle_ge (st : kv × Int) (q : query_result) : st.2 ≤ (sync_cycle st q).2 := by
  unfold sync_cycle
  simp only
  split <;> omega

theorem sync_cycle_failed (st : kv × Int) : sync_cycle st none = st := by
  unfold sync_cycle kv_refresh_from_sqlite_since
  simp

theorem sync_states_chain (polls : List query_result) (st : kv × Int) :
    List.Chain (fun a b => a ≤ b) st.2 ((sync_states st polls).map Prod.snd) := by
  induction polls generalizing st with
  | nil => exact List.Chain.nil
  | cons q rest ih =>
    simp only [sync_states, List.map_cons]
    exact List.Chain.cons (sync_cycle_ge st q) (ih _)

/-- C20: the values of the high-water mark `last_sync`, from its allocation
through the initial load and every poll cycle, never decrease, whatever rows
the queries return; a cycle whose store open or query fails leaves it (and the
route store) unchanged. -/
theorem last_sync_monotone (m : kv) (initial : query_result) (polls : List query_result) :
    List.Chain' (fun a b => a ≤ b) (last_sync_history m initial polls) ∧
    (∀ st : kv × Int, sync_cycle st none = st) ∧
    (∀ (st : kv × Int) (q : query_result), st.2 ≤ (sync_cycle st q).2) := by
  refine ⟨?_, sync_cycle_failed, sync_cycle_ge⟩
  unfold last_sync_history load_initial_data
  cases initial with
  | none => exact List.chain'_nil
  | some rows =>
    exact List.Chain.cons (load_foldl_ge rows (m, 0)) (sync_states_chain polls _)

/-! ## Request round trip -/

/-! ### Searching in concatenated text -/

theorem isPrefixOf_cons_ne {c x : Char} (n r : CStr) (h : x ≠ c) :
    (c :: n).isPrefixOf (x :: r) = false := by
  have h' : (c == x) = false := by
    rw [beq_eq_false_iff_ne]
    exact fun e => h e.symm
  simp [List.isPrefixOf, h']

theorem strstr_hit (x : Char) (r n : CStr) (h : n.isPrefixOf (x :: r) = true) :
    strstr (x :: r) n = some (x :: r) := by
  simp only [strstr, h, if_true]

theorem strstr_step (x : Char) (r n : CStr) (h : n.isPrefixOf (x :: r) = false) :
    strstr (x :: r) n = strstr r n := by
  simp only [strstr, h, Bool.false_eq_true, if_false]

theorem strstr_skip (a b n : CStr) (c : Char) (h : c ∉ a) :
    strstr (a ++ b) (c :: n) = strstr b (c :: n) := by
  induction a with
  | nil => rfl
  | cons x t ih =>
    have hx : x ≠ c := fun e => h (by rw [e]; exact List.mem_cons_self _ _)
    have ht : c ∉ t := fun e => h (List.mem_cons_of_mem _ e)
    rw [List.cons_append, strstr_step x (t ++ b) (c :: n) (isPrefixOf_cons_ne n (t ++ b) hx)]
    exact ih ht

theorem prefix_of_prefix_append_sep {α : Type} (n s t : List α) (c : α) (hc : c ∉ n)
    (h : n <+: s ++ c :: t) : n <+: s := by
  induction s generalizing n with
  | nil =>
    cases n with
    | nil => exact List.prefix_refl _
    | cons y n' =>
      simp only [List.nil_append, List.cons_prefix_cons] at h
      exact absurd (by rw [h.1]; exact List.mem_cons_self _ _) hc
  | cons x s' ih =>
    cases n with
    | nil => exact List.nil_prefix
    | cons y n' =>
      simp only [List.cons_append, List.cons_prefix_cons] at h
      have hc' : c ∉ n' := fun e => hc (List.mem_cons_of_mem _ e)
      rw [List.cons_prefix_cons]
      exact ⟨h.1, ih n' hc' h.2⟩

theorem ci_prefix_iff (n hay : CStr) :
    ci_prefix n hay = true ↔ n.map Char.toLower <+: hay.map Char.toLower := by
  unfold ci_prefix
  exact List.isPrefixOf_iff_prefix

theorem ci_prefix_of_append_sep (n s t : CStr) (c : Char)
    (hc : c.toLower ∉ n.map Char.toLower) (h : ci_prefix n (s ++ c :: t) = true) :
    ci_prefix n s = true := by
  rw [ci_prefix_iff] at h ⊢
  rw [List.map_append, List.map_cons] at h
  exact prefix_of_prefix_append_sep _ _ _ _ hc h

theorem ci_prefix_self_append (n t : CStr) : ci_prefix n (n ++ t) = true := by
  rw [ci_prefix_iff, List.map_append]
  exact List.prefix_append _ _

theorem strcasestr_none_suffix (X n : CStr) (h : strcasestr X n = none) (i : Nat)
    (hi : i < X.length) : ci_prefix n (X.drop i) = false := by
  induction X generalizing i with
  | nil => simp at hi
  | cons x t ih =>
    simp only [strcasestr] at h
    split at h
    · cases h
    · rename_i hx
      cases i with
      | zero => simpa using hx
      | succ j =>
        simp only [List.drop_succ_cons]
        exact ih h j (by simpa using hi)

theorem strcasestr_step (x : Char) (r n : CStr) (h : ci_prefix n (x :: r) = false) :
    strcasestr (x :: r) n = strcasestr r n := by
  simp only [strcasestr, h, Bool.false_eq_true, if_false]

theorem strcasestr_skip (a b n : CStr)
    (h : ∀ i < a.length, ci_prefix n (a.drop i ++ b) = false) :
    strcasestr (a ++ b) n = strcasestr b n := by
  induction a with
  | nil => rfl
  | cons x t ih =>
    have h0 := h 0 (by simp)
    simp only [List.drop_zero] at h0
    rw [List.cons_append] at h0 ⊢
    rw [strcasestr_step x (t ++ b) n h0]
    apply ih
    intro i hi
    have := h (i + 1) (by simpa using hi)
    simpa using this

theorem strcasestr_hit (x : Char) (r n : CStr) (h : ci_prefix n (x :: r) = true) :
    strcasestr (x :: r) n = some (x :: r) := by
  simp only [strcasestr, h, if_true]

theorem takeWhile_append_stop (p : Char → Bool) (a b : CStr) (ha : ∀ c ∈ a, p c = true)
    (hb : b.head?.all (fun c => !p c) = true) : (a ++ b).takeWhile p = a := by
  induction a with
  | nil =>
    cases b with
    | nil => rfl
    | cons x r =>
      simp only [List.head?_cons, Option.all_some, Bool.not_eq_true'] at hb
      simp [List.takeWhile_cons, hb]
  | cons x t ih =>
    have hx := ha x (List.mem_cons_self _ _)
    simp only [List.cons_append, List.takeWhile_cons, hx, if_true]
    rw [ih (fun c hc => ha c (List.mem_cons_of_mem _ hc))]

theorem takeWhile_append_all (p : Char → Bool) (a b : CStr) (ha : ∀ c ∈ a, p c = true) :
    (a ++ b).takeWhile p = a ++ b.takeWhile p := by
  induction a with
  | nil => rfl
  | cons x t ih =>
    have hx := ha x (List.mem_cons_self _ _)
    simp only [List.cons_append, List.takeWhile_cons, hx, if_true]
    rw [ih (fun c hc => ha c (List.mem_cons_of_mem _ hc))]

theorem dropWhile_head_stop (p : Char → Bool) (x : Char) (r : CStr) (hx : p x = false) :
    (x :: r).dropWhile p = x :: r := by
  simp [List.dropWhile_cons, hx]


/-! ### Decimal digits -/

theorem digit_char_facts (i : Nat) (h : i < 10) :
    (Char.ofNat (48 + i)).isDigit = true ∧ (Char.ofNat (48 + i)).toNat - 48 = i ∧
    isspace (Char.ofNat (48 + i)) = false ∧ Char.ofNat (48 + i) ≠ ' ' ∧
    Char.ofNat (48 + i) ≠ '\r' ∧ Char.ofNat (48 + i) ≠ NUL ∧
    Char.ofNat (48 + i) ≠ '-' ∧ Char.ofNat (48 + i) ≠ '+' := by
  interval_cases i <;> decide

/-- The digits of `n` as the parser reads them back. -/
theorem dec_digits_aux_spec (fuel n : Nat) (acc : List Char) (k : Nat) (hf : n < fuel)
    (hk : n < 10 ^ (k + 1)) :
    ∃ ds, dec_digits_aux fuel n acc = ds ++ acc ∧ ds ≠ [] ∧
      (∀ c ∈ ds, ∃ i < 10, c = Char.ofNat (48 + i)) ∧
      ds.foldl (fun a c => a * 10 + (c.toNat - 48)) 0 = n ∧ ds.length ≤ k + 1 := by
  induction fuel generalizing n acc k with
  | zero => omega
  | succ fuel ih =>
    by_cases h10 : n < 10
    · refine ⟨[Char.ofNat (48 + n)], ?_, by simp, ?_, ?_, by simp⟩
      · simp [dec_digits_aux, h10]
      · intro c hc
        simp only [List.mem_singleton] at hc
        exact ⟨n, h10, hc⟩
      · simp only [List.foldl_cons, List.foldl_nil, Nat.zero_mul, Nat.zero_add]
        exact (digit_char_facts n h10).2.1
    · have hk1 : 1 ≤ k := by
        by_contra hcon
        have hk0 : k = 0 := by omega
        rw [hk0] at hk
        simp at hk
        omega
      have hq : n / 10 < 10 ^ ((k - 1) + 1) := by
        have e : k - 1 + 1 = k := by omega
        rw [e]
        apply Nat.div_lt_of_lt_mul
        have : 10 ^ (k + 1) = 10 * 10 ^ k := by ring
        omega
      have hfq : n / 10 < fuel := by omega
      obtain ⟨ds, hds, _, hall, hval, hlen⟩ :=
        ih (n / 10) (Char.ofNat (48 + n % 10) :: acc) (k - 1) hfq hq
      have hm : n % 10 < 10 := Nat.mod_lt _ (by decide)
      refine ⟨ds ++ [Char.ofNat (48 + n % 10)], ?_, by simp, ?_, ?_, ?_⟩
      · simp only [dec_digits_aux, h10, if_false, hds, List.append_assoc, List.singleton_append]
      · intro c hc
        rcases List.mem_append.1 hc with h1 | h1
        · exact hall c h1
        · simp only [List.mem_singleton] at h1
          exact ⟨n % 10, hm, h1⟩
      · rw [List.foldl_append, hval]
        simp only [List.foldl_cons, List.foldl_nil]
        rw [(digit_char_facts (n % 10) hm).2.1]
        omega
      · simp only [List.length_append, List.length_singleton]
        omega

theorem dec_digits_spec (n : Nat) (hn : n < 100000) :
    dec_digits n ≠ [] ∧ (∀ c ∈ dec_digits n, ∃ i < 10, c = Char.ofNat (48 + i)) ∧
    (dec_digits n).foldl (fun a c => a * 10 + (c.toNat - 48)) 0 = n ∧
    (dec_digits n).length ≤ 5 := by
  obtain ⟨ds, hds, hne, hall, hval, hlen⟩ :=
    dec_digits_aux_spec (n + 1) n [] 4 (Nat.lt_succ_self n) (by norm_num; omega)
  have e : dec_digits n = ds := by
    unfold dec_digits
    rw [hds, List.append_nil]
  rw [e]
  exact ⟨hne, hall, hval, hlen⟩

/-- The function `atoi` reads back a printed length that is followed by a
carriage return. -/
theorem atoi_dec_digits (n : Nat) (hn : n < 100000) (t : CStr) :
    atoi (dec_digits n ++ '\r' :: t) = (n : Int) := by
  obtain ⟨hne, hall, hval, _⟩ := dec_digits_spec n hn
  have hsp : ∀ c ∈ dec_digits n, isspace c = false := by
    intro c hc
    obtain ⟨i, hi, e⟩ := hall c hc
    rw [e]; exact (digit_char_facts i hi).2.2.1
  have hdig : ∀ c ∈ dec_digits n, c.isDigit = true := by
    intro c hc
    obtain ⟨i, hi, e⟩ := hall c hc
    rw [e]; exact (digit_char_facts i hi).1
  obtain ⟨d, ds, hcons⟩ := List.exists_cons_of_ne_nil hne
  have hd := hall d (by rw [hcons]; exact List.mem_cons_self _ _)
  obtain ⟨i, hi, hdi⟩ := hd
  have f := digit_char_facts i hi
  have hdrop : (dec_digits n ++ '\r' :: t).dropWhile isspace = dec_digits n ++ '\r' :: t := by
    rw [hcons, List.cons_append]
    apply dropWhile_head_stop
    rw [hdi]; exact f.2.2.1
  have hhead : (dec_digits n ++ '\r' :: t).head? = some d := by
    rw [hcons]; rfl
  have hminus : ¬ (some d = some '-') := by
    simp only [Option.some.injEq]
    rw [hdi]; exact f.2.2.2.2.2.2.1
  have hplus : ¬ (some d = some '+') := by
    simp only [Option.some.injEq]
    rw [hdi]; exact f.2.2.2.2.2.2.2
  have htw : (dec_digits n ++ '\r' :: t).takeWhile Char.isDigit = dec_digits n := by
    apply takeWhile_append_stop _ _ _ hdig
    simp only [List.head?_cons, Option.all_some]
    decide
  unfold atoi
  simp only [hdrop, hhead, hminus, hplus, or_self, if_false, htw, hval, decide_False,
    Bool.false_eq_true]
  have hmin : min (n : Int) 9223372036854775807 = (n : Int) := by
    apply min_eq_left
    omega
  rw [hmin]
  unfold int32_wrap
  omega


/-! ### The text of a rendered request -/

theorem token_no_cr {s : CStr} (h : is_token s) : '\r' ∉ s := by
  intro hc
  have := (h '\r' hc).1
  exact absurd this (by decide)

theorem token_no_nul {s : CStr} (h : is_token s) : ∀ c ∈ s, (decide (c ≠ NUL)) = true := by
  intro c hc
  exact decide_eq_true (h c hc).2

theorem token_not_space {s : CStr} (h : is_token s) : ∀ c ∈ s, (!isspace c) = true := by
  intro c hc
  rw [(h c hc).1]; rfl

/-- Scanning `<method> <uri><tail>` with `%15s %511s` gives back `method` and
`uri` when both are tokens within their widths and `tail` is empty or begins
with white space. -/
theorem sscanf_method_uri_tokens (method uri tail : CStr)
    (hm0 : method ≠ []) (hm : is_token method) (hml : method.length ≤ 15)
    (hu0 : uri ≠ []) (hu : is_token uri) (hul : uri.length ≤ 511)
    (ht : tail.head?.all (fun c => !!isspace c) = true) :
    sscanf_method_uri (method ++ ' ' :: (uri ++ tail)) = (method, uri) := by
  obtain ⟨m0, ms, hmc⟩ := List.exists_cons_of_ne_nil hm0
  obtain ⟨u0, us, huc⟩ := List.exists_cons_of_ne_nil hu0
  have hm0s : isspace m0 = false := (hm m0 (by rw [hmc]; exact List.mem_cons_self _ _)).1
  have hu0s : isspace u0 = false := (hu u0 (by rw [huc]; exact List.mem_cons_self _ _)).1
  have d1 : (method ++ ' ' :: (uri ++ tail)).dropWhile isspace
      = method ++ ' ' :: (uri ++ tail) := by
    rw [hmc, List.cons_append]
    exact dropWhile_head_stop _ _ _ hm0s
  have t1 : (method ++ ' ' :: (uri ++ tail)).takeWhile (fun c => !isspace c) = method := by
    apply takeWhile_append_stop _ _ _ (token_not_space hm)
    simp only [List.head?_cons, Option.all_some]
    decide
  have d2 : (uri ++ tail).dropWhile isspace = uri ++ tail := by
    rw [huc, List.cons_append]
    exact dropWhile_head_stop _ _ _ hu0s
  have t2 : (uri ++ tail).takeWhile (fun c => !isspace c) = uri :=
    takeWhile_append_stop _ _ _ (token_not_space hu) ht
  have s1 : scan_s 15 (method ++ ' ' :: (uri ++ tail)) = some (method, ' ' :: (uri ++ tail)) := by
    rw [scan_s_eq, d1, t1, List.take_of_length_le hml, List.drop_left]
    have : method ++ ' ' :: (uri ++ tail) ≠ [] := by
      rw [hmc]; simp
    simp only [this, if_false]
  have d3 : (' ' :: (uri ++ tail)).dropWhile isspace = uri ++ tail := by
    rw [List.dropWhile_cons]
    have : isspace ' ' = true := by decide
    simp only [this, if_true]
    exact d2
  have s2 : scan_s 511 (uri ++ tail) = some (uri, tail) := by
    rw [scan_s_eq, d2, t2, List.take_of_length_le hul, List.drop_left]
    have : uri ++ tail ≠ [] := by
      rw [huc]; simp
    simp only [this, if_false]
  unfold sscanf_method_uri
  rw [s1]
  simp only [d3, s2]

theorem strstr_first_crlf (line rest : CStr) (h : '\r' ∉ line) :
    strstr (line ++ '\r' :: '\n' :: rest) "\r\n".toList = some ('\r' :: '\n' :: rest) := by
  have e : "\r\n".toList = ['\r', '\n'] := rfl
  rw [e, strstr_skip _ _ _ _ h]
  apply strstr_hit
  simp [List.isPrefixOf]

theorem strstr_blank_line (line header rest : CStr) (h1 : '\r' ∉ line) (h2 : '\r' ∉ header)
    (h3 : header.head? ≠ some '\r') (h4 : header ≠ []) :
    strstr (line ++ '\r' :: '\n' :: (header ++ '\r' :: '\n' :: '\r' :: '\n' :: rest))
      "\r\n\r\n".toList = some ('\r' :: '\n' :: '\r' :: '\n' :: rest) := by
  have e : "\r\n\r\n".toList = ['\r', '\n', '\r', '\n'] := rfl
  obtain ⟨x, xs, hx⟩ := List.exists_cons_of_ne_nil h4
  have hxr : x ≠ '\r' := by
    intro e'
    apply h3
    rw [hx, e']; rfl
  rw [e, strstr_skip _ _ _ _ h1]
  have hmiss : List.isPrefixOf ['\r', '\n', '\r', '\n']
      ('\r' :: '\n' :: (header ++ '\r' :: '\n' :: '\r' :: '\n' :: rest)) = false := by
    rw [hx]
    have : ('\r' == x) = false := by
      rw [beq_eq_false_iff_ne]
      exact fun e' => hxr e'.symm
    simp [List.isPrefixOf, this]
  rw [strstr_step _ _ _ hmiss]
  have hnl : '\r' ∉ ('\n' :: header) := by
    simp only [List.mem_cons, not_or]
    exact ⟨by decide, h2⟩
  have := strstr_skip ('\n' :: header) ('\r' :: '\n' :: '\r' :: '\n' :: rest)
    ['\n', '\r', '\n'] '\r' hnl
  rw [List.cons_append] at this
  rw [this]
  apply strstr_hit
  simp [List.isPrefixOf]

theorem ci_prefix_head_ne (n0 : Char) (n : CStr) (x : Char) (r : CStr)
    (h : x.toLower ≠ n0.toLower) : ci_prefix (n0 :: n) (x :: r) = false := by
  unfold ci_prefix
  simp only [List.map_cons]
  exact isPrefixOf_cons_ne _ _ h

theorem strcasestr_skip_chars (a b n : CStr) (n0 : Char)
    (h : ∀ c ∈ a, c.toLower ≠ n0.toLower) :
    strcasestr (a ++ b) (n0 :: n) = strcasestr b (n0 :: n) := by
  induction a with
  | nil => rfl
  | cons x t ih =>
    rw [List.cons_append, strcasestr_step x (t ++ b) (n0 :: n)
      (ci_prefix_head_ne n0 n x (t ++ b) (h x (List.mem_cons_self _ _)))]
    exact ih (fun c hc => h c (List.mem_cons_of_mem _ hc))

/-- The `Content-Length` the parser reads from a rendered request is the
printed length, provided the request line does not itself hold the header
name. -/
theorem parse_content_length_rendered (names : CStr) (n : Nat) (rest : CStr)
    (hn : n < 100000)
    (hcl : strcasestr names "Content-Length:".toList = none) :
    parse_content_length
      (names ++ (" HTTP/1.1\r\n".toList ++
        ("Content-Length:".toList ++ ' ' :: (dec_digits n ++ '\r' :: rest)))) = (n : Int) := by
  have hsep : ∀ i < names.length,
      ci_prefix "Content-Length:".toList
        (names.drop i ++ (" HTTP/1.1\r\n".toList ++
          ("Content-Length:".toList ++ ' ' :: (dec_digits n ++ '\r' :: rest)))) = false := by
    intro i hi
    by_contra hcon
    have htrue : ci_prefix "Content-Length:".toList
        (names.drop i ++ ' ' :: ("HTTP/1.1\r\n".toList ++
          ("Content-Length:".toList ++ ' ' :: (dec_digits n ++ '\r' :: rest)))) = true := by
      simpa using hcon
    have := ci_prefix_of_append_sep _ _ _ ' ' (by decide) htrue
    rw [strcasestr_none_suffix names _ hcl i hi] at this
    cases this
  have e0 : "Content-Length:".toList = 'C' :: "ontent-Length:".toList := rfl
  have hfound : strcasestr
      (names ++ (" HTTP/1.1\r\n".toList ++
        ("Content-Length:".toList ++ ' ' :: (dec_digits n ++ '\r' :: rest))))
      "Content-Length:".toList =
      some ("Content-Length:".toList ++ ' ' :: (dec_digits n ++ '\r' :: rest)) := by
    rw [strcasestr_skip _ _ _ hsep]
    have hskip := strcasestr_skip_chars " HTTP/1.1\r\n".toList
      ("Content-Length:".toList ++ ' ' :: (dec_digits n ++ '\r' :: rest))
      "ontent-Length:".toList 'C' (by decide)
    rw [← e0] at hskip
    rw [hskip]
    have hhit := ci_prefix_self_append "Content-Length:".toList
      (' ' :: (dec_digits n ++ '\r' :: rest))
    generalize hb : "Content-Length:".toList ++ ' ' :: (dec_digits n ++ '\r' :: rest) = b
      at hhit ⊢
    cases b with
    | nil => simp [e0] at hb
    | cons x r => exact strcasestr_hit x r _ hhit
  obtain ⟨hne, hall, _, _⟩ := dec_digits_spec n hn
  obtain ⟨d, ds, hcons⟩ := List.exists_cons_of_ne_nil hne
  obtain ⟨i, hi, hdi⟩ := hall d (by rw [hcons]; exact List.mem_cons_self _ _)
  have hdsp : d ≠ ' ' := by rw [hdi]; exact (digit_char_facts i hi).2.2.2.1
  unfold parse_content_length
  rw [hfound]
  simp only
  have hlen : ("Content-Length:".toList).length = 15 := rfl
  have hdrop : ("Content-Length:".toList ++ ' ' :: (dec_digits n ++ '\r' :: rest)).drop 15
      = ' ' :: (dec_digits n ++ '\r' :: rest) := by
    rw [← hlen, List.drop_left]
  rw [hdrop, List.dropWhile_cons]
  simp only [decide_True, if_true]
  have hstop : (dec_digits n ++ '\r' :: rest).dropWhile (fun c => decide (c = ' '))
      = dec_digits n ++ '\r' :: rest := by
    rw [hcons, List.cons_append]
    apply dropWhile_head_stop
    exact decide_eq_false hdsp
  rw [hstop]
  exact atoi_dec_digits n hn rest


/-! ### Parsing a rendered request -/

theorem render_head_shapes (method uri : CStr) (n : Nat) (t : List Char) :
    render_head method uri n ++ t =
      (method ++ ' ' :: uri ++ " HTTP/1.1".toList) ++ '\r' :: '\n' ::
        (("Content-Length: ".toList ++ dec_digits n) ++ '\r' :: '\n' :: '\r' :: '\n' :: t) ∧
    render_head method uri n ++ t =
      (method ++ ' ' :: uri) ++ (" HTTP/1.1\r\n".toList ++
        ("Content-Length:".toList ++ ' ' :: (dec_digits n ++ '\r' :: ('\n' :: '\r' :: '\n' :: t)))) := by
  have e1 : " HTTP/1.1\r\nContent-Length: ".toList =
      " HTTP/1.1".toList ++ '\r' :: '\n' :: "Content-Length: ".toList := rfl
  have e2 : "\r\n\r\n".toList = ['\r', '\n', '\r', '\n'] := rfl
  have e3 : " HTTP/1.1\r\n".toList = " HTTP/1.1".toList ++ ['\r', '\n'] := rfl
  have e4 : "Content-Length: ".toList = "Content-Length:".toList ++ [' '] := rfl
  constructor
  · unfold render_head
    rw [e1, e2]
    simp only [List.append_assoc, List.cons_append, List.nil_append]
  · unfold render_head
    rw [e1, e2, e3, e4]
    simp only [List.append_assoc, List.cons_append, List.nil_append]

theorem render_head_length (method uri : CStr) (n : Nat) (hn : n < 100000) :
    method.length + uri.length + 33 ≤ (render_head method uri n).length ∧
    (render_head method uri n).length ≤ method.length + uri.length + 37 := by
  obtain ⟨hne, _, _, hlen⟩ := dec_digits_spec n hn
  have hpos : 0 < (dec_digits n).length := List.length_pos.2 hne
  have e1 : (" HTTP/1.1\r\nContent-Length: ".toList).length = 27 := rfl
  have e2 : ("\r\n\r\n".toList).length = 4 := rfl
  unfold render_head
  simp only [List.length_append, List.length_cons, e1, e2]
  omega

theorem render_head_no_nul (method uri : CStr) (n : Nat) (hn : n < 100000)
    (hm : is_token method) (hu : is_token uri) :
    ∀ c ∈ render_head method uri n, (decide (c ≠ NUL)) = true := by
  obtain ⟨_, hall, _, _⟩ := dec_digits_spec n hn
  intro c hc
  unfold render_head at hc
  simp only [List.mem_append, List.mem_cons] at hc
  rcases hc with (((h | h | h) | h) | h) | h
  · exact token_no_nul hm c h
  · rw [h]; decide
  · exact token_no_nul hu c h
  · revert c; decide
  · obtain ⟨i, hi, e⟩ := hall c h
    rw [e]
    exact decide_eq_true (digit_char_facts i hi).2.2.2.2.2.1
  · revert c; decide


theorem http_tail_head (j : Nat) :
    ((" HTTP/1.1".toList).take j).head?.all (fun c => !!isspace c) = true := by
  cases j with
  | zero => rfl
  | succ j => rfl

/-- What the searches of `parse_http_request` find in the head of a rendered
request followed by text `T`: the end of the request line, the blank line, the
announced length, and the two tokens of the request line. -/
theorem rendered_text_facts (method uri : CStr) (n : Nat) (T : CStr)
    (hm0 : method ≠ []) (hm : is_token method) (hml : method.length ≤ 15)
    (hu0 : uri ≠ []) (hu : is_token uri)
    (hline : method.length + 1 + uri.length ≤ 511)
    (hcl : strcasestr (method ++ ' ' :: uri) "Content-Length:".toList = none)
    (hn : n < 100000) :
    ∃ line_end body_start,
      strstr (render_head method uri n ++ T) "\r\n".toList = some line_end ∧
      strstr (render_head method uri n ++ T) "\r\n\r\n".toList = some body_start ∧
      parse_content_length (render_head method uri n ++ T) = (n : Int) ∧
      (render_head method uri n ++ T).length - body_start.length + 4
        = (render_head method uri n).length ∧
      sscanf_method_uri ((render_head method uri n ++ T).take
        (if (render_head method uri n ++ T).length - line_end.length ≥ 512 then 511
         else (render_head method uri n ++ T).length - line_end.length)) = (method, uri) := by
  obtain ⟨hdne, hdall, _, _⟩ := dec_digits_spec n hn
  have hhl := render_head_length method uri n hn
  obtain ⟨sh1, sh2⟩ := render_head_shapes method uri n T
  have hcr_line : '\r' ∉ method ++ ' ' :: uri ++ " HTTP/1.1".toList := by
    simp only [List.mem_append, List.mem_cons, not_or]
    exact ⟨⟨token_no_cr hm, by decide, token_no_cr hu⟩, by decide⟩
  have hcr_dig : '\r' ∉ dec_digits n := by
    intro hc
    obtain ⟨i, hi, e⟩ := hdall _ hc
    exact (digit_char_facts i hi).2.2.2.2.1 e.symm
  have hcr_head : '\r' ∉ "Content-Length: ".toList ++ dec_digits n := by
    simp only [List.mem_append, not_or]
    exact ⟨by decide, hcr_dig⟩
  have f1 : strstr (render_head method uri n ++ T) "\r\n".toList =
      some ('\r' :: '\n' :: (("Content-Length: ".toList ++ dec_digits n) ++
        '\r' :: '\n' :: '\r' :: '\n' :: T)) := by
    rw [sh1]
    exact strstr_first_crlf _ _ hcr_line
  have f2 : strstr (render_head method uri n ++ T) "\r\n\r\n".toList =
      some ('\r' :: '\n' :: '\r' :: '\n' :: T) := by
    rw [sh1]
    apply strstr_blank_line _ _ _ hcr_line hcr_head
    · intro h; cases h
    · intro h
      have : ("Content-Length: ".toList ++ dec_digits n).length = 0 := by rw [h]; rfl
      simp at this
  have f3 : parse_content_length (render_head method uri n ++ T) = (n : Int) := by
    rw [sh2]
    exact parse_content_length_rendered _ n _ hn hcl
  have hlen_line : (render_head method uri n ++ T).length -
      ('\r' :: '\n' :: (("Content-Length: ".toList ++ dec_digits n) ++
        '\r' :: '\n' :: '\r' :: '\n' :: T)).length
      = (method ++ ' ' :: uri ++ " HTTP/1.1".toList).length := by
    rw [sh1]
    simp only [List.length_append, List.length_cons]
    omega
  have hlen_body : (render_head method uri n ++ T).length -
      ('\r' :: '\n' :: '\r' :: '\n' :: T).length + 4 = (render_head method uri n).length := by
    simp only [List.length_append, List.length_cons]
    omega
  have hll : (method ++ ' ' :: uri ++ " HTTP/1.1".toList).length
      = method.length + 1 + uri.length + 9 := by
    have : (" HTTP/1.1".toList).length = 9 := rfl
    simp only [List.length_append, List.length_cons, this]
    omega
  refine ⟨_, _, f1, f2, f3, hlen_body, ?_⟩
  rw [hlen_line]
  have hle : (if (method ++ ' ' :: uri ++ " HTTP/1.1".toList).length ≥ 512 then 511
      else (method ++ ' ' :: uri ++ " HTTP/1.1".toList).length)
      ≤ (method ++ ' ' :: uri ++ " HTTP/1.1".toList).length := by
    split <;> omega
  have hge : (method ++ ' ' :: uri).length ≤
      (if (method ++ ' ' :: uri ++ " HTTP/1.1".toList).length ≥ 512 then 511
      else (method ++ ' ' :: uri ++ " HTTP/1.1".toList).length) := by
    have : (method ++ ' ' :: uri).length = method.length + 1 + uri.length := by
      simp only [List.length_append, List.length_cons]; omega
    split <;> omega
  generalize (if (method ++ ' ' :: uri ++ " HTTP/1.1".toList).length ≥ 512 then 511
      else (method ++ ' ' :: uri ++ " HTTP/1.1".toList).length) = m at hle hge
  rw [sh1, List.take_append_of_le_length hle, List.take_append_eq_append_take,
    List.take_of_length_le hge, List.append_assoc, List.cons_append]
  exact sscanf_method_uri_tokens method uri _ hm0 hm hml hu0 hu (by omega)
    (http_tail_head _)

/-- What `parse_http_request` stores when the first read returns the head of a
rendered request followed by the first bytes `bpre` of its body. A body of
65536 bytes or more is left at `bpre`; a shorter one is completed by the second
read. -/
theorem parse_rendered_core (method uri : CStr) (n : Nat) (bpre : List Char)
    (sock sock1 : Socket)
    (hm0 : method ≠ []) (hm : is_token method) (hml : method.length ≤ 15)
    (hu0 : uri ≠ []) (hu : is_token uri)
    (hline : method.length + 1 + uri.length ≤ 511)
    (hcl : strcasestr (method ++ ' ' :: uri) "Content-Length:".toList = none)
    (hn : n < 100000) (hpre : bpre.length ≤ n) (hpre2 : bpre.length < BODY_SIZE)
    (hrecv : recv sock (BUFFER_SIZE - 1) = (render_head method uri n ++ bpre, sock1)) :
    ∃ req, (parse_http_request sock).result = some req ∧ req.method = method ∧
      req.uri = uri ∧
      req.body = bpre ++ (if bpre.length < n ∧ n < BODY_SIZE
        then (recv sock1 (n - bpre.length)).1 else []) ∧
      req.body_len = req.body.length := by
  have hhl := render_head_length method uri n hn
  have hbuf : (render_head method uri n ++ bpre).takeWhile (fun c => decide (c ≠ NUL))
      = render_head method uri n ++ bpre.takeWhile (fun c => decide (c ≠ NUL)) :=
    takeWhile_append_all _ _ _ (render_head_no_nul method uri n hn hm hu)
  obtain ⟨line_end, body_start, f1, f2, f3, hlen_body, f4⟩ :=
    rendered_text_facts method uri n (bpre.takeWhile (fun c => decide (c ≠ NUL)))
      hm0 hm hml hu0 hu hline hcl hn
  have hbne : (render_head method uri n ++ bpre).length ≠ 0 := by
    simp only [List.length_append]; omega
  have hdrop : (render_head method uri n ++ bpre).drop (render_head method uri n).length
      = bpre := List.drop_left _ _
  have hsub : (render_head method uri n ++ bpre).length - (render_head method uri n).length
      = bpre.length := by
    simp only [List.length_append]; omega
  unfold parse_http_request
  simp only [hrecv, hbne, if_false, hbuf, f1, f2, f3, hlen_body, f4, hdrop, hsub]
  by_cases hz : n = 0
  · have hb0 : bpre = [] := List.length_eq_zero.1 (by omega)
    subst hz
    simp [hb0]
  · have hpos : (n : Int) > 0 := by omega
    simp only [hpos, if_true]
    have hcopied : (if bpre.length > 0 ∧ bpre.length < BODY_SIZE then bpre
        else List.replicate bpre.length NUL) = bpre := by
      by_cases hb : bpre.length > 0
      · simp only [hb, hpre2, and_self, if_true]
      · have hb0 : bpre = [] := List.length_eq_zero.1 (by omega)
        simp [hb0]
    have hrem : (((n : Int) - (bpre.length : Int)) % 18446744073709551616).toNat
        = n - bpre.length := by
      rw [Int.emod_eq_of_lt (by omega) (by omega)]
      omega
    rw [hrem, hcopied]
    have hsum : (bpre.length + (n - bpre.length)) % 18446744073709551616 = n := by
      rw [Nat.mod_eq_of_lt (by omega)]
      omega
    rw [hsum]
    by_cases hlt : bpre.length < n ∧ n < BODY_SIZE
    · have hc : n - bpre.length > 0 ∧ n < BODY_SIZE := ⟨by omega, hlt.2⟩
      simp only [hc, and_self, if_true, hlt]
      exact ⟨_, rfl, rfl, rfl, rfl, by simp⟩
    · have hc : ¬ (n - bpre.length > 0 ∧ n < BODY_SIZE) := by
        intro h
        exact hlt ⟨by omega, h.2⟩
      simp only [hc, if_false, hlt]
      exact ⟨_, rfl, rfl, rfl, by simp, by simp⟩

/-- The first read of a socket whose first run is a whole rendered request. -/
theorem recv_rendered (method uri : CStr) (body : List Char) (more : Socket)
    (hh : (render_head method uri body.length).length ≤ BUFFER_SIZE - 1) :
    recv (render_request method uri body :: more) (BUFFER_SIZE - 1) =
      (render_head method uri body.length ++
          body.take (BUFFER_SIZE - 1 - (render_head method uri body.length).length),
        if (render_request method uri body).length ≤ BUFFER_SIZE - 1 then more
        else body.drop (BUFFER_SIZE - 1 - (render_head method uri body.length).length)
          :: more) := by
  unfold recv render_request
  by_cases hle : (render_head method uri body.length ++ body).length ≤ BUFFER_SIZE - 1
  · have hb : body.length ≤ BUFFER_SIZE - 1 - (render_head method uri body.length).length := by
      simp only [List.length_append] at hle
      omega
    simp only [hle, if_true, List.take_of_length_le hb]
  · simp only [hle, if_false]
    rw [List.take_append_eq_append_take, List.take_of_length_le hh,
      List.drop_append_eq_append_drop, List.drop_of_length_le hh, List.nil_append]

/-- A body of exactly 65536 bytes is cut to what the first read held. -/
theorem parse_rendered_at_cap (body : List Char) (hlen : body.length = 65536) :
    ∃ req, (parse_http_request [render_request "POST".toList "/echo".toList body]).result
        = some req ∧ req.method = "POST".toList ∧ req.uri = "/echo".toList ∧
      req.body_len < BUFFER_SIZE := by
  have hn : body.length < 100000 := by omega
  have hhl := render_head_length "POST".toList "/echo".toList body.length hn
  have hm : ("POST".toList).length = 4 := rfl
  have hu : ("/echo".toList).length = 5 := rfl
  rw [hm, hu] at hhl
  have hh : (render_head "POST".toList "/echo".toList body.length).length ≤ BUFFER_SIZE - 1 := by
    simp only [BUFFER_SIZE]; omega
  have hrecv := recv_rendered "POST".toList "/echo".toList body [] hh
  have htl : (body.take (BUFFER_SIZE - 1 -
      (render_head "POST".toList "/echo".toList body.length).length)).length
      ≤ BUFFER_SIZE - 1 - (render_head "POST".toList "/echo".toList body.length).length := by
    rw [List.length_take]
    exact Nat.min_le_left _ _
  have htb : (body.take (BUFFER_SIZE - 1 -
      (render_head "POST".toList "/echo".toList body.length).length)).length ≤ body.length := by
    rw [List.length_take]
    exact Nat.min_le_right _ _
  obtain ⟨req, h1, h2, h3, h4, h5⟩ := parse_rendered_core "POST".toList "/echo".toList
    body.length (body.take (BUFFER_SIZE - 1 -
      (render_head "POST".toList "/echo".toList body.length).length)) _ _
    (by decide) (by decide) (by decide) (by decide) (by decide) (by decide)
    (by decide) hn htb
    (by simp only [BUFFER_SIZE, BODY_SIZE] at htl ⊢; omega) hrecv
  refine ⟨req, h1, h2, h3, ?_⟩
  have hno : ¬ ((body.take (BUFFER_SIZE - 1 -
      (render_head "POST".toList "/echo".toList body.length).length)).length < body.length ∧
      body.length < BODY_SIZE) := by
    intro h
    have := h.2
    simp only [BODY_SIZE] at this
    omega
  rw [h5, h4]
  rw [if_neg hno, List.append_nil]
  simp only [BUFFER_SIZE] at htl ⊢
  omega

set_option maxRecDepth 100000 in
/-- C19, as stated, fails. (1) With the URI `/content-length:0` the parser takes
the announced length from the URI and stores no body. (2) A body of exactly
65536 bytes is not stored whole: fewer than 8192 bytes are kept. (3) A method
holding a NUL byte ends the text of the request before its first CRLF, and the
parse fails. (4) When the body arrives in more than one further run, only the
first is read. -/
theorem http_round_trip_fails :
    (parse_http_request
        [render_request "POST".toList "/content-length:0".toList "hi".toList]).result =
      some { method := "POST".toList, uri := "/content-length:0".toList } ∧
    (∃ req, (parse_http_request
        [render_request "POST".toList "/echo".toList (List.replicate 65536 'a')]).result
        = some req ∧ req.body_len < BUFFER_SIZE) ∧
    (parse_http_request [render_request ['A', NUL, 'B'] "/x".toList []]).result = none ∧
    (parse_http_request
        [render_head "POST".toList "/x".toList 3, "a".toList, "bc".toList]).result =
      some { method := "POST".toList, uri := "/x".toList, body := "a".toList,
             body_len := 1 } := by
  refine ⟨rfl, ?_, rfl, rfl⟩
  obtain ⟨req, h1, _, _, h4⟩ :=
    parse_rendered_at_cap (List.replicate 65536 'a') (List.length_replicate _ _)
  exact ⟨req, h1, h4⟩

/-- C19, amended: for every method of 1 to 15 bytes and every URI beginning
with `/`, both free of white space and NUL, that together with the blank
between them fill at most 511 bytes and do not contain the text
`Content-Length:` in any letter case, and for every body of at most 65535
bytes: when the request
`<method> <uri> HTTP/1.1\r\nContent-Length: <len(body)>\r\n\r\n<body>` is
available on the socket as one run, `parse_http_request` succeeds and the
method, the URI, the body and `body_len` it stores equal the originals. -/
theorem http_round_trip (method uri : CStr) (body : List Char) (more : Socket)
    (hm0 : method ≠ []) (hml : method.length ≤ 15) (hm : is_token method)
    (hu0 : uri.head? = some '/') (hu : is_token uri)
    (hline : method.length + 1 + uri.length ≤ 511)
    (hcl : strcasestr (method ++ ' ' :: uri) "Content-Length:".toList = none)
    (hb : body.length ≤ 65535) :
    ∃ req, (parse_http_request (render_request method uri body :: more)).result = some req ∧
      req.method = method ∧ req.uri = uri ∧ req.body = body ∧
      req.body_len = body.length := by
  have hn : body.length < 100000 := by omega
  have hune : uri ≠ [] := by
    intro e; rw [e] at hu0; cases hu0
  have hhl := render_head_length method uri body.length hn
  have hh : (render_head method uri body.length).length ≤ BUFFER_SIZE - 1 := by
    simp only [BUFFER_SIZE]; omega
  have hrecv := recv_rendered method uri body more hh
  generalize hk : BUFFER_SIZE - 1 - (render_head method uri body.length).length = k at hrecv
  have htl : (body.take k).length = min k body.length := List.length_take _ _
  obtain ⟨req, h1, h2, h3, h4, h5⟩ := parse_rendered_core method uri body.length
    (body.take k) _ _ hm0 hm hml hune hu hline hcl hn
    (by rw [htl]; exact Nat.min_le_right _ _)
    (by rw [htl]; simp only [BODY_SIZE]; omega) hrecv
  have hbody : req.body = body := by
    rw [h4]
    by_cases hle : body.length ≤ k
    · have hlen : (body.take k).length = body.length := by rw [htl]; omega
      have hno : ¬ ((body.take k).length < body.length ∧ body.length < BODY_SIZE) := by
        intro h; omega
      rw [if_neg hno, List.append_nil, List.take_of_length_le hle]
    · have hlen : (body.take k).length = k := by rw [htl]; omega
      have hyes : (body.take k).length < body.length ∧ body.length < BODY_SIZE := by
        refine ⟨by omega, ?_⟩
        simp only [BODY_SIZE]; omega
      have hbig : ¬ (render_request method uri body).length ≤ BUFFER_SIZE - 1 := by
        unfold render_request
        simp only [List.length_append]
        omega
      rw [if_pos hyes, if_neg hbig, hlen]
      have hchunk : (body.drop k).length ≤ body.length - k := by
        rw [List.length_drop]
      unfold recv
      simp only [hchunk, if_true]
      exact List.take_append_drop k body
  refine ⟨req, h1, h2, h3, hbody, ?_⟩
  rw [h5, hbody]

set_option maxRecDepth 100000 in
/-- Witness for C19 amended: `POST /echo` with the body `hi`. -/
theorem http_round_trip_witness :
    (parse_http_request [render_request "POST".toList "/echo".toList "hi".toList]).result =
      some { method := "POST".toList, uri := "/echo".toList, body := "hi".toList,
             body_len := 2 } ∧
    ∃ req, (parse_http_request
        (render_request "POST".toList "/echo".toList "hi".toList :: [])).result = some req ∧
      req.method = "POST".toList ∧ req.uri = "/echo".toList ∧ req.body = "hi".toList ∧
      req.body_len = "hi".toList.length :=
  ⟨rfl, http_round_trip "POST".toList "/echo".toList "hi".toList [] (by decide) (by decide)
    (by decide) (by decide) (by decide) (by decide) (by decide) (by decide)⟩

/-! ## Request parsing: the request line and its words -/

theorem dropWhile_head_fails (p : Char → Bool) (l : CStr) :
    (l.dropWhile p).head?.all (fun c => !p c) = true := by
  induction l with
  | nil => rfl
  | cons x t ih =>
    by_cases hx : p x = true
    · simp only [List.dropWhile_cons, hx, if_true]; exact ih
    · simp only [Bool.not_eq_true] at hx
      simp [List.dropWhile_cons, hx]

theorem mem_takeWhile_holds (p : Char → Bool) (l : CStr) :
    ∀ c ∈ l.takeWhile p, p c = true := by
  induction l with
  | nil => intro c hc; cases hc
  | cons x t ih =>
    intro c hc
    by_cases hx : p x = true
    · simp only [List.takeWhile_cons, hx, if_true, List.mem_cons] at hc
      rcases hc with rfl | hc
      · exact hx
      · exact ih c hc
    · simp only [Bool.not_eq_true] at hx
      simp [List.takeWhile_cons, hx] at hc

theorem dropWhile_idem (p : Char → Bool) (l : CStr) :
    (l.dropWhile p).dropWhile p = l.dropWhile p := by
  induction l with
  | nil => rfl
  | cons x t ih =>
    by_cases hx : p x = true
    · simp only [List.dropWhile_cons, hx, if_true]; exact ih
    · simp only [Bool.not_eq_true] at hx
      simp [List.dropWhile_cons, hx]

/-- What `sscanf` with `%15s %511s` stores, in words of the line: the method is
the first word cut to 15 bytes; the URI is the rest of the first word when that
word has more than 15 bytes, and the second word otherwise, cut to 511 bytes. -/
theorem sscanf_method_uri_words (line : CStr) :
    sscanf_method_uri line =
      ((first_word line).take 15,
        if 15 < (first_word line).length then ((first_word line).drop 15).take 511
        else (first_word (after_first_word line)).take 511) := by
  unfold sscanf_method_uri first_word after_first_word
  rw [scan_s_eq]
  generalize hs : line.dropWhile isspace = s
  by_cases h0 : s = []
  · subst h0; simp
  · simp only [h0, if_false]
    have hsplit : s = s.takeWhile (fun c => !isspace c) ++ s.dropWhile (fun c => !isspace c) :=
      (List.takeWhile_append_dropWhile _ _).symm
    generalize ht : s.takeWhile (fun c => !isspace c) = t1 at hsplit ⊢
    generalize hr : s.dropWhile (fun c => !isspace c) = r1 at hsplit ⊢
    have hr1 : r1.head?.all (fun c => !!isspace c) = true := by
      rw [← hr]; exact dropWhile_head_fails _ _
    have ht1 : ∀ c ∈ t1, (!isspace c) = true := by
      intro c hc; rw [← ht] at hc
      exact mem_takeWhile_holds _ _ c hc
    by_cases hlen : 15 < t1.length
    · simp only [hlen, if_true]
      have hl15 : (t1.take 15).length = 15 := by rw [List.length_take]; omega
      rw [hl15]
      have hd : s.drop 15 = t1.drop 15 ++ r1 := by
        rw [hsplit, List.drop_append_of_le_length (by omega)]
      rw [hd, scan_s_eq]
      obtain ⟨x, xs, hx⟩ := List.exists_cons_of_ne_nil
        (show t1.drop 15 ≠ [] by
          intro e; have := congrArg List.length e; simp at this; omega)
      have hxs : isspace x = false := by
        have := ht1 x (List.mem_of_mem_drop (by rw [hx]; exact List.mem_cons_self _ _))
        simpa using this
      have hdd : (t1.drop 15 ++ r1).dropWhile isspace = t1.drop 15 ++ r1 := by
        rw [hx]; exact dropWhile_head_stop _ _ _ hxs
      rw [hdd, hdd]
      have hne : t1.drop 15 ++ r1 ≠ [] := by rw [hx]; simp
      simp only [hne, if_false]
      rw [takeWhile_append_stop _ _ _ (fun c hc => ht1 c (List.mem_of_mem_drop hc)) hr1]
    · simp only [hlen, if_false]
      have htk : t1.take 15 = t1 := List.take_of_length_le (by omega)
      rw [htk]
      have hd : s.drop t1.length = r1 := by
        rw [hsplit]; exact List.drop_left _ _
      rw [hd, scan_s_eq, dropWhile_idem]
      by_cases hr0 : r1.dropWhile isspace = []
      · simp [hr0]
      · simp [hr0]

theorem parse_http_request_line (sock : Socket) (req : http_request_t)
    (h : (parse_http_request sock).result = some req) :
    ∃ line, request_line (recv sock (BUFFER_SIZE - 1)).1 = some line ∧
      req.method = (sscanf_method_uri line).1 ∧ req.uri = (sscanf_method_uri line).2 := by
  unfold parse_http_request at h
  unfold request_line
  simp only at h ⊢
  split at h
  · cases h
  split at h
  · cases h
  rename_i line_end hline
  try rw [hline]
  try simp only
  split at h
  · simp only [Option.some.injEq] at h
    exact ⟨_, rfl, by rw [← h], by rw [← h]⟩
  · split at h
    · split at h
      · simp only [Option.some.injEq] at h
        exact ⟨_, rfl, by rw [← h], by rw [← h]⟩
      · simp only [Option.some.injEq] at h
        exact ⟨_, rfl, by rw [← h], by rw [← h]⟩
    · simp only [Option.some.injEq] at h
      exact ⟨_, rfl, by rw [← h], by rw [← h]⟩

/-- The request line of bytes that begin with `line`, CRLF: `line` cut to 511
bytes, when `line` holds neither a carriage return nor a NUL. -/
theorem request_line_of_crlf (line tail : List Char) (hcr : '\r' ∉ line) (hnul : NUL ∉ line) :
    request_line (line ++ "\r\n".toList ++ tail) = some (line.take 511) := by
  unfold request_line
  have e : "\r\n".toList = ['\r', '\n'] := rfl
  have hb : (line ++ "\r\n".toList ++ tail).takeWhile (fun c => decide (c ≠ NUL)) =
      line ++ '\r' :: '\n' :: tail.takeWhile (fun c => decide (c ≠ NUL)) := by
    have hall : ∀ c ∈ line, decide (c ≠ NUL) = true := by
      intro c hc
      apply decide_eq_true
      intro ec
      rw [ec] at hc
      exact hnul hc
    rw [e, List.append_assoc, takeWhile_append_all (fun c => decide (c ≠ NUL)) _ _ hall]
    have h1 : ¬ ('\r' = NUL) := by decide
    have h2 : ¬ ('\n' = NUL) := by decide
    simp [List.takeWhile_cons, h1, h2]
  simp only [hb]
  rw [strstr_first_crlf _ _ hcr]
  simp only [List.length_append, List.length_cons]
  have hlen : line.length + (tail.takeWhile (fun c => decide (c ≠ NUL))).length.succ.succ -
      (tail.takeWhile (fun c => decide (c ≠ NUL))).length.succ.succ = line.length := by omega
  rw [hlen]
  by_cases hl : line.length ≥ 512
  · simp only [hl, if_true]
    congr 1
    rw [List.take_append_of_le_length (by omega)]
  · simp only [hl, if_false]
    congr 1
    rw [List.take_append_of_le_length (by omega), List.take_of_length_le (by omega),
      List.take_of_length_le (by omega)]

theorem request_line_none_iff (bytes : List Char) :
    request_line bytes = none ↔
      strstr (bytes.takeWhile (fun c => c ≠ NUL)) "\r\n".toList = none := by
  unfold request_line
  simp only
  cases strstr (bytes.takeWhile (fun c => decide (c ≠ NUL))) "\r\n".toList with
  | none => simp
  | some line_end => simp

/-- C17, amended: `parse_http_request` returns failure exactly when the first
read delivers no byte or its text before the first NUL holds no CRLF. Every
other request is parsed with success, whatever its request line (the text of
the first read up to the first CRLF, cut to 511 bytes): the stored method is
the first word of that line cut to 15 bytes, empty when the line has no word;
the stored URI is the rest of the first word when that word has more than 15
bytes, and the second word otherwise, cut to 511 bytes, empty when there is
none. In particular bytes that begin with `line`, CRLF, where `line` holds no
carriage return and no NUL, are parsed with success from the words of `line`. -/
theorem parse_http_request_fails_iff (sock : Socket) :
    ((parse_http_request sock).result = none ↔
      (recv sock (BUFFER_SIZE - 1)).1 = [] ∨
      strstr ((recv sock (BUFFER_SIZE - 1)).1.takeWhile (fun c => c ≠ NUL)) "\r\n".toList
        = none) ∧
    (∀ req, (parse_http_request sock).result = some req →
      req.method.length ≤ 15 ∧ req.uri.length ≤ 511 ∧
      ∃ line, request_line (recv sock (BUFFER_SIZE - 1)).1 = some line ∧
        req.method = (first_word line).take 15 ∧
        req.uri =
          if 15 < (first_word line).length then ((first_word line).drop 15).take 511
          else (first_word (after_first_word line)).take 511) ∧
    (∀ line tail, (recv sock (BUFFER_SIZE - 1)).1 = line ++ "\r\n".toList ++ tail →
      '\r' ∉ line → NUL ∉ line →
      ∃ req, (parse_http_request sock).result = some req ∧
        req.method = (first_word (line.take 511)).take 15 ∧
        req.uri =
          if 15 < (first_word (line.take 511)).length then
            ((first_word (line.take 511)).drop 15).take 511
          else (first_word (after_first_word (line.take 511))).take 511) := by
  have hsome : ∀ req, (parse_http_request sock).result = some req →
      req.method.length ≤ 15 ∧ req.uri.length ≤ 511 ∧
      ∃ line, request_line (recv sock (BUFFER_SIZE - 1)).1 = some line ∧
        req.method = (first_word line).take 15 ∧
        req.uri =
          if 15 < (first_word line).length then ((first_word line).drop 15).take 511
          else (first_word (after_first_word line)).take 511 := by
    intro req h
    obtain ⟨line, hl, h1, h2⟩ := parse_http_request_line sock req h
    have hlen := sscanf_method_uri_lengths line
    refine ⟨by rw [h1]; exact hlen.1, by rw [h2]; exact hlen.2, line, hl, ?_, ?_⟩
    · rw [h1, sscanf_method_uri_words]
    · rw [h2, sscanf_method_uri_words]
  refine ⟨parse_http_request_none_iff sock, hsome, ?_⟩
  intro line tail hb hcr hnul
  have hrl := request_line_of_crlf line tail hcr hnul
  rw [← hb] at hrl
  have hnot : (parse_http_request sock).result ≠ none := by
    intro hn
    rcases (parse_http_request_none_iff sock).1 hn with h0 | h0
    · rw [h0] at hb
      have := congrArg List.length hb
      simp at this
      omega
    · rw [(request_line_none_iff _).2 h0] at hrl
      cases hrl
  obtain ⟨req, hreq⟩ := Option.ne_none_iff_exists'.1 hnot
  obtain ⟨_, _, l2, hl2, hm, hu⟩ := hsome req hreq
  rw [hrl] at hl2
  cases hl2
  exact ⟨req, hreq, hm, hu⟩

set_option maxRecDepth 100000 in
/-- C17, amended, on `GET` CRLF and on a request with a 19-byte method: both
are parsed with success; the first leaves the URI empty, the second cuts the
method to 15 bytes and stores the method's last four bytes as the URI. -/
theorem parse_http_request_fails_iff_witness :
    (∃ req, (parse_http_request ["GET\r\n".toList]).result = some req ∧
      req.method = "GET".toList ∧ req.uri = []) ∧
    (∃ req, (parse_http_request ["ABCDEFGHIJKLMNOPQRS /x HTTP/1.1\r\n\r\n".toList]).result
        = some req ∧
      req.method = "ABCDEFGHIJKLMNO".toList ∧ req.uri = "PQRS".toList) := by
  constructor
  · obtain ⟨req, h, hm, hu⟩ :=
      (parse_http_request_fails_iff ["GET\r\n".toList]).2.2 "GET".toList [] rfl
        (by decide) (by decide)
    exact ⟨req, h, hm.trans (by decide), hu.trans (by decide)⟩
  · obtain ⟨req, h, hm, hu⟩ :=
      (parse_http_request_fails_iff ["ABCDEFGHIJKLMNOPQRS /x HTTP/1.1\r\n\r\n".toList]).2.2
        "ABCDEFGHIJKLMNOPQRS /x HTTP/1.1".toList "\r\n".toList rfl (by decide) (by decide)
    exact ⟨req, h, hm.trans (by decide), hu.trans (by decide)⟩


/-! ## Route lookup -/

theorem json_string_field_eq (json key : CStr) (cap : Nat) :
    json_string_field json key cap =
      match stored_field json key with
      | none => []
      | some v => if v.length < cap then v else [] := by
  unfold json_string_field stored_field
  cases h1 : strstr json key with
  | none => rfl
  | some start =>
    simp only
    cases h2 : strchr (start.drop key.length) '"' with
    | none => rfl
    | some stop =>
      simp only
      have hle := strchr_length_le '"' (start.drop key.length) h2
      rw [List.length_take, Nat.min_eq_left (Nat.sub_le _ _)]

theorem deref_ne_nul {p : CStr} (h : deref p ≠ NUL) : p ≠ [] := by
  intro e
  rw [e] at h
  exact h rfl

theorem parse_function_json_fields (json : CStr) (out : FunctionDescriptor) :
    (parse_function_json json out).2 =
      { method := [], uri := [],
        name := json_string_field json "\"name\":\"".toList 64,
        runtime := json_string_field json "\"runtime\":\"".toList 32,
        module := json_string_field json "\"module\":\"".toList 256,
        handler := json_string_field json "\"handler\":\"".toList 128,
        memory := json_int_field json "\"memory\":".toList,
        timeout := json_int_field json "\"timeout\":".toList } := rfl

theorem parse_function_json_result (json : CStr) (out : FunctionDescriptor) :
    (parse_function_json json out).1 =
      if deref (json_string_field json "\"module\":\"".toList 256) ≠ NUL ∧
         deref (json_string_field json "\"handler\":\"".toList 128) ≠ NUL then 0 else -1 := rfl

theorem find_function_found {store : kv} {method uri : CStr} {out : FunctionDescriptor}
    (h : (find_function store method uri out).1 = 0) :
    ∃ json, kv_get store (lookup_key method uri) = some json ∧
      (parse_function_json json
        { out with method := method.take 15, uri := uri.take 127 }).1 = 0 ∧
      (find_function store method uri out).2 =
        (parse_function_json json
          { out with method := method.take 15, uri := uri.take 127 }).2 := by
  unfold find_function at h ⊢
  cases hk : kv_get store (lookup_key method uri) with
  | none => rw [hk] at h; simp at h
  | some json =>
    rw [hk] at h
    simp only at h ⊢
    by_cases hp : (parse_function_json json
        { out with method := method.take 15, uri := uri.take 127 }).1 = 0
    · refine ⟨json, rfl, hp, ?_⟩
      simp [hp]
    · simp [hp] at h

set_option maxRecDepth 100000 in
/-- C22: `find_function` builds its key in a buffer of 256 bytes. With the row
`GET:/aaa...` of 255 bytes stored, a `GET` for a URI of 300 bytes, whose own key
is not stored, is cut to the stored key and the lookup succeeds. -/
theorem find_function_truncates_route_key :
    "GET".toList.length ≤ 15 ∧ (long_uri 300).length ≤ 511 ∧
    kv_get (store_of key255 sample_json) ("GET".toList ++ ':' :: long_uri 300) = none ∧
    lookup_key "GET".toList (long_uri 300) = key255 ∧
    (find_function (store_of key255 sample_json) "GET".toList (long_uri 300) {}).1 = 0 := by
  refine ⟨by decide, by decide, ?_, ?_, ?_⟩ <;> rfl

/-- C23: when `find_function` returns 0 the descriptor written has a non-empty
`module` and a non-empty `handler`; when the value stored under the key lacks
the `module` or the `handler` field, or holds a module of 256 bytes or more or
a handler of 128 bytes or more, `find_function` returns -1. -/
theorem find_function_module_handler (store : kv) (method uri : CStr)
    (out : FunctionDescriptor) :
    ((find_function store method uri out).1 = 0 →
      (find_function store method uri out).2.module ≠ [] ∧
      (find_function store method uri out).2.handler ≠ []) ∧
    (∀ json, kv_get store (lookup_key method uri) = some json →
      (stored_field json "\"module\":\"".toList = none ∨
       stored_field json "\"handler\":\"".toList = none ∨
       (∃ m, stored_field json "\"module\":\"".toList = some m ∧ 256 ≤ m.length) ∨
       (∃ h, stored_field json "\"handler\":\"".toList = some h ∧ 128 ≤ h.length)) →
      (find_function store method uri out).1 = -1) := by
  constructor
  · intro h
    obtain ⟨json, _, hp, hout⟩ := find_function_found h
    rw [hout, parse_function_json_fields]
    rw [parse_function_json_result] at hp
    split at hp
    · rename_i hne
      exact ⟨deref_ne_nul hne.1, deref_ne_nul hne.2⟩
    · cases hp
  · intro json hk hbad
    have hfail : (parse_function_json json
        { out with method := method.take 15, uri := uri.take 127 }).1 = -1 := by
      rw [parse_function_json_result, json_string_field_eq, json_string_field_eq]
      rcases hbad with h | h | ⟨m, h, hm⟩ | ⟨v, h, hv⟩
      · rw [h]; simp [deref]
      · rw [h]; simp [deref]
      · rw [h]; simp [deref, Nat.not_lt.mpr hm]
      · rw [h]; simp [deref, Nat.not_lt.mpr hv]
    unfold find_function
    rw [hk]
    simp only
    rw [hfail]
    rfl

theorem find_function_module_handler_witness :
    ((find_function (store_of "GET:/x".toList sample_json) "GET".toList "/x".toList {}).2.module
        ≠ [] ∧
     (find_function (store_of "GET:/x".toList sample_json) "GET".toList "/x".toList {}).2.handler
        ≠ []) ∧
    (find_function (store_of "GET:/x".toList "\x7b\"module\":\"m\"\x7d".toList) "GET".toList
        "/x".toList {}).1 = -1 :=
  ⟨(find_function_module_handler (store_of "GET:/x".toList sample_json) "GET".toList
      "/x".toList {}).1 (by rfl),
   (find_function_module_handler (store_of "GET:/x".toList "\x7b\"module\":\"m\"\x7d".toList)
      "GET".toList "/x".toList {}).2 "\x7b\"module\":\"m\"\x7d".toList (by rfl)
      (Or.inr (Or.inl (by rfl)))⟩

/-- C24: whenever `find_function` returns 0, the `method` and `uri` of the
descriptor written are empty: the `memset` of `parse_function_json` clears what
`find_function` copied from the request. -/
theorem find_function_clears_method_uri (store : kv) (method uri : CStr)
    (out : FunctionDescriptor) (h : (find_function store method uri out).1 = 0) :
    (find_function store method uri out).2.method = [] ∧
    (find_function store method uri out).2.uri = [] := by
  obtain ⟨json, _, _, hout⟩ := find_function_found h
  rw [hout, parse_function_json_fields]
  exact ⟨rfl, rfl⟩

theorem find_function_clears_method_uri_witness :
    (find_function (store_of "GET:/x".toList sample_json) "GET".toList "/x".toList {}).1 = 0 ∧
    (find_function (store_of "GET:/x".toList sample_json) "GET".toList "/x".toList {}).2.method
        = [] ∧
    (find_function (store_of "GET:/x".toList sample_json) "GET".toList "/x".toList {}).2.uri
        = [] :=
  ⟨by rfl, find_function_clears_method_uri (store_of "GET:/x".toList sample_json) "GET".toList
    "/x".toList {} (by rfl)⟩

/-! ## Freshness of the route store -/

theorem poll_nothing_new (table : registry) (st : kv × Int)
    (h : ∀ row ∈ table, row.updated ≤ st.2) : poll table st = st := by
  have hf : table.filter (fun row => decide (row.updated > st.2)) = [] := by
    rw [List.filter_eq_nil_iff]
    intro row hrow
    have := h row hrow
    simp only [decide_eq_true_eq, gt_iff_lt, not_lt]
    exact this
  unfold poll select_since sync_cycle kv_refresh_from_sqlite_since
  rw [hf]
  simp

theorem poll_n_nothing_new (table : registry) (st : kv × Int)
    (h : ∀ row ∈ table, row.updated ≤ st.2) (n : Nat) : poll_n table st n = st := by
  induction n with
  | zero => rfl
  | succ k ih =>
    simp only [poll_n]
    rw [ih]
    exact poll_nothing_new table st h

set_option maxRecDepth 100000 in
/-- C21: the syncer has loaded a registry whose one row was written in the unix
second 100, so its high-water mark is 100. A second row, `POST:/api/b`, is then
inserted in the same second. No number of later poll cycles upserts it: the
query asks for `updated > 100`, and `kv_get` keeps returning NULL for the key. -/
theorem same_second_row_never_synced :
    synced_once.2 = 100 ∧
    { k := some "POST:/api/b".toList, v := some sample_json, updated := 100 } ∈ two_uploads ∧
    ∀ n, kv_get (poll_n two_uploads synced_once n).1 "POST:/api/b".toList = none := by
  refine ⟨by rfl, by decide, ?_⟩
  intro n
  rw [poll_n_nothing_new two_uploads synced_once (by decide) n]
  rfl

/-! ## The handoff of the client descriptor -/

set_option maxRecDepth 100000 in
/-- C27: an upload whose descriptor part is `[]` is rejected by
`validate_descriptor`, and the body of the 500 response is the object
`status`/`message`/`details` wrapped once more by `send_http_500`, in the text
`\x7b"error":"` ... `"\x7d`; it is not the object of the claim. -/
theorem rejected_descriptor_is_wrapped_twice :
    validate_descriptor "[]".toList VALIDATION_ERROR_SIZE =
      .error "Descriptor must be a JSON object starting with '\x7b'".toList ∧
    handle_http_client quiet_env
        [upload_request "XX".toList "int main()\x7b\x7d".toList "[]".toList] =
      [fd_event.send ("HTTP/1.1 500 Internal Server Error\r\nContent-Type: application/json\r\n" ++
          "Content-Length: 124\r\nConnection: close\r\n\r\n").toList,
       fd_event.send ("\x7b\"error\":\"\x7b\"status\":\"error\",\"message\":\"Invalid descriptor\"," ++
          "\"details\":\"Descriptor must be a JSON object starting with '\x7b'\"\x7d\"\x7d").toList,
       fd_event.close] ∧
    ("\x7b\"error\":\"\x7b\"status\":\"error\",\"message\":\"Invalid descriptor\"," ++
          "\"details\":\"Descriptor must be a JSON object starting with '\x7b'\"\x7d\"\x7d").toList ≠
      ("\x7b\"status\":\"error\",\"message\":\"Invalid descriptor\"," ++
          "\"details\":\"Descriptor must be a JSON object starting with '\x7b'\"\x7d").toList := by
  refine ⟨by rfl, by rfl, by decide⟩

/-! ## The body carried by the handoff -/

theorem cstr_at_zero_of_no_nul (body : List Char) (h : ∀ c ∈ body, c ≠ NUL) :
    cstr_at body 0 = body := by
  unfold cstr_at
  rw [List.drop_zero, List.takeWhile_eq_self_iff]
  intro c hc
  simpa using h c hc

theorem cstr_at_zero_padded (body : List Char) (h : ∀ c ∈ body, c ≠ NUL) (n : Nat)
    (hn : 0 < n) : cstr_at (body ++ List.replicate n NUL) 0 = body := by
  unfold cstr_at
  rw [List.drop_zero]
  apply takeWhile_append_stop
  · intro c hc
    simpa using h c hc
  · cases n with
    | zero => omega
    | succ k => simp [List.replicate_succ]

theorem build_worker_request_body_len (runtime module handler : CStr) (body : List Char) :
    (build_worker_request runtime module handler (some body)).body_len ≤ 4095 := by
  unfold build_worker_request
  simp only [MAX_BODY_LEN]
  split
  · rename_i h
    simp only
    omega
  · simp

theorem build_worker_request_long_body (runtime module handler : CStr) (body : List Char)
    (hnul : ∀ c ∈ body, c ≠ NUL) (hlen : 4096 ≤ body.length) :
    (build_worker_request runtime module handler (some body)).body_len = 4095 := by
  unfold build_worker_request
  simp only [MAX_BODY_LEN, cstr_at_zero_of_no_nul body hnul]
  rw [if_neg (by omega)]

/-- C28, as stated, fails: a body of 4096 bytes is carried as its first 4095
bytes, and a body with a zero byte as the bytes before it. -/
theorem worker_request_cuts_body :
    (List.replicate 4096 'a').length ≤ 4096 ∧
    (build_worker_request [] [] [] (some (List.replicate 4096 'a'))).body_len = 4095 ∧
    ['a', NUL, 'b'].length ≤ 4096 ∧
    (build_worker_request [] [] [] (some ['a', NUL, 'b'])).body_len = 1 ∧
    child_stdin (build_worker_request [] [] [] (some ['a', NUL, 'b'])) = ['a'] := by
  have hlen : (List.replicate 4096 'a').length = 4096 := List.length_replicate _ _
  refine ⟨Nat.le_of_eq hlen, ?_, by decide, by decide, by decide⟩
  apply build_worker_request_long_body
  · intro c hc
    rw [List.eq_of_mem_replicate hc]
    decide
  · exact Nat.le_of_eq hlen.symm

/-- C28, amended: for every request body of at most 4095 bytes that holds no
zero byte, the request built by `send_to_worker_with_fd` carries the body
unchanged with `body_len` equal to its length, and the bytes the worker writes
to the child's standard input equal that body; for every body, the built
`body_len` is at most 4096. -/
theorem worker_request_carries_body (runtime module handler : CStr) (body : List Char)
    (hnul : ∀ c ∈ body, c ≠ NUL) (hlen : body.length ≤ 4095) :
    (build_worker_request runtime module handler (some body)).body_len = body.length ∧
    (build_worker_request runtime module handler (some body)).body.take
        (build_worker_request runtime module handler (some body)).body_len = body ∧
    child_stdin (build_worker_request runtime module handler (some body)) = body ∧
    ∀ any : List Char,
      (build_worker_request runtime module handler (some any)).body_len ≤ 4096 := by
  have hreq : build_worker_request runtime module handler (some body) =
      { runtime := runtime.take 31, module := module.take 255, handler := handler.take 127,
        body := body ++ List.replicate (4096 - body.length) NUL, body_len := body.length } := by
    unfold build_worker_request
    simp only [MAX_BODY_LEN, cstr_at_zero_of_no_nul body hnul]
    rw [if_pos (by omega)]
  refine ⟨by rw [hreq], by rw [hreq]; simp, ?_, fun any =>
    Nat.le_trans (build_worker_request_body_len runtime module handler any) (by omega)⟩
  rw [hreq]
  by_cases h0 : body.length > 0
  · have hwb : worker_request_body
        { runtime := runtime.take 31, module := module.take 255, handler := handler.take 127,
          body := body ++ List.replicate (4096 - body.length) NUL, body_len := body.length }
        = body ++ List.replicate (4096 - body.length) NUL := by
      unfold worker_request_body
      simp only
      rw [if_pos ⟨h0, by omega⟩, List.take_left']
      rfl
    have hb : byte_at (body ++ List.replicate (4096 - body.length) NUL) 0 ≠ NUL := by
      cases body with
      | nil => simp at h0
      | cons x r =>
        simp only [byte_at, List.cons_append, List.getD_cons_zero]
        exact hnul x (List.mem_cons_self _ _)
    unfold child_stdin
    rw [hwb, if_pos hb, cstr_at_zero_padded body hnul _ (by omega)]
  · have hnil : body = [] := List.length_eq_zero.mp (by omega)
    subst hnil
    rfl

theorem worker_request_carries_body_witness :
    (build_worker_request "wasm".toList "m".toList "h".toList (some "hi".toList)).body_len = 2 ∧
    child_stdin (build_worker_request "wasm".toList "m".toList "h".toList (some "hi".toList)) =
      "hi".toList :=
  ⟨(worker_request_carries_body "wasm".toList "m".toList "h".toList "hi".toList (by decide)
      (by decide)).1,
   (worker_request_carries_body "wasm".toList "m".toList "h".toList "hi".toList (by decide)
      (by decide)).2.2.1⟩

/-! ## Reads requested by the request parser -/

/-- What `parse_http_request` does when the first read returns the head of a
rendered request that declares `n` body bytes, followed by more than `n` bytes:
the count of the second `recv` is `n - bpre.length` reduced modulo `2^64`. -/
theorem parse_rendered_overrun (method uri : CStr) (n : Nat) (bpre : List Char)
    (sock sock1 : Socket)
    (hm0 : method ≠ []) (hm : is_token method) (hml : method.length ≤ 15)
    (hu0 : uri ≠ []) (hu : is_token uri)
    (hline : method.length + 1 + uri.length ≤ 511)
    (hcl : strcasestr (method ++ ' ' :: uri) "Content-Length:".toList = none)
    (hn : n < 100000) (hn0 : 0 < n) (hpre : n < bpre.length) (hpre2 : bpre.length < BODY_SIZE)
    (hrecv : recv sock (BUFFER_SIZE - 1) = (render_head method uri n ++ bpre, sock1)) :
    (parse_http_request sock).reads =
      [BUFFER_SIZE - 1, 18446744073709551616 - (bpre.length - n)] ∧
    (parse_http_request sock).result.map (fun req => req.body_len) =
      some (bpre.length +
        (recv sock1 (18446744073709551616 - (bpre.length - n))).1.length) := by
  have hhl := render_head_length method uri n hn
  have hbuf : (render_head method uri n ++ bpre).takeWhile (fun c => decide (c ≠ NUL))
      = render_head method uri n ++ bpre.takeWhile (fun c => decide (c ≠ NUL)) :=
    takeWhile_append_all _ _ _ (render_head_no_nul method uri n hn hm hu)
  obtain ⟨line_end, body_start, f1, f2, f3, hlen_body, f4⟩ :=
    rendered_text_facts method uri n (bpre.takeWhile (fun c => decide (c ≠ NUL)))
      hm0 hm hml hu0 hu hline hcl hn
  have hbne : (render_head method uri n ++ bpre).length ≠ 0 := by
    simp only [List.length_append]; omega
  have hsub : (render_head method uri n ++ bpre).length - (render_head method uri n).length
      = bpre.length := by
    simp only [List.length_append]; omega
  have hpos : (n : Int) > 0 := by omega
  have hB : BODY_SIZE = 65536 := rfl
  have hrem : (((n : Int) - (bpre.length : Int)) % 18446744073709551616).toNat
      = 18446744073709551616 - (bpre.length - n) := by
    have h1 : ((n : Int) - (bpre.length : Int)) % 18446744073709551616
        = (((18446744073709551616 - (bpre.length - n) : Nat)) : Int) := by omega
    rw [h1, Int.toNat_ofNat]
  have hsum : (bpre.length + (18446744073709551616 - (bpre.length - n)))
      % 18446744073709551616 = n := by
    have h2 : bpre.length + (18446744073709551616 - (bpre.length - n))
        = n + 18446744073709551616 := by omega
    rw [h2, Nat.add_mod_right, Nat.mod_eq_of_lt (by omega)]
  have hguard : 18446744073709551616 - (bpre.length - n) > 0 ∧ n < BODY_SIZE := by
    constructor <;> omega
  unfold parse_http_request
  simp only [hrecv, hbne, if_false, hbuf, f1, f2, f3, hlen_body, f4, hsub, hpos, if_true,
    hrem, hsum, hguard, and_self]
  constructor <;> first | rfl | simp

set_option maxRecDepth 100000 in
/-- C30: a request that declares `Content-Length: 2` and arrives with six body
bytes behind its blank line makes `remaining = content_length - already_read`
wrap around: `parse_http_request` asks `recv` for 18446744073709551612 bytes at
offset 6 of the body buffer of 65536 bytes, and with 70000 more bytes pending
the resulting `body_len` is 70006. -/
theorem parse_http_request_oversized_read :
    (parse_http_request ["POST /x HTTP/1.1\r\nContent-Length: 2\r\n\r\nabcdef".toList,
        List.replicate 70000 'x']).reads = [8191, 18446744073709551612] ∧
    BODY_SIZE - 6 < 18446744073709551612 ∧
    (parse_http_request ["POST /x HTTP/1.1\r\nContent-Length: 2\r\n\r\nabcdef".toList,
        List.replicate 70000 'x']).result.map (fun req => req.body_len) = some 70006 ∧
    65535 < 70006 := by
  have hrecv : recv [List.replicate 70000 'x'] 18446744073709551612 =
      (List.replicate 70000 'x', []) := by
    unfold recv
    simp only [List.length_replicate]
    rw [if_pos (by omega)]
  have key := parse_rendered_overrun "POST".toList "/x".toList 2 "abcdef".toList
    ["POST /x HTTP/1.1\r\nContent-Length: 2\r\n\r\nabcdef".toList, List.replicate 70000 'x']
    [List.replicate 70000 'x'] (by decide) (by decide) (by decide) (by decide) (by decide)
    (by decide) (by rfl) (by decide) (by decide) (by decide) (by decide) (by rfl)
  have hR : 18446744073709551616 - ("abcdef".toList.length - 2) = 18446744073709551612 := by
    decide
  have h6 : "abcdef".toList.length = 6 := rfl
  rw [hR, hrecv, h6] at key
  have hlen : (List.replicate 70000 'x', ([] : Socket)).1.length = 70000 :=
    List.length_replicate _ _
  have hsum : (6 : Nat) + 70000 = 70006 := by norm_num
  exact ⟨key.1, by decide,
    (key.2.trans (congrArg (fun t => some (6 + t)) hlen)).trans (congrArg some hsum),
    by decide⟩

/-! ## The reply of the worker -/

theorem read_function_output_single (chunk : List Char) :
    read_function_output [chunk] [] = chunk.take 8191 := by
  simp only [read_function_output, OUTPUT_SIZE, List.length_nil, List.nil_append]
  have h1 : 8192 - 0 - 1 = 8191 := rfl
  rw [h1]
  split
  · rename_i h
    exact (List.length_eq_zero.mp h).symm
  · split <;> rfl

theorem read_function_output_all (pipe : List (List Char)) (acc : List Char)
    (hruns : ∀ r ∈ pipe, r ≠ []) (hlen : acc.length + pipe.flatten.length ≤ 8191) :
    read_function_output pipe acc = acc ++ pipe.flatten := by
  induction pipe generalizing acc with
  | nil => simp [read_function_output]
  | cons chunk rest ih =>
    have hc : chunk ≠ [] := hruns chunk (List.mem_cons_self _ _)
    have hcl : 0 < chunk.length := List.length_pos.mpr hc
    simp only [List.flatten_cons, List.length_append] at hlen
    have htake : chunk.take (OUTPUT_SIZE - acc.length - 1) = chunk := by
      apply List.take_of_length_le
      simp only [OUTPUT_SIZE]
      omega
    simp only [read_function_output, htake, List.flatten_cons]
    rw [if_neg (by omega)]
    split
    · rename_i hfull
      simp only [OUTPUT_SIZE, List.length_append] at hfull
      have hr : rest.flatten = [] := List.length_eq_zero.mp (by omega)
      rw [hr, List.append_nil]
    · rename_i hroom
      simp only [OUTPUT_SIZE, List.length_append] at hroom
      rw [ih (acc ++ chunk) (fun r hr => hruns r (List.mem_cons_of_mem _ hr))
        (by simp only [List.length_append]; omega), List.append_assoc]

theorem http_200_short (body : CStr) (h : body.length ≤ 131071) :
    send_http_200 body ++ [fd_event.close] = reply_200 body := by
  unfold send_http_200 http_200 reply_200
  have ht : body.take (RESPONSE_BODY_SIZE - 1) = body :=
    List.take_of_length_le (by simp only [RESPONSE_BODY_SIZE]; omega)
  rw [ht]

theorem snprintf_length_le (size : Nat) (text : CStr) (_h : 0 < size) :
    (snprintf size text).length ≤ size - 1 := by
  unfold snprintf
  rw [List.length_take]
  exact Nat.min_le_left _ _

theorem snprintf_fits (size : Nat) (text : CStr) (h : text.length ≤ size - 1) :
    snprintf size text = text := List.take_of_length_le h

/-- What the worker sends for a child that exited with code 0, in terms of the
bytes read: the text itself when its first byte is a brace or a bracket, the
wrapper formatted into 8192 bytes otherwise. -/
theorem worker_reply_exit_zero (output : List Char) (hne : output ≠ [])
    (hnul : ∀ c ∈ output, c ≠ NUL) (hlen : output.length ≤ 8191) :
    worker_reply (some 0) output =
      reply_200 (if looks_like_json output then output
        else snprintf 8192 (wrap_result output)) := by
  have htext : cstr_at output 0 = output := cstr_at_zero_of_no_nul output hnul
  have hpos : output.length > 0 := List.length_pos.mpr hne
  unfold worker_reply
  simp only [htext, true_and, hpos, if_true]
  cases output with
  | nil => exact absurd rfl hne
  | cons x r =>
    have hb : byte_at (x :: r) 0 = x := rfl
    simp only [hb, looks_like_json, List.head?_cons, Option.some.injEq]
    by_cases hj : x = '\x7b' ∨ x = '['
    · rw [if_pos hj, if_pos hj]
      exact http_200_short _ (by omega)
    · rw [if_neg hj, if_neg hj]
      apply http_200_short
      have := snprintf_length_le 8192 (wrap_result (x :: r)) (by omega)
      omega

theorem reply_200_injective {a b : CStr} (h : reply_200 a = reply_200 b) : a = b := by
  unfold reply_200 send_http_response at h
  simp only [List.cons_append, List.cons.injEq, fd_event.send.injEq, List.take_length] at h
  obtain ⟨_, h2⟩ := h
  by_cases ha : a.length > 0
  · by_cases hb : b.length > 0
    · simp only [ha, hb, if_true, List.cons_append, List.cons.injEq, fd_event.send.injEq,
        List.nil_append, and_true] at h2
      exact h2
    · simp [ha, hb] at h2
  · by_cases hb : b.length > 0
    · simp [ha, hb] at h2
    · rw [List.length_eq_zero.mp (by omega : a.length = 0),
        List.length_eq_zero.mp (by omega : b.length = 0)]

theorem replicate_no_nul (n : Nat) (a : Char) (ha : a ≠ NUL) :
    ∀ c ∈ List.replicate n a, c ≠ NUL := by
  intro c hc
  rw [List.eq_of_mem_replicate hc]
  exact ha

theorem worker_respond_long_output :
    worker_respond (some 0) [long_output] = reply_200 (List.replicate 8191 '[') := by
  have htake : long_output.take 8191 = List.replicate 8191 '[' := by
    unfold long_output
    rw [List.take_replicate]
    rfl
  have h1 : List.replicate 8191 '[' = '[' :: List.replicate 8190 '[' := List.replicate_succ _ 8190
  unfold worker_respond
  rw [read_function_output_single, htake,
    worker_reply_exit_zero _ (by rw [h1]; exact List.cons_ne_nil _ _)
      (replicate_no_nul _ _ (by decide)) (by rw [List.length_replicate])]
  rw [if_pos (by rw [h1]; exact Or.inr rfl)]

theorem worker_respond_plain_output :
    worker_respond (some 0) [plain_output] = reply_200 (snprintf 8192 (wrap_result plain_output)) := by
  have hlen : plain_output.length = 8191 := List.length_replicate _ _
  have htake : plain_output.take 8191 = plain_output :=
    List.take_of_length_le (Nat.le_of_eq hlen)
  have h1 : plain_output = 'a' :: List.replicate 8190 'a' := List.replicate_succ _ 8190
  unfold worker_respond
  rw [read_function_output_single, htake,
    worker_reply_exit_zero plain_output (by rw [h1]; exact List.cons_ne_nil _ _)
      (replicate_no_nul _ _ (by decide)) (Nat.le_of_eq hlen)]
  rw [if_neg]
  rw [h1]
  unfold looks_like_json
  decide

set_option maxRecDepth 100000 in
/-- C25, as stated, fails. Output that starts with a newline and then a brace is
wrapped, not sent as it is; output with a zero byte is sent up to that byte;
output of 8192 bytes is sent without its last byte; and plain output of 8191
bytes is sent in a wrapper cut to 8191 bytes, the wrapper being 8204 bytes long. -/
theorem worker_reply_not_by_first_nonspace :
    (worker_respond (some 0) ["\n\x7b\"a\":1\x7d".toList] =
        reply_200 (wrap_result "\n\x7b\"a\":1\x7d".toList) ∧
      worker_respond (some 0) ["\n\x7b\"a\":1\x7d".toList] ≠ reply_200 "\n\x7b\"a\":1\x7d".toList) ∧
    (worker_respond (some 0) [['[', NUL, ']']] = reply_200 ['['] ∧
      worker_respond (some 0) [['[', NUL, ']']] ≠ reply_200 ['[', NUL, ']']) ∧
    (worker_respond (some 0) [long_output] = reply_200 (List.replicate 8191 '[') ∧
      long_output.length = 8192 ∧
      worker_respond (some 0) [long_output] ≠ reply_200 long_output) ∧
    (worker_respond (some 0) [plain_output] =
        reply_200 (snprintf 8192 (wrap_result plain_output)) ∧
      (snprintf 8192 (wrap_result plain_output)).length ≤ 8191 ∧
      (wrap_result plain_output).length = 8204 ∧
      worker_respond (some 0) [plain_output] ≠ reply_200 (wrap_result plain_output)) := by
  have hlong : long_output.length = 8192 := List.length_replicate _ _
  have hplain : (wrap_result plain_output).length = 8204 := by
    unfold wrap_result plain_output
    simp only [List.length_append, List.length_replicate]
    rfl
  have hcut := snprintf_length_le 8192 (wrap_result plain_output) (by omega)
  refine ⟨⟨by rfl, by decide⟩, ⟨by rfl, by decide⟩,
    ⟨worker_respond_long_output, hlong, ?_⟩, ⟨worker_respond_plain_output, hcut, hplain, ?_⟩⟩
  · rw [worker_respond_long_output]
    intro h
    have := congrArg List.length (reply_200_injective h)
    rw [List.length_replicate, hlong] at this
    omega
  · rw [worker_respond_plain_output]
    intro h
    have := congrArg List.length (reply_200_injective h)
    omega

/-- C25, amended: for every child run that exits with code 0 and produces
non-empty output without a zero byte, the worker sends the output unchanged as
the 200 JSON body when the output's first byte is a brace or a bracket and the
output is at most 8191 bytes long, and it sends the output wrapped as
`result` when the first byte is neither and the output is at most 8178 bytes
long. -/
theorem worker_reply_by_first_byte (pipe : List (List Char))
    (hruns : ∀ r ∈ pipe, r ≠ []) (hne : pipe.flatten ≠ [])
    (hnul : ∀ c ∈ pipe.flatten, c ≠ NUL) :
    (looks_like_json pipe.flatten → pipe.flatten.length ≤ 8191 →
      worker_respond (some 0) pipe = reply_200 pipe.flatten) ∧
    (¬ looks_like_json pipe.flatten → pipe.flatten.length ≤ 8178 →
      worker_respond (some 0) pipe = reply_200 (wrap_result pipe.flatten)) := by
  constructor
  · intro hj hlen
    unfold worker_respond
    rw [read_function_output_all pipe [] hruns (by simpa using hlen), List.nil_append,
      worker_reply_exit_zero _ hne hnul hlen, if_pos hj]
  · intro hj hlen
    unfold worker_respond
    rw [read_function_output_all pipe [] hruns (by simp only [List.length_nil]; omega),
      List.nil_append, worker_reply_exit_zero _ hne hnul (by omega), if_neg hj,
      snprintf_fits]
    unfold wrap_result
    simp only [List.length_append]
    have h11 : "\x7b\"result\":\"".toList.length = 11 := rfl
    have h2 : "\"\x7d".toList.length = 2 := rfl
    omega

theorem worker_reply_by_first_byte_witness :
    worker_respond (some 0) ["\x7b\"a\":".toList, "1\x7d".toList] =
      reply_200 "\x7b\"a\":1\x7d".toList ∧
    worker_respond (some 0) ["hello".toList] = reply_200 "\x7b\"result\":\"hello\"\x7d".toList :=
  ⟨(worker_reply_by_first_byte ["\x7b\"a\":".toList, "1\x7d".toList] (by decide) (by decide)
      (by decide)).1 (by decide) (by decide),
   (worker_reply_by_first_byte ["hello".toList] (by decide) (by decide) (by decide)).2
      (by decide) (by decide)⟩

/-! ## Registry round trip -/

/-! ### First occurrences in text built from fixed and variable parts -/

theorem clash_append (needle a rest : CStr) (h : clash needle a = true) :
    needle.isPrefixOf (a ++ rest) = false := by
  induction a generalizing needle with
  | nil =>
    cases needle <;> simp [clash, List.isPrefixOf] at h
  | cons x a' ih =>
    cases needle with
    | nil => simp [clash, List.isPrefixOf] at h
    | cons y n' =>
      by_cases hxy : y = x
      · subst hxy
        have h' : clash n' a' = true := by
          simpa [clash, List.isPrefixOf] using h
        simpa [List.isPrefixOf] using ih n' h'
      · have hb : (y == x) = false := by
          rw [beq_eq_false_iff_ne]; exact hxy
        simp [List.isPrefixOf, hb]

theorem strstr_skip_lit (needle lit rest : CStr) (h : skips needle lit = true) :
    strstr (lit ++ rest) needle = strstr rest needle := by
  have hall : ∀ i < lit.length, clash needle (lit.drop i) = true := by
    intro i hi
    unfold skips at h
    rw [List.all_eq_true] at h
    exact h i (List.mem_range.mpr hi)
  clear h
  induction lit with
  | nil => rfl
  | cons x t ih =>
    have h0 := hall 0 (by simp)
    simp only [List.drop_zero] at h0
    rw [List.cons_append, strstr_step x (t ++ rest) needle
      (by rw [← List.cons_append]; exact clash_append needle (x :: t) rest h0)]
    apply ih
    intro i hi
    have := hall (i + 1) (by simpa using hi)
    simpa using this

theorem strstr_self_append (needle tail : CStr) (h : needle ≠ []) :
    strstr (needle ++ tail) needle = some (needle ++ tail) := by
  cases needle with
  | nil => exact absurd rfl h
  | cons x n =>
    rw [List.cons_append]
    apply strstr_hit
    rw [← List.cons_append, List.isPrefixOf_iff_prefix]
    exact List.prefix_append _ _

theorem strchr_skip (v rest : CStr) (c : Char) (h : c ∉ v) :
    strchr (v ++ c :: rest) c = some (c :: rest) := by
  induction v with
  | nil => simp [strchr]
  | cons x t ih =>
    have hx : x ≠ c := fun e => h (by rw [e]; exact List.mem_cons_self _ _)
    have ht : c ∉ t := fun e => h (List.mem_cons_of_mem _ e)
    simp only [List.cons_append, strchr, hx, if_false]
    exact ih ht

theorem json_string_field_at (json K v rest : CStr) (cap : Nat)
    (hfirst : strstr json K = some (K ++ (v ++ '"' :: rest)))
    (hv : '"' ∉ v) (hcap : v.length < cap) :
    json_string_field json K cap = v := by
  unfold json_string_field
  rw [hfirst]
  simp only [List.drop_left, strchr_skip v rest '"' hv, List.length_append, List.length_cons]
  rw [if_pos (by omega)]
  have : v.length + (rest.length + 1) - (rest.length + 1) = v.length := by omega
  rw [this, List.take_left]

theorem json_int_field_at (json K tail : CStr) (hfirst : strstr json K = some (K ++ tail)) :
    json_int_field json K = atoi tail := by
  unfold json_int_field
  rw [hfirst]
  simp only [List.drop_left]

/-! ### The minted id -/

theorem dec_digits_aux_chars (P : Char → Prop) (hP : ∀ i < 10, P (Char.ofNat (48 + i)))
    (fuel n : Nat) (acc : List Char) (hacc : ∀ c ∈ acc, P c) :
    ∀ c ∈ dec_digits_aux fuel n acc, P c := by
  induction fuel generalizing n acc with
  | zero => simpa [dec_digits_aux] using hacc
  | succ f ih =>
    unfold dec_digits_aux
    split
    · rename_i hlt
      intro c hc
      rcases List.mem_cons.mp hc with rfl | hc
      · exact hP n hlt
      · exact hacc c hc
    · apply ih
      intro c hc
      rcases List.mem_cons.mp hc with rfl | hc
      · exact hP (n % 10) (Nat.mod_lt _ (by omega))
      · exact hacc c hc

theorem dec_digits_no_quote (n : Nat) : '"' ∉ dec_digits n := by
  intro h
  have := dec_digits_aux_chars (fun c => c ≠ '"')
    (by intro i hi; interval_cases i <;> decide) (n + 1) n [] (by simp) '"' h
  exact this rfl

theorem dec_digits_aux_length (fuel n : Nat) (acc : List Char) (k : Nat) (hk : 1 ≤ k)
    (hn : n < 10 ^ k) : (dec_digits_aux fuel n acc).length ≤ k + acc.length := by
  induction fuel generalizing n acc k with
  | zero => simp [dec_digits_aux]
  | succ f ih =>
    unfold dec_digits_aux
    split
    · simp only [List.length_cons]; omega
    · rename_i hge
      have hk2 : 2 ≤ k := by
        by_contra hlt
        have : k = 1 := by omega
        subst this
        simp at hn
        omega
      have hdiv : n / 10 < 10 ^ (k - 1) := by
        rw [Nat.div_lt_iff_lt_mul (by omega)]
        calc n < 10 ^ k := hn
          _ = 10 ^ (k - 1 + 1) := by rw [Nat.sub_add_cancel (by omega)]
          _ = 10 ^ (k - 1) * 10 := by rw [Nat.pow_succ]
      have := ih (n / 10) (Char.ofNat (48 + n % 10) :: acc) (k - 1) (by omega) hdiv
      simp only [List.length_cons] at this
      omega

theorem dec_digits_length (n k : Nat) (hk : 1 ≤ k) (hn : n < 10 ^ k) :
    (dec_digits n).length ≤ k := by
  have := dec_digits_aux_length (n + 1) n [] k hk hn
  simpa [dec_digits] using this

theorem mint_tail_no_quote (now : Int) (upload_counter pid : Nat) :
    '"' ∉ mint_tail now upload_counter pid := by
  unfold mint_tail
  simp only [List.mem_append, List.mem_cons, not_or]
  exact ⟨⟨dec_digits_no_quote _, by decide, dec_digits_no_quote _⟩, by decide,
    dec_digits_no_quote _⟩

theorem mint_tail_length (now : Int) (upload_counter pid : Nat) :
    (mint_tail now upload_counter pid).length ≤ 35 := by
  have h1 : (now % 18446744073709551616).toNat < 10 ^ 20 := by
    have := Int.emod_lt_of_pos now (by decide : (0 : Int) < 18446744073709551616)
    have := Int.emod_nonneg now (by decide : (18446744073709551616 : Int) ≠ 0)
    have h10 : (18446744073709551616 : Nat) < 10 ^ 20 := by norm_num
    omega
  have h2 : upload_counter % 4294967296 < 10 ^ 10 := by
    have := Nat.mod_lt upload_counter (by decide : 0 < 4294967296)
    have h10 : (4294967296 : Nat) < 10 ^ 10 := by norm_num
    omega
  have h3 : pid % 1000 < 10 ^ 3 := Nat.mod_lt _ (by decide)
  have l1 := dec_digits_length _ 20 (by decide) h1
  have l2 := dec_digits_length _ 10 (by decide) h2
  have l3 := dec_digits_length _ 3 (by decide) h3
  unfold mint_tail
  simp only [List.length_append, List.length_cons]
  omega

theorem mint_uuid_eq (now : Int) (upload_counter pid : Nat) :
    mint_uuid now upload_counter pid = "func_".toList ++ mint_tail now upload_counter pid := by
  have hpid : dec_int ((pid : Int) % 1000) = dec_digits (pid % 1000) := by
    unfold dec_int
    have h0 : ¬ ((pid : Int) % 1000 < 0) := by omega
    have h1 : ((pid : Int) % 1000).toNat = pid % 1000 := by omega
    rw [if_neg h0, h1]
  have hlen := mint_tail_length now upload_counter pid
  unfold mint_uuid
  rw [hpid]
  apply snprintf_fits
  have h5 : "func_".toList.length = 5 := rfl
  unfold mint_tail at hlen
  simp only [List.length_append, List.length_cons, h5] at hlen ⊢
  omega

/-! ### Searching the registry value -/

theorem passes_lit {needle lit : CStr} (h : skips needle lit = true) : passes needle lit :=
  fun tail => strstr_skip_lit needle lit tail h

theorem passes_free {needle part : CStr} {c : Char} (hc : needle.head? = some c)
    (h : c ∉ part) : passes needle part := by
  intro tail
  cases needle with
  | nil => simp at hc
  | cons x n =>
    simp only [List.head?_cons, Option.some.injEq] at hc
    subst hc
    exact strstr_skip part tail n x h

theorem passes_append {needle p q : CStr} (hp : passes needle p) (hq : passes needle q) :
    passes needle (p ++ q) := by
  intro tail
  rw [List.append_assoc, hp, hq]

theorem strstr_locate (needle part tail : CStr) (hp : passes needle part)
    (hn : needle ≠ []) :
    strstr (part ++ (needle ++ tail)) needle = some (needle ++ tail) := by
  rw [hp, strstr_self_append needle tail hn]

/-- The registry value of the id `func_` followed by `D`, as fixed texts around
the three places where `D` stands. -/
theorem dbjson_shape (D : CStr) (hlen : D.length ≤ 35) :
    dbjson ("func_".toList ++ D) =
      "\x7b\"name\":\"func_".toList ++ (D ++
        ("\",\"runtime\":\"wasm\",\"module\":\"/opt/functions/func_".toList ++ (D ++
          ("/module.wasm\",\"handler\":\"func_".toList ++ (D ++
            "\",\"memory\":128,\"timeout\":5\x7d".toList))))) := by
  have h5 : "func_".toList.length = 5 := rfl
  have hpath : out_module ("func_".toList ++ D) =
      "/opt/functions/func_".toList ++ (D ++ "/module.wasm".toList) := by
    unfold out_module
    rw [snprintf_fits 1024 _ (by
      simp only [List.length_append, List.length_cons, h5]
      have : "/opt/functions".toList.length = 14 := rfl
      omega)]
    rw [snprintf_fits 2048 _ (by
      simp only [List.length_append, List.length_cons, h5]
      have : "/opt/functions".toList.length = 14 := rfl
      have : "/module.wasm".toList.length = 12 := rfl
      omega)]
    simp only [List.append_assoc]
    rfl
  unfold dbjson
  rw [hpath, snprintf_fits 2048 _ (by
    simp only [List.length_append, List.length_cons, h5]
    have : "\x7b\"name\":\"".toList.length = 9 := rfl
    have : "\",\"runtime\":\"wasm\",\"module\":\"".toList.length = 29 := rfl
    have : "/opt/functions/func_".toList.length = 20 := rfl
    have : "/module.wasm".toList.length = 12 := rfl
    have : "\",\"handler\":\"".toList.length = 13 := rfl
    have : "\",\"memory\":128,\"timeout\":5\x7d".toList.length = 27 := rfl
    omega)]
  simp only [List.append_assoc]
  rfl

theorem dbjson_name (D : CStr) (hq : '"' ∉ D) (hlen : D.length ≤ 35) :
    json_string_field (dbjson ("func_".toList ++ D)) "\"name\":\"".toList 64 =
      "func_".toList ++ D := by
  rw [dbjson_shape D hlen]
  apply json_string_field_at _ _ _
    (",\"runtime\":\"wasm\",\"module\":\"/opt/functions/func_".toList ++ (D ++
      ("/module.wasm\",\"handler\":\"func_".toList ++ (D ++
        "\",\"memory\":128,\"timeout\":5\x7d".toList))))
  · have hP := strstr_locate ("\"name\":\"".toList) ("\x7b".toList)
      (("func_".toList ++ D) ++ '"' ::
        (",\"runtime\":\"wasm\",\"module\":\"/opt/functions/func_".toList ++ (D ++
          ("/module.wasm\",\"handler\":\"func_".toList ++ (D ++
            "\",\"memory\":128,\"timeout\":5\x7d".toList)))))
      (passes_lit (by decide)) (by decide)
    simp only [List.append_assoc] at hP
    exact hP
  · simp only [List.mem_append, not_or]
    exact ⟨by decide, hq⟩
  · have h5 : "func_".toList.length = 5 := rfl
    simp only [List.length_append, h5]
    omega

theorem dbjson_runtime (D : CStr) (hq : '"' ∉ D) (hlen : D.length ≤ 35) :
    json_string_field (dbjson ("func_".toList ++ D)) "\"runtime\":\"".toList 32 =
      "wasm".toList := by
  rw [dbjson_shape D hlen]
  apply json_string_field_at _ _ _
    (",\"module\":\"/opt/functions/func_".toList ++ (D ++
      ("/module.wasm\",\"handler\":\"func_".toList ++ (D ++
        "\",\"memory\":128,\"timeout\":5\x7d".toList))))
  · have hP := strstr_locate ("\"runtime\":\"".toList)
      (("\x7b\"name\":\"func_".toList ++ D) ++ "\",".toList)
      ("wasm".toList ++ '"' ::
        (",\"module\":\"/opt/functions/func_".toList ++ (D ++
          ("/module.wasm\",\"handler\":\"func_".toList ++ (D ++
            "\",\"memory\":128,\"timeout\":5\x7d".toList)))))
      (passes_append (passes_append (passes_lit (by decide)) (passes_free rfl hq))
        (passes_lit (by decide))) (by decide)
    simp only [List.append_assoc] at hP
    exact hP
  · decide
  · decide

theorem dbjson_module (D : CStr) (hq : '"' ∉ D) (hlen : D.length ≤ 35) :
    json_string_field (dbjson ("func_".toList ++ D)) "\"module\":\"".toList 256 =
      "/opt/functions/func_".toList ++ (D ++ "/module.wasm".toList) := by
  rw [dbjson_shape D hlen]
  apply json_string_field_at _ _ _
    (",\"handler\":\"func_".toList ++ (D ++ "\",\"memory\":128,\"timeout\":5\x7d".toList))
  · have hP := strstr_locate ("\"module\":\"".toList)
      (("\x7b\"name\":\"func_".toList ++ D) ++ "\",\"runtime\":\"wasm\",".toList)
      (("/opt/functions/func_".toList ++ (D ++ "/module.wasm".toList)) ++ '"' ::
        (",\"handler\":\"func_".toList ++ (D ++ "\",\"memory\":128,\"timeout\":5\x7d".toList)))
      (passes_append (passes_append (passes_lit (by decide)) (passes_free rfl hq))
        (passes_lit (by decide))) (by decide)
    simp only [List.append_assoc] at hP ⊢
    exact hP
  · simp only [List.mem_append, not_or]
    exact ⟨by decide, hq, by decide⟩
  · have h20 : "/opt/functions/func_".toList.length = 20 := rfl
    have h12 : "/module.wasm".toList.length = 12 := rfl
    simp only [List.length_append, h20, h12]
    omega

theorem dbjson_handler (D : CStr) (hq : '"' ∉ D) (hlen : D.length ≤ 35) :
    json_string_field (dbjson ("func_".toList ++ D)) "\"handler\":\"".toList 128 =
      "func_".toList ++ D := by
  rw [dbjson_shape D hlen]
  apply json_string_field_at _ _ _ (",\"memory\":128,\"timeout\":5\x7d".toList)
  · have hP := strstr_locate ("\"handler\":\"".toList)
      ((((("\x7b\"name\":\"func_".toList ++ D) ++
        "\",\"runtime\":\"wasm\",\"module\":\"/opt/functions/func_".toList) ++ D) ++
        "/module.wasm\",".toList))
      (("func_".toList ++ D) ++ '"' :: ",\"memory\":128,\"timeout\":5\x7d".toList)
      (passes_append (passes_append (passes_append (passes_append (passes_lit (by decide))
        (passes_free rfl hq)) (passes_lit (by decide))) (passes_free rfl hq))
        (passes_lit (by decide))) (by decide)
    simp only [List.append_assoc] at hP
    exact hP
  · simp only [List.mem_append, not_or]
    exact ⟨by decide, hq⟩
  · have h5 : "func_".toList.length = 5 := rfl
    simp only [List.length_append, h5]
    omega

theorem dbjson_memory (D : CStr) (hq : '"' ∉ D) (hlen : D.length ≤ 35) :
    json_int_field (dbjson ("func_".toList ++ D)) "\"memory\":".toList = 128 := by
  rw [dbjson_shape D hlen]
  have hP := strstr_locate ("\"memory\":".toList)
    ((((((("\x7b\"name\":\"func_".toList ++ D) ++
      "\",\"runtime\":\"wasm\",\"module\":\"/opt/functions/func_".toList) ++ D) ++
      "/module.wasm\",\"handler\":\"func_".toList) ++ D) ++ "\",".toList))
    "128,\"timeout\":5\x7d".toList
    (passes_append (passes_append (passes_append (passes_append (passes_append
      (passes_append (passes_lit (by decide)) (passes_free rfl hq)) (passes_lit (by decide)))
      (passes_free rfl hq)) (passes_lit (by decide))) (passes_free rfl hq))
      (passes_lit (by decide))) (by decide)
  simp only [List.append_assoc] at hP
  exact (json_int_field_at _ _ _ hP).trans (by rfl)

theorem dbjson_timeout (D : CStr) (hq : '"' ∉ D) (hlen : D.length ≤ 35) :
    json_int_field (dbjson ("func_".toList ++ D)) "\"timeout\":".toList = 5 := by
  rw [dbjson_shape D hlen]
  have hP := strstr_locate ("\"timeout\":".toList)
    ((((((("\x7b\"name\":\"func_".toList ++ D) ++
      "\",\"runtime\":\"wasm\",\"module\":\"/opt/functions/func_".toList) ++ D) ++
      "/module.wasm\",\"handler\":\"func_".toList) ++ D) ++ "\",\"memory\":128,".toList))
    "5\x7d".toList
    (passes_append (passes_append (passes_append (passes_append (passes_append
      (passes_append (passes_lit (by decide)) (passes_free rfl hq)) (passes_lit (by decide)))
      (passes_free rfl hq)) (passes_lit (by decide))) (passes_free rfl hq))
      (passes_lit (by decide))) (by decide)
  simp only [List.append_assoc] at hP
  exact (json_int_field_at _ _ _ hP).trans (by rfl)

/-- C29: for every id the upload pipeline mints, `parse_function_json` applied
to the registry value `compile_function` builds for it returns 0 and yields
`name` and `handler` equal to the id, `runtime` equal to `wasm`, `module` equal
to `/opt/functions/<id>/module.wasm`, `memory` 128 and `timeout` 5; the id is
not empty, so no field is cut or left empty. -/
theorem registry_round_trip (now : Int) (upload_counter pid : Nat) (out : FunctionDescriptor) :
    parse_function_json (dbjson (mint_uuid now upload_counter pid)) out =
      (0, registered (mint_uuid now upload_counter pid)) ∧
    mint_uuid now upload_counter pid ≠ [] := by
  have hq := mint_tail_no_quote now upload_counter pid
  have hlen := mint_tail_length now upload_counter pid
  rw [mint_uuid_eq]
  generalize mint_tail now upload_counter pid = D at hq hlen
  refine ⟨?_, by simp⟩
  apply Prod.ext
  · rw [parse_function_json_result, dbjson_module D hq hlen, dbjson_handler D hq hlen]
    have h1 : deref ("/opt/functions/func_".toList ++ (D ++ "/module.wasm".toList)) = '/' := rfl
    have h2 : deref ("func_".toList ++ D) = 'f' := rfl
    rw [h1, h2, if_pos (by constructor <;> decide)]
  · rw [parse_function_json_fields, dbjson_name D hq hlen, dbjson_runtime D hq hlen,
      dbjson_module D hq hlen, dbjson_handler D hq hlen, dbjson_memory D hq hlen,
      dbjson_timeout D hq hlen]
    unfold registered
    simp only [List.append_assoc]
    rfl
end Zappy
